import Mathlib

/-! AnaMorph: cell-network preconditioning.

A shallow embedding of `preliminaryPreconditioning`
(`tsrc/CellNetworkAlg.impl.hh`) and of the declarations in
`include/MeshAlgorithms.hh`.

Conventions of the embedding:

* the scalar type `R` is a template parameter of the source; it is kept as a
  parameter here, any linearly ordered field with a ceiling function, so that
  arithmetic is exact.  Concrete evaluations use `ℚ`;
* handles into the cell network (`neurite_segment_iterator`, `neurite_iterator`,
  `NeuriteSegment *`) are the `uint32_t` ids of their referents, as naturals;
* the `CellNetwork` container, `Vec3` and `PriorityQueue` are not part of the
  sources at hand: the container is a record of its member functions over an
  arbitrary state type `Net`, `Vec3` and the queue are modelled below;
* a `throw` is a value of `Except`; undefined behaviour and a loop that has not
  finished within its fuel are `none`.
-/

namespace AnaMorph

/-! ## Vec3 -/

/-- Modelled from the spec: the 3D vector type `Vec3<R>` of the geometry
primitives (its header is not among the sources), with componentwise affine
operations. -/
@[ext]
structure Vec3 (R : Type) where
  x : R
  y : R
  z : R
deriving DecidableEq, Repr

namespace Vec3

variable {R : Type}

/-- Modelled from the spec: `Vec3::operator+`, componentwise. -/
def add [Add R] (a b : Vec3 R) : Vec3 R := ⟨a.x + b.x, a.y + b.y, a.z + b.z⟩

/-- Modelled from the spec: `Vec3::operator-`, componentwise. -/
def sub [Sub R] (a b : Vec3 R) : Vec3 R := ⟨a.x - b.x, a.y - b.y, a.z - b.z⟩

/-- Modelled from the spec: `Vec3::operator*(R)`, scaling by a scalar on the right. -/
def scale [Mul R] (a : Vec3 R) (s : R) : Vec3 R := ⟨a.x * s, a.y * s, a.z * s⟩

instance [Add R] : Add (Vec3 R) := ⟨Vec3.add⟩
instance [Sub R] : Sub (Vec3 R) := ⟨Vec3.sub⟩
instance [Mul R] : HMul (Vec3 R) R (Vec3 R) := ⟨Vec3.scale⟩

end Vec3

/-- Modelled from the spec: a Euclidean `Vec3::len2` over `ℚ`, exact on every
vector whose Euclidean length is rational (`Rat.sqrt` is the exact root of a
rational square).  The embedding takes `len2` as a parameter; this instance is
used for concrete evaluations only. -/
def len2Q (v : Vec3 ℚ) : ℚ := Rat.sqrt (v.x * v.x + v.y * v.y + v.z * v.z)

/-! ## The cell network interface -/

/-- Modelled from the spec: the member functions of `CellNetwork` (an external
collaborator, its class is not among the sources) that
`preliminaryPreconditioning` calls, over an arbitrary network state `Net`.
Segments and vertices are referred to by id.

* `neurite_segments C` is the iteration order of `C.neurite_segments`;
* `getLength`, `getMaxRadius`, `getSMDVRadii`, `getSourceVertex`,
  `getDestinationVertex` are the `NeuriteSegment` accessors;
* `getPosition`, `getRadius` and the four role predicates are the
  `NeuriteVertex` accessors;
* `split C s vs` is `C.neurite_segments.split(s, vs)`;
* `collapse C e p` is `C.neurite_segments.collapse(e, p)`, giving the new
  network and the vertex the segment was collapsed into;
* `getFilteredInEdges`, `getFilteredOutEdges` list the neurite segments
  entering and leaving a vertex. -/
structure CellNetwork (R : Type) (Net : Type) where
  neurite_segments : Net → List Nat
  getLength : Net → Nat → R
  getMaxRadius : Net → Nat → R
  getSMDVRadii : Net → Nat → R × R
  getSourceVertex : Net → Nat → Nat
  getDestinationVertex : Net → Nat → Nat
  getPosition : Net → Nat → Vec3 R
  getRadius : Net → Nat → R
  isNeuriteRootVertex : Net → Nat → Bool
  isNeuriteTerminalVertex : Net → Nat → Bool
  isNeuriteBranchingVertex : Net → Nat → Bool
  isNeuriteSimpleVertex : Net → Nat → Bool
  split : Net → Nat → List (Vec3 R × R) → Net
  collapse : Net → Nat → Vec3 R × R → Net × Nat
  getFilteredInEdges : Net → Nat → List Nat
  getFilteredOutEdges : Net → Nat → List Nat

namespace CellNetwork

variable {R Net : Type}

/-- The test `C.neurite_segments.find(id) != C.neurite_segments.end()`. -/
def find (ops : CellNetwork R Net) (C : Net) (id : Nat) : Bool :=
  (ops.neurite_segments C).contains id

/-- Number of neurite segments of the network. -/
def segmentCount (ops : CellNetwork R Net) (C : Net) : Nat :=
  (ops.neurite_segments C).length

end CellNetwork

/-! ## The priority queue -/

/-- Modelled from the spec: `PriorityQueue<K, V>` (its header is not among the
sources), a min-priority queue of `(key, value)` pairs supporting `insert`,
`top`, `deleteMin`, `changeKey`, `clear` and `empty`.  It is kept as the list
of its entries in insertion order; among entries of equal minimal key `top` is
the one inserted first. -/
abbrev PriorityQueue (K V : Type) := List (K × V)

namespace PriorityQueue

variable {K V : Type}

/-- Modelled from the spec: `Q.clear()`. -/
def clear (_Q : PriorityQueue K V) : PriorityQueue K V := []

/-- Modelled from the spec: `Q.empty()`. -/
def empty (Q : PriorityQueue K V) : Bool := List.isEmpty Q

/-- Modelled from the spec: `Q.insert(key, value)`. -/
def insert (Q : PriorityQueue K V) (k : K) (v : V) : PriorityQueue K V := Q ++ [(k, v)]

/-- Modelled from the spec: `Q.top()`, an entry of minimal key (`none` on the
empty queue). -/
def top [LinearOrder K] : PriorityQueue K V → Option (K × V)
  | [] => none
  | e :: es =>
    match top es with
    | none => some e
    | some m => if m.1 < e.1 then some m else some e

/-- Modelled from the spec: `Q.deleteMin()`, removing the entry `top` returns. -/
def deleteMin [LinearOrder K] [DecidableEq V] (Q : PriorityQueue K V) : PriorityQueue K V :=
  match top Q with
  | none => Q
  | some m => List.erase Q m

/-- Modelled from the spec: `Q.changeKey(value, key)`: when `value` is present
its key is replaced and the call returns `true`, otherwise the queue is left
alone and the call returns `false`. -/
def changeKey [DecidableEq V] (Q : PriorityQueue K V) (v : V) (k : K) :
    PriorityQueue K V × Bool :=
  (Q.map (fun e => if e.2 = v then (k, v) else e), Q.any (fun e => decide (e.2 = v)))

end PriorityQueue

/-! ## Phase 2: greedy collapse -/

section Phase2

variable {R Net : Type} [LinearOrderedField R]

/-- The lambda `calculate_ns_weight` (lines 189-201). -/
def calculate_ns_weight (ops : CellNetwork R Net) (alpha beta : R) (C : Net) (ns_it : Nat) : R :=
  let ns_len := ops.getLength C ns_it
  let smdv_radii := ops.getSMDVRadii C ns_it
  min (ns_len - alpha * ops.getMaxRadius C ns_it)
      (ns_len - beta * (smdv_radii.1 + smdv_radii.2))

/-- The three distinct `throw` sites of phase 2, told apart by their message:
the key mismatch (line 244), the "logically impossible case for destination
vertex v" (lines 282, 308, 326) and the "logically impossible case for source
vertex u" (line 332). -/
inductive Fault where
  | keyMismatch
  | impossibleDestination
  | impossibleSource
deriving DecidableEq, Repr

/-- The case distinction on the vertex types of `e = (u, v)` (lines 265-335):
`.ok none` is a `continue` (the segment is skipped), `.ok (some (pos, r))` is
the pair `{ v_collapsed_pos, v_collapsed_radius }` handed to `collapse`, and
`.error` is a `throw`. -/
def collapseTarget (ops : CellNetwork R Net) (C : Net) (u v : Nat) :
    Except Fault (Option (Vec3 R × R)) :=
  if ops.isNeuriteRootVertex C u then
    if ops.isNeuriteTerminalVertex C v || ops.isNeuriteBranchingVertex C v then
      .ok none
    else if ops.isNeuriteSimpleVertex C v then
      .ok (some (ops.getPosition C u, ops.getRadius C u))
    else
      .error Fault.impossibleDestination
  else if ops.isNeuriteBranchingVertex C u then
    if ops.isNeuriteTerminalVertex C v then
      .ok none
    else if ops.isNeuriteBranchingVertex C v then
      .ok (some ((ops.getPosition C u + ops.getPosition C v) * (1 / 2 : R),
                 (ops.getRadius C u + ops.getRadius C v) * (1 / 2)))
    else if ops.isNeuriteSimpleVertex C v then
      .ok (some (ops.getPosition C u, ops.getRadius C u))
    else
      .error Fault.impossibleDestination
  else if ops.isNeuriteSimpleVertex C u then
    if ops.isNeuriteTerminalVertex C v || ops.isNeuriteBranchingVertex C v then
      .ok (some (ops.getPosition C v, ops.getRadius C v))
    else if ops.isNeuriteSimpleVertex C v then
      .ok (some ((ops.getPosition C u + ops.getPosition C v) * (1 / 2 : R),
                 (ops.getRadius C u + ops.getRadius C v) * (1 / 2)))
    else
      .error Fault.impossibleDestination
  else
    .error Fault.impossibleSource

/-- The state of the collapse loops: the network `C`, the queue `Q` and the
flag `fixed_point`. -/
structure LoopState (R Net : Type) where
  C : Net
  Q : PriorityQueue R Nat
  fixed_point : Bool

/-- One round of the loop over `v_collapsed_incident_edges` (lines 356-371):
`changeKey` is always called; the edge is inserted when it was absent and its
weight is `<= 0`. -/
def updateNeighbour (ops : CellNetwork R Net) (alpha beta : R) (C : Net)
    (Q : PriorityQueue R Nat) (f : Nat) : PriorityQueue R Nat :=
  let f_weight := calculate_ns_weight ops alpha beta C f
  let r := PriorityQueue.changeKey Q f (ops.getLength C f)
  if !r.2 && decide (f_weight ≤ 0) then
    PriorityQueue.insert r.1 (ops.getLength C f) f
  else
    r.1

/-- The loop over `v_collapsed_incident_edges` (lines 349-371): in-edges first,
then out-edges, of the vertex the segment was collapsed into. -/
def updateNeighbours (ops : CellNetwork R Net) (alpha beta : R) (C : Net)
    (Q : PriorityQueue R Nat) (v_collapsed_it : Nat) : PriorityQueue R Nat :=
  let v_collapsed_incident_edges :=
    ops.getFilteredInEdges C v_collapsed_it ++ ops.getFilteredOutEdges C v_collapsed_it
  v_collapsed_incident_edges.foldl (updateNeighbour ops alpha beta C) Q

/-- Lines 259-373: the branch `e_weight <= 0.0` for an existing segment whose
key matched. -/
def collapseSegment (ops : CellNetwork R Net) (alpha beta : R)
    (st : LoopState R Net) (e_it : Nat) : Except Fault (LoopState R Net) :=
  let u := ops.getSourceVertex st.C e_it
  let v := ops.getDestinationVertex st.C e_it
  match collapseTarget ops st.C u v with
  | .error f => .error f
  | .ok none => .ok st
  | .ok (some target) =>
    let r := ops.collapse st.C e_it target
    .ok { C := r.1, Q := updateNeighbours ops alpha beta r.1 st.Q r.2, fixed_point := false }

/-- Lines 249-376: what happens to an existing segment once its key has
matched; the weight is computed and the segment is processed only if it is
`<= 0`. -/
def processSegment (ops : CellNetwork R Net) (alpha beta : R)
    (st : LoopState R Net) (e_it : Nat) : Except Fault (LoopState R Net) :=
  let e_weight := calculate_ns_weight ops alpha beta st.C e_it
  if e_weight ≤ 0 then collapseSegment ops alpha beta st e_it else .ok st

/-- Lines 230-381: the body of the queue loop after `deleteMin`, for the
dequeued pair `(e_len, e_id)`; `st.Q` is the queue after the removal. -/
def processPopped (ops : CellNetwork R Net) (alpha beta : R)
    (st : LoopState R Net) (e_len : R) (e_id : Nat) : Except Fault (LoopState R Net) :=
  if ops.find st.C e_id then
    if |ops.getLength st.C e_id - e_len| > 1 / 100000 then
      .error Fault.keyMismatch
    else
      processSegment ops alpha beta st e_id
  else
    .ok st

/-- The loop `while (!Q.empty())` (lines 223-382); `none` when the fuel runs
out before the queue is empty.  The test `Q.empty()` is `top Q = none`
(`PriorityQueue.empty_iff_top`). -/
def processQueue (ops : CellNetwork R Net) (alpha beta : R) :
    Nat → LoopState R Net → Option (Except Fault (LoopState R Net))
  | 0, _ => none
  | fuel + 1, st =>
    match PriorityQueue.top st.Q with
    | none => some (.ok st)
    | some min_pair =>
      match processPopped ops alpha beta
          { st with Q := PriorityQueue.deleteMin st.Q } min_pair.1 min_pair.2 with
      | .error f => some (.error f)
      | .ok st' => processQueue ops alpha beta fuel st'

/-- The queue at the start of a pass (lines 213-219): cleared (whatever it
held, `Q.clear()` leaves the empty queue), then every segment inserted with
its length as key. -/
def initialQueue (ops : CellNetwork R Net) (C : Net) : PriorityQueue R Nat :=
  (ops.neurite_segments C).foldl
    (fun Q ns => PriorityQueue.insert Q (ops.getLength C ns) ns) []

/-- The loop `while (!fixed_point)` (lines 210-384), phase 2 of the
preconditioner; `none` when the fuel runs out. -/
def greedyCollapse (ops : CellNetwork R Net) (alpha beta : R) :
    Nat → Net → Option (Except Fault Net)
  | 0, _ => none
  | fuel + 1, C =>
    match processQueue ops alpha beta fuel
        { C := C, Q := initialQueue ops C, fixed_point := true } with
    | none => none
    | some (.error f) => some (.error f)
    | some (.ok st) =>
      if st.fixed_point then some (.ok st.C) else greedyCollapse ops alpha beta fuel st.C

end Phase2

/-! ## Phase 1: splitting -/

section Phase1

variable {R Net : Type} [LinearOrderedField R]

/-- The loop of the lambda `penalty_function` (lines 105-110) from position `i`
on, `penalty_total` being the sum so far: each pair of consecutive vertices
adds the square of `len - gamma * rmax`. -/
def penaltyLoop (len2 : Vec3 R → R) (gamma : R) : R → List (Vec3 R × R) → R
  | penalty_total, a :: b :: rest =>
    let len := len2 (b.1 - a.1)
    let rmax := max b.2 a.2
    let p := len - gamma * rmax
    penaltyLoop len2 gamma (penalty_total + p * p) (b :: rest)
  | penalty_total, _ => penalty_total

/-- The lambda `penalty_function` (lines 98-113). -/
def penalty_function (len2 : Vec3 R → R) (gamma : R) (vertices : List (Vec3 R × R)) : R :=
  penaltyLoop len2 gamma 0 vertices

/-- The vector `k_vertex_info` as the loop body builds it for a given `k`
(lines 152-163): `k + 1` entries, the first `u`, the last `v`, and entry `m`
in between interpolated linearly with `ratio = m / k`. -/
def k_vertex_info (p_u p_v : Vec3 R) (r_u r_v : R) (k : Nat) : List (Vec3 R × R) :=
  (List.range (k + 1)).map fun m =>
    if m = 0 then (p_u, r_u)
    else if m = k then (p_v, r_v)
    else
      let ratio : R := (m : R) / (k : R)
      (p_u + (p_v - p_u) * ratio, r_u + (r_v - r_u) * ratio)

/-- The variables `n`, `n_penalty` and `n_vertex_info` of the search for the
best split count; `n_penalty = none` is `Aux::Numbers::inf<R>()`. -/
structure SplitChoice (R : Type) where
  n : Nat
  n_penalty : Option R
  n_vertex_info : List (Vec3 R × R)
deriving DecidableEq

/-- The comparison `k_penalty < n_penalty`, every penalty being below infinity. -/
def penaltyLess (k_penalty : R) : Option R → Bool
  | none => true
  | some n_penalty => decide (k_penalty < n_penalty)

/-- One round of the loop `for (k = 2; k <= nmax; k++)` (lines 148-172). -/
def testCandidate (len2 : Vec3 R → R) (gamma : R) (p_u p_v : Vec3 R) (r_u r_v : R)
    (best : SplitChoice R) (k : Nat) : SplitChoice R :=
  let k_penalty := penalty_function len2 gamma (k_vertex_info p_u p_v r_u r_v k)
  if penaltyLess k_penalty best.n_penalty then
    { n := k, n_penalty := some k_penalty, n_vertex_info := k_vertex_info p_u p_v r_u r_v k }
  else
    best

/-- Lines 140-172: `n = 0`, `n_penalty = inf`, then all `k = 2, .., nmax` are
tested in ascending order.  `n_vertex_info` is declared outside the loop over
the long segments and enters with the value the previous segment left. -/
def chooseSplit (len2 : Vec3 R → R) (gamma : R) (p_u p_v : Vec3 R) (r_u r_v : R)
    (nmax : Nat) (n_vertex_info : List (Vec3 R × R)) : SplitChoice R :=
  (List.range' 2 (nmax - 1)).foldl (testCandidate len2 gamma p_u p_v r_u r_v)
    { n := 0, n_penalty := none, n_vertex_info := n_vertex_info }

variable [FloorRing R]

/-- Line 139: `nmax = std::ceil(uv_len / rmax)`, a `uint32_t`.  The conversion
is undefined when `rmax` is zero or the ceiling is outside the range of
`uint32_t`, and with `nmax = 2^32 - 1` the counter `k` wraps around and the
loop `k <= nmax` never ends: these cases are `none`. -/
def nmaxOf (uv_len rmax : R) : Option Nat :=
  if rmax = 0 then none
  else
    let c : Int := ⌈uv_len / rmax⌉
    if 0 ≤ c ∧ c < 2 ^ 32 - 1 then some c.toNat else none

/-- Lines 120-179 for one long segment with length `uv_len`, end points
`p_u`, `p_v` and radii `r_u`, `r_v`: the chosen `n` with its penalty, and
`n_vertex_info` after `erase(begin())` and `pop_back()`, which is the list
handed to `split`.  Both removals are undefined on an empty vector. -/
def splitArguments (len2 : Vec3 R → R) (gamma uv_len : R) (p_u p_v : Vec3 R) (r_u r_v : R)
    (n_vertex_info : List (Vec3 R × R)) : Option (SplitChoice R) :=
  let rmax := max r_u r_v
  match nmaxOf uv_len rmax with
  | none => none
  | some nmax =>
    let best := chooseSplit len2 gamma p_u p_v r_u r_v nmax n_vertex_info
    if best.n_vertex_info.length < 2 then none
    else some { best with n_vertex_info := best.n_vertex_info.tail.dropLast }

/-- The list `long_neurite_segments` (lines 62-71): the segments with
`getLength() > gamma * getMaxRadius()`, in iteration order. -/
def long_neurite_segments (ops : CellNetwork R Net) (gamma : R) (C : Net) : List Nat :=
  (ops.neurite_segments C).filter fun ns =>
    decide (ops.getLength C ns > gamma * ops.getMaxRadius C ns)

/-- The body of the loop over `long_neurite_segments` (lines 116-184) for the
segment `lns`: the new network and the value `n_vertex_info` is left with. -/
def splitSegment (ops : CellNetwork R Net) (len2 : Vec3 R → R) (gamma : R)
    (C : Net) (n_vertex_info : List (Vec3 R × R)) (lns : Nat) :
    Option (Net × List (Vec3 R × R)) :=
  let uv_len := ops.getLength C lns
  let u := ops.getSourceVertex C lns
  let v := ops.getDestinationVertex C lns
  match splitArguments len2 gamma uv_len (ops.getPosition C u) (ops.getPosition C v)
      (ops.getRadius C u) (ops.getRadius C v) n_vertex_info with
  | none => none
  | some best => some (ops.split C lns best.n_vertex_info, best.n_vertex_info)

/-- The loop over `long_neurite_segments` (lines 116-184). -/
def splitSegments (ops : CellNetwork R Net) (len2 : Vec3 R → R) (gamma : R) :
    Net → List (Vec3 R × R) → List Nat → Option Net
  | C, _, [] => some C
  | C, n_vertex_info, lns :: rest =>
    match splitSegment ops len2 gamma C n_vertex_info lns with
    | none => none
    | some r => splitSegments ops len2 gamma r.1 r.2 rest

/-- Phase 1 (lines 60-185): collect the long segments, then split each. -/
def splitLongSegments (ops : CellNetwork R Net) (len2 : Vec3 R → R) (gamma : R) (C : Net) :
    Option Net :=
  splitSegments ops len2 gamma C [] (long_neurite_segments ops gamma C)

/-- The function `preliminaryPreconditioning` (lines 43-390): phase 1, then
phase 2 on its result. -/
def preliminaryPreconditioning (ops : CellNetwork R Net) (len2 : Vec3 R → R)
    (alpha beta gamma : R) (fuel : Nat) (C : Net) : Option (Except Fault Net) :=
  match splitLongSegments ops len2 gamma C with
  | none => none
  | some C1 => greedyCollapse ops alpha beta fuel C1

end Phase1

/-! ## The penalty in the words of the specification -/

section SpecPenalty

variable {R : Type} [LinearOrderedField R]

/-- The penalty of one sub-segment with end points `a` and `b`, each a
position with a radius. -/
def segmentPenalty (len2 : Vec3 R → R) (gamma : R) (a b : Vec3 R × R) : R :=
  (len2 (b.1 - a.1) - gamma * max b.2 a.2) ^ 2

/-- Position of vertex `i` of the subdivision into `k` parts of equal
parameter. -/
def interpolatedPosition (p_u p_v : Vec3 R) (k i : Nat) : Vec3 R :=
  p_u + (p_v - p_u) * ((i : R) / (k : R))

/-- Radius of vertex `i` of the subdivision, interpolated linearly. -/
def interpolatedRadius (r_u r_v : R) (k i : Nat) : R :=
  r_u + (r_v - r_u) * ((i : R) / (k : R))

/-- The penalty of a split into `k` sub-segments as the specification words
it: the sum over the `k` equal-parameter sub-segments of
`(length - gamma * maxRadius)^2`, with linearly interpolated end radii. -/
def subsegmentPenalty (len2 : Vec3 R → R) (gamma : R) (p_u p_v : Vec3 R) (r_u r_v : R)
    (k : Nat) : R :=
  ∑ i in Finset.range k,
    (len2 (interpolatedPosition p_u p_v k (i + 1) - interpolatedPosition p_u p_v k i)
      - gamma * max (interpolatedRadius r_u r_v k (i + 1)) (interpolatedRadius r_u r_v k i)) ^ 2

end SpecPenalty

/-! ## Vocabulary of the statements -/

section Vocabulary

variable {R Net : Type} [LinearOrderedField R]

/-- The loop state after `collapse(e_it, target)` has been called: the
collapsed network, the queue updated for the edges at the surviving vertex,
and `fixed_point` cleared (lines 339-372). -/
def afterCollapse (ops : CellNetwork R Net) (alpha beta : R)
    (st : LoopState R Net) (e_it : Nat) (target : Vec3 R × R) : LoopState R Net :=
  { C := (ops.collapse st.C e_it target).1
    Q := updateNeighbours ops alpha beta (ops.collapse st.C e_it target).1 st.Q
          (ops.collapse st.C e_it target).2
    fixed_point := false }

/-- The four role predicates exclude one another at vertex `x`: the vertex has
at most one role. -/
def RolesExclusive (ops : CellNetwork R Net) (C : Net) (x : Nat) : Prop :=
  (ops.isNeuriteRootVertex C x = true →
      ops.isNeuriteBranchingVertex C x = false ∧ ops.isNeuriteTerminalVertex C x = false
        ∧ ops.isNeuriteSimpleVertex C x = false)
    ∧ (ops.isNeuriteBranchingVertex C x = true →
      ops.isNeuriteTerminalVertex C x = false ∧ ops.isNeuriteSimpleVertex C x = false)
    ∧ (ops.isNeuriteTerminalVertex C x = true → ops.isNeuriteSimpleVertex C x = false)

instance (ops : CellNetwork R Net) (C : Net) (x : Nat) : Decidable (RolesExclusive ops C x) := by
  unfold RolesExclusive
  infer_instance

/-- Arithmetic mean of two positions, componentwise. -/
def meanPosition (a b : Vec3 R) : Vec3 R :=
  ⟨(a.x + b.x) / 2, (a.y + b.y) / 2, (a.z + b.z) / 2⟩

/-- The segment `e` is in one of the two skip configurations of the role table. -/
def SkipConfiguration (ops : CellNetwork R Net) (C : Net) (e : Nat) : Prop :=
  (ops.isNeuriteRootVertex C (ops.getSourceVertex C e) = true
      ∧ (ops.isNeuriteTerminalVertex C (ops.getDestinationVertex C e) = true
        ∨ ops.isNeuriteBranchingVertex C (ops.getDestinationVertex C e) = true))
    ∨ (ops.isNeuriteBranchingVertex C (ops.getSourceVertex C e) = true
      ∧ ops.isNeuriteTerminalVertex C (ops.getDestinationVertex C e) = true)

instance (ops : CellNetwork R Net) (C : Net) (e : Nat) : Decidable (SkipConfiguration ops C e) := by
  unfold SkipConfiguration
  infer_instance

end Vocabulary

deriving instance DecidableEq for Except

/-! ## A concrete cell network -/

namespace Toy

/-- A neurite vertex: id, position, radius, and whether it hangs on the soma. -/
structure Vertex where
  id : Nat
  position : Vec3 ℚ
  radius : ℚ
  root : Bool
deriving DecidableEq

/-- A neurite segment: id and the ids of its source and destination vertex. -/
structure Segment where
  id : Nat
  src : Nat
  dst : Nat
deriving DecidableEq

/-- A small cell network over `ℚ`: a list of vertices and a list of segments. -/
structure Net where
  vertices : List Vertex
  segments : List Segment
deriving DecidableEq

namespace Net

/-- Position of the vertex with id `v` (the origin when there is none). -/
def position (C : Net) (v : Nat) : Vec3 ℚ :=
  match C.vertices.find? (fun w => w.id == v) with
  | some w => w.position
  | none => ⟨0, 0, 0⟩

/-- Radius of the vertex with id `v` (zero when there is none). -/
def radius (C : Net) (v : Nat) : ℚ :=
  match C.vertices.find? (fun w => w.id == v) with
  | some w => w.radius
  | none => 0

/-- Whether the vertex with id `v` is a neurite root vertex. -/
def isRoot (C : Net) (v : Nat) : Bool :=
  match C.vertices.find? (fun w => w.id == v) with
  | some w => w.root
  | none => false

/-- The segment with id `s`. -/
def segment (C : Net) (s : Nat) : Option Segment :=
  C.segments.find? (fun t => t.id == s)

/-- Source vertex of segment `s`. -/
def src (C : Net) (s : Nat) : Nat :=
  match C.segment s with
  | some t => t.src
  | none => 0

/-- Destination vertex of segment `s`. -/
def dst (C : Net) (s : Nat) : Nat :=
  match C.segment s with
  | some t => t.dst
  | none => 0

/-- Number of segments leaving vertex `v`. -/
def outdeg (C : Net) (v : Nat) : Nat :=
  (C.segments.filter (fun t => t.src == v)).length

/-- Largest of a list of radii, zero for the empty list. -/
def maxRadiusOf (rs : List ℚ) : ℚ := rs.foldl max 0

/-- The largest radius among the far ends of the segments other than `s` that
touch vertex `x`. -/
def smdvRadius (C : Net) (s x : Nat) : ℚ :=
  maxRadiusOf ((C.segments.filter (fun t => t.id != s && (t.src == x || t.dst == x))).map
    (fun t => if t.src = x then C.radius t.dst else C.radius t.src))

/-- Collapse of segment `e = (u, v)`: `e` and `v` disappear, `u` takes the
given position and radius, and the segments that touched `v` now touch `u`. -/
def collapse (C : Net) (e : Nat) (target : Vec3 ℚ × ℚ) : Net × Nat :=
  match C.segment e with
  | none => (C, 0)
  | some s =>
    ({ vertices := (C.vertices.filter (fun w => w.id != s.dst)).map
          (fun w => if w.id = s.src then { w with position := target.1, radius := target.2 } else w)
       segments := (C.segments.filter (fun t => t.id != e)).map
          (fun t => { t with src := if t.src = s.dst then s.src else t.src
                             dst := if t.dst = s.dst then s.src else t.dst }) },
     s.src)

/-- An id above every vertex and segment id in use. -/
def freshId (C : Net) : Nat :=
  (C.vertices.map (fun w => w.id) ++ C.segments.map (fun t => t.id)).foldl max 0 + 1

/-- Split of segment `s = (u, v)` by the interior vertices `vs`: the vertices
get fresh ids `b, b+1, ..`, `s` now ends in the first of them, and a chain of
new segments leads on to `v`. -/
def split (C : Net) (s : Nat) (vs : List (Vec3 ℚ × ℚ)) : Net :=
  match C.segment s, vs with
  | none, _ => C
  | some _, [] => C
  | some seg, _ :: _ =>
    let b := C.freshId
    let k := vs.length
    { vertices := C.vertices ++
        (List.range k).map (fun i =>
          { id := b + i, position := (vs.getD i (⟨0, 0, 0⟩, 0)).1,
            radius := (vs.getD i (⟨0, 0, 0⟩, 0)).2, root := false })
      segments := C.segments.map (fun t => if t.id = s then { t with dst := b } else t) ++
        (List.range k).map (fun i =>
          { id := b + k + i, src := b + i, dst := if i + 1 = k then seg.dst else b + i + 1 }) }

end Net

/-- The cell-network interface of `Toy.Net`, with Euclidean segment lengths. -/
def network : CellNetwork ℚ Net where
  neurite_segments C := C.segments.map (fun t => t.id)
  getLength C s := len2Q (C.position (C.dst s) - C.position (C.src s))
  getMaxRadius C s := max (C.radius (C.src s)) (C.radius (C.dst s))
  getSMDVRadii C s := (C.smdvRadius s (C.src s), C.smdvRadius s (C.dst s))
  getSourceVertex C s := C.src s
  getDestinationVertex C s := C.dst s
  getPosition C v := C.position v
  getRadius C v := C.radius v
  isNeuriteRootVertex C v := C.isRoot v
  isNeuriteTerminalVertex C v := !C.isRoot v && C.outdeg v == 0
  isNeuriteBranchingVertex C v := !C.isRoot v && decide (2 ≤ C.outdeg v)
  isNeuriteSimpleVertex C v := !C.isRoot v && C.outdeg v == 1
  split C s vs := C.split s vs
  collapse C e target := C.collapse e target
  getFilteredInEdges C v := (C.segments.filter (fun t => t.dst == v)).map (fun t => t.id)
  getFilteredOutEdges C v := (C.segments.filter (fun t => t.src == v)).map (fun t => t.id)

/-- A neurite of two segments on the x-axis: root `0`, simple vertex `1`,
terminal vertex `2`, all of radius 1, one unit apart. -/
def chain : Net where
  vertices := [⟨0, ⟨0, 0, 0⟩, 1, true⟩, ⟨1, ⟨1, 0, 0⟩, 1, false⟩, ⟨2, ⟨2, 0, 0⟩, 1, false⟩]
  segments := [⟨10, 0, 1⟩, ⟨11, 1, 2⟩]

/-- A neurite of a single short segment from its root to its terminal vertex. -/
def stub : Net where
  vertices := [⟨0, ⟨0, 0, 0⟩, 1, true⟩, ⟨1, ⟨1, 0, 0⟩, 1, false⟩]
  segments := [⟨10, 0, 1⟩]

/-- The chain after phase 2 with `alpha = 3`, `beta = 2`: segment `10` has been
collapsed into the root, segment `11` now runs from the root to the terminal
vertex. -/
def chainCollapsed : Net where
  vertices := [⟨0, ⟨0, 0, 0⟩, 1, true⟩, ⟨2, ⟨2, 0, 0⟩, 1, false⟩]
  segments := [⟨11, 0, 2⟩]

/-- A neurite of a single segment of length 10 with radii 1. -/
def long : Net where
  vertices := [⟨0, ⟨0, 0, 0⟩, 1, true⟩, ⟨1, ⟨10, 0, 0⟩, 1, false⟩]
  segments := [⟨10, 0, 1⟩]

/-- The network `long` after the preconditioner with `alpha = 3`, `beta = 2`,
`gamma = 3`: split in three, then the middle segment collapsed to its
midpoint. -/
def longPreconditioned : Net where
  vertices := [⟨0, ⟨0, 0, 0⟩, 1, true⟩, ⟨1, ⟨10, 0, 0⟩, 1, false⟩, ⟨11, ⟨5, 0, 0⟩, 1, false⟩]
  segments := [⟨10, 0, 11⟩, ⟨14, 11, 1⟩]

/-- A neurite that forks: root `0`, the simple vertex `1` of radius 4/3, the
branching vertex `2` at the origin with the terminal vertices `3` (radius 1,
three units up) and `4` (five units on). -/
def fork : Net where
  vertices := [⟨0, ⟨-14, 0, 0⟩, 1 / 2, true⟩, ⟨1, ⟨-4, 0, 0⟩, 4 / 3, false⟩,
    ⟨2, ⟨0, 0, 0⟩, 1 / 2, false⟩, ⟨3, ⟨0, 3, 0⟩, 1, false⟩, ⟨4, ⟨5, 0, 0⟩, 1 / 2, false⟩]
  segments := [⟨10, 0, 1⟩, ⟨11, 1, 2⟩, ⟨12, 2, 3⟩, ⟨13, 2, 4⟩]

/-- The network `fork` after the collapse of segment `11` into its
destination: vertex `1` now stands at the origin with radius 1/2. -/
def forkCollapsed : Net where
  vertices := [⟨0, ⟨-14, 0, 0⟩, 1 / 2, true⟩, ⟨1, ⟨0, 0, 0⟩, 1 / 2, false⟩,
    ⟨3, ⟨0, 3, 0⟩, 1, false⟩, ⟨4, ⟨5, 0, 0⟩, 1 / 2, false⟩]
  segments := [⟨10, 0, 1⟩, ⟨12, 1, 3⟩, ⟨13, 1, 4⟩]

/-- The chain `0 -> 1 -> 2` with a long segment `12` of length 10 appended. -/
def tail : Net where
  vertices := [⟨0, ⟨0, 0, 0⟩, 1, true⟩, ⟨1, ⟨1, 0, 0⟩, 1, false⟩, ⟨2, ⟨2, 0, 0⟩, 1, false⟩,
    ⟨3, ⟨12, 0, 0⟩, 1, false⟩]
  segments := [⟨10, 0, 1⟩, ⟨11, 1, 2⟩, ⟨12, 2, 3⟩]

end Toy

/-! ## Red-blue exceptions and edge/face pairs (MeshAlgorithms.hh) -/

/-- The enumeration `RedBlue_ExCodes::RedBlue_ExceptionCodes_enum` (lines 52-62). -/
inductive RedBlue_ExceptionCodes_enum where
  | RB_INTERNAL_LOGIC_ERROR
  | RB_DISJOINT
  | RB_COMPLEX_EDGES
  | RB_NUMERICAL_EDGE_CASE
  | RB_TRIANGULATION
  | RB_ISECPOLY_NUM
  | RB_AFFECTED_CIRCLE_TRIVIAL
deriving DecidableEq, Repr

/-- The value of an enumerator, counted from zero in declaration order, as it
is converted to the `uint32_t` field `type`. -/
def RedBlue_ExceptionCodes_enum.code : RedBlue_ExceptionCodes_enum → Nat
  | .RB_INTERNAL_LOGIC_ERROR => 0
  | .RB_DISJOINT => 1
  | .RB_COMPLEX_EDGES => 2
  | .RB_NUMERICAL_EDGE_CASE => 3
  | .RB_TRIANGULATION => 4
  | .RB_ISECPOLY_NUM => 5
  | .RB_AFFECTED_CIRCLE_TRIVIAL => 6

/-- The struct `RedBlue_Ex` (lines 64-78): the fields its constructor sets. -/
structure RedBlue_Ex where
  type : Nat
  msg : String
  R_intact : Bool
  B_intact : Bool
deriving DecidableEq, Repr

/-- The struct `RedBlue_EdgeIsecInfo<TR>` (lines 82-105). -/
structure RedBlue_EdgeIsecInfo (TR : Type) where
  red : Bool
  u_id : Nat
  v_id : Nat
  edge_lambdas : List TR
deriving DecidableEq, Repr

/-- The constructor of `RedBlue_EdgeIsecInfo` (lines 95-104): the members are
initialised from the arguments, then an empty `edge_lambdas` is answered with
a `throw` of the message given here. -/
def RedBlue_EdgeIsecInfo.construct {TR : Type} (_red : Bool) (_u_id _v_id : Nat)
    (_edge_lambdas : List TR) : Except String (RedBlue_EdgeIsecInfo TR) :=
  let self : RedBlue_EdgeIsecInfo TR :=
    { red := _red, u_id := _u_id, v_id := _v_id, edge_lambdas := _edge_lambdas }
  if self.edge_lambdas.isEmpty then
    .error ("RedBlue_Ex_ComplexEdges(): no lambda values supplied for complex edge. "
      ++ "internal logic error.")
  else
    .ok self

/-- The constructor of `RedBlue_Ex_InternalLogic` (lines 107-113). -/
def RedBlue_Ex_InternalLogic (msg : String) : RedBlue_Ex :=
  { type := RedBlue_ExceptionCodes_enum.RB_INTERNAL_LOGIC_ERROR.code, msg := msg,
    R_intact := false, B_intact := false }

/-- The constructor of `RedBlue_Ex_Disjoint` (lines 115-120). -/
def RedBlue_Ex_Disjoint (msg : String) : RedBlue_Ex :=
  { type := RedBlue_ExceptionCodes_enum.RB_DISJOINT.code, msg := msg,
    R_intact := true, B_intact := true }

/-- The struct `RedBlue_Ex_ComplexEdges<TR>` (lines 122-132): a `RedBlue_Ex`
with the list `edge_isec_info`. -/
structure RedBlue_Ex_ComplexEdges (TR : Type) extends RedBlue_Ex where
  edge_isec_info : List (RedBlue_EdgeIsecInfo TR)
deriving DecidableEq, Repr

/-- The constructor of `RedBlue_Ex_ComplexEdges` (lines 126-131). -/
def RedBlue_Ex_ComplexEdges.construct {TR : Type} (msg : String)
    (einfo_vec : List (RedBlue_EdgeIsecInfo TR)) : RedBlue_Ex_ComplexEdges TR :=
  { type := RedBlue_ExceptionCodes_enum.RB_COMPLEX_EDGES.code, msg := msg,
    R_intact := true, B_intact := true, edge_isec_info := einfo_vec }

/-- The constructor of `RedBlue_Ex_NumericalEdgeCase` (lines 134-142). -/
def RedBlue_Ex_NumericalEdgeCase (msg : String) (R_intact B_intact : Bool) : RedBlue_Ex :=
  { type := RedBlue_ExceptionCodes_enum.RB_NUMERICAL_EDGE_CASE.code, msg := msg,
    R_intact := R_intact, B_intact := B_intact }

/-- The constructor of `RedBlue_Ex_Triangulation` (lines 144-153). -/
def RedBlue_Ex_Triangulation (msg : String) (R_intact B_intact : Bool) : RedBlue_Ex :=
  { type := RedBlue_ExceptionCodes_enum.RB_TRIANGULATION.code, msg := msg,
    R_intact := R_intact, B_intact := B_intact }

/-- The constructor of `RedBlue_Ex_NumIsecPoly` (lines 155-160). -/
def RedBlue_Ex_NumIsecPoly (msg : String) : RedBlue_Ex :=
  { type := RedBlue_ExceptionCodes_enum.RB_ISECPOLY_NUM.code, msg := msg,
    R_intact := true, B_intact := true }

/-- The struct `RedBlue_Ex_AffectedCircleTrivial<TR>` (lines 162-178): a
`RedBlue_Ex` with the colour, the face id and the split position. -/
structure RedBlue_Ex_AffectedCircleTrivial (TR : Type) extends RedBlue_Ex where
  red : Bool
  face_id : Nat
  splitPos : Vec3 TR
deriving DecidableEq, Repr

/-- The constructor of `RedBlue_Ex_AffectedCircleTrivial` (lines 168-177). -/
def RedBlue_Ex_AffectedCircleTrivial.construct {TR : Type} (msg : String) (red : Bool)
    (face_id : Nat) (_splitPos : Vec3 TR) : RedBlue_Ex_AffectedCircleTrivial TR :=
  { type := RedBlue_ExceptionCodes_enum.RB_AFFECTED_CIRCLE_TRIVIAL.code, msg := msg,
    R_intact := true, B_intact := true, red := red, face_id := face_id, splitPos := _splitPos }

/-- The struct `MeshAlg::EdgeFacePair<TMesh>` (lines 215-255): two vertex
handles and a face handle.  `V` and `F` stand for `TMesh::Vertex*` and
`TMesh::Face*`; the mesh class is not among the sources, so the member `id()`
of a vertex and of a face is passed to the operations as `vid` and `fid`. -/
structure EdgeFacePair (V F : Type) where
  vrt1 : V
  vrt2 : V
  f : F
deriving DecidableEq, Repr

namespace EdgeFacePair

variable {V F : Type}

/-- The constructor (lines 218-229): the members are initialised in argument
order and swapped when `vrt2->id() < vrt1->id()`. -/
def construct (vid : V → Nat) (_vrt1 _vrt2 : V) (_f : F) : EdgeFacePair V F :=
  if vid _vrt2 < vid _vrt1 then
    { vrt1 := _vrt2, vrt2 := _vrt1, f := _f }
  else
    { vrt1 := _vrt1, vrt2 := _vrt2, f := _f }

/-- The member `operator<` (lines 232-242). -/
def lt (vid : V → Nat) (fid : F → Nat) (a b : EdgeFacePair V F) : Bool :=
  if vid a.vrt1 < vid b.vrt1 then true
  else if vid b.vrt1 < vid a.vrt1 then false
  else if vid a.vrt2 < vid b.vrt2 then true
  else if vid b.vrt2 < vid a.vrt2 then false
  else decide (fid a.f < fid b.f)

/-- The member `operator==` (lines 245-250). -/
def eq (vid : V → Nat) (fid : F → Nat) (a b : EdgeFacePair V F) : Bool :=
  if vid a.vrt1 ≠ vid b.vrt1 then false
  else if vid a.vrt2 ≠ vid b.vrt2 then false
  else decide (fid a.f = fid b.f)

/-- The triple of ids a pair stands for. -/
def ids (vid : V → Nat) (fid : F → Nat) (a : EdgeFacePair V F) : Nat × Nat × Nat :=
  (vid a.vrt1, vid a.vrt2, fid a.f)

/-- Removal of adjacent duplicates as `std::unique` does it with `operator==`:
of every run of consecutive equal pairs the first is kept. -/
def unique (vid : V → Nat) (fid : F → Nat) : List (EdgeFacePair V F) → List (EdgeFacePair V F)
  | [] => []
  | a :: rest =>
    match unique vid fid rest with
    | [] => [a]
    | b :: kept => if eq vid fid a b then a :: kept else a :: b :: kept

/-- A list is in the order `std::sort` leaves it in with `operator<`: no
element is less than one that stands before it. -/
def SortedByLt (vid : V → Nat) (fid : F → Nat) (l : List (EdgeFacePair V F)) : Prop :=
  l.Pairwise (fun a b => lt vid fid b a = false)

end EdgeFacePair

/-! ## Traces of the calls of `split` and `collapse` -/

section Traces

variable {R Net : Type} [LinearOrderedField R]

/-- Whether the round for the dequeued segment `e_id` calls `collapse`
(line 339): the segment exists, its weight is `<= 0` and the case distinction
yields a target.  (The round is one that did not throw.) -/
def roundCollapses (ops : CellNetwork R Net) (alpha beta : R) (C : Net) (e_id : Nat) : Bool :=
  ops.find C e_id && decide (calculate_ns_weight ops alpha beta C e_id ≤ 0)
    && match collapseTarget ops C (ops.getSourceVertex C e_id)
        (ops.getDestinationVertex C e_id) with
      | .ok (some _) => true
      | _ => false

/-- The segments `collapse` is called on, in order, while `processQueue` runs
with the given fuel from the given state. -/
def collapsedSegments (ops : CellNetwork R Net) (alpha beta : R) :
    Nat → LoopState R Net → List Nat
  | 0, _ => []
  | fuel + 1, st =>
    match PriorityQueue.top st.Q with
    | none => []
    | some min_pair =>
      match processPopped ops alpha beta
          { st with Q := PriorityQueue.deleteMin st.Q } min_pair.1 min_pair.2 with
      | .error _ => []
      | .ok st' =>
        (if roundCollapses ops alpha beta st.C min_pair.2 then [min_pair.2] else [])
          ++ collapsedSegments ops alpha beta fuel st'

variable [FloorRing R]

/-- The calls `C.neurite_segments.split(lns, n_vertex_info)` (line 181) that
`splitSegments` makes, in order: the segment and the list handed over. -/
def splitCalls (ops : CellNetwork R Net) (len2 : Vec3 R → R) (gamma : R) :
    Net → List (Vec3 R × R) → List Nat → Option (List (Nat × List (Vec3 R × R)))
  | _, _, [] => some []
  | C, n_vertex_info, lns :: rest =>
    match splitSegment ops len2 gamma C n_vertex_info lns with
    | none => none
    | some r =>
      match splitCalls ops len2 gamma r.1 r.2 rest with
      | none => none
      | some calls => some ((lns, r.2) :: calls)

end Traces

deriving instance DecidableEq for LoopState

/-! ## The queue in sync with the network -/

section Sync

variable {R Net : Type}

/-- The queue `Q` is in sync with the network `C`: no segment id occurs twice
in it, and every entry whose segment exists has the segment's length as key. -/
def QueueInSync (ops : CellNetwork R Net) (C : Net) (Q : PriorityQueue R Nat) : Prop :=
  (Q.map Prod.snd).Nodup
    ∧ ∀ e ∈ Q, e.2 ∈ ops.neurite_segments C → e.1 = ops.getLength C e.2

end Sync

namespace Toy

/-- A segment after the collapse of `s`: an end at the vertex `s.dst`, which
disappears, is moved to `s.src`. -/
def rewire (s t : Segment) : Segment :=
  { t with src := if t.src = s.dst then s.src else t.src
           dst := if t.dst = s.dst then s.src else t.dst }

/-- A vertex after the collapse of `s`: the vertex `s.src` takes the given
position and radius, the others stay. -/
def moveTo (s : Segment) (target : Vec3 ℚ × ℚ) (w : Vertex) : Vertex :=
  if w.id = s.src then { w with position := target.1, radius := target.2 } else w

/-- The network `Net.collapse` returns for an existing segment `e = s`. -/
def collapsed (C : Net) (e : Nat) (s : Segment) (target : Vec3 ℚ × ℚ) : Net :=
  { vertices := (C.vertices.filter (fun w => w.id != s.dst)).map (moveTo s target)
    segments := (C.segments.filter (fun t => t.id != e)).map (rewire s) }

end Toy

namespace Toy

/-- A segment `10` of length 1 that runs from the root `0` into a second root
vertex `1`: its destination is neither terminal nor branching nor simple. -/
def rootToRoot : Net where
  vertices := [⟨0, ⟨0, 0, 0⟩, 1, true⟩, ⟨1, ⟨1, 0, 0⟩, 1, true⟩]
  segments := [⟨10, 0, 1⟩]

/-- The interface of `Toy.Net` with the role of each vertex read from a table
(`0` root, `1` terminal, `2` branching, `3` simple) instead of being derived
from the segments. -/
def declared (role : Nat → Nat) : CellNetwork ℚ Net :=
  { network with
    isNeuriteRootVertex := fun _ v => role v == 0
    isNeuriteTerminalVertex := fun _ v => role v == 1
    isNeuriteBranchingVertex := fun _ v => role v == 2
    isNeuriteSimpleVertex := fun _ v => role v == 3 }

/-- A neurite of a single segment of length 12 with radii 1. -/
def stretch : Net where
  vertices := [⟨0, ⟨0, 0, 0⟩, 1, true⟩, ⟨1, ⟨12, 0, 0⟩, 1, false⟩]
  segments := [⟨10, 0, 1⟩]

/-- The network `stretch` after phase 1 with `gamma = 5`: segment `10` split in
two at the new vertex `11`. -/
def stretchSplit : Net where
  vertices := [⟨0, ⟨0, 0, 0⟩, 1, true⟩, ⟨1, ⟨12, 0, 0⟩, 1, false⟩, ⟨11, ⟨6, 0, 0⟩, 1, false⟩]
  segments := [⟨10, 0, 11⟩, ⟨12, 11, 1⟩]

end Toy

/-! ## One round of the queue loop -/

section StepTheorems

variable {R Net : Type} [LinearOrderedField R]

theorem Vec3.half_sum (a b : Vec3 R) : (a + b) * (1 / 2 : R) = meanPosition a b := by
  show Vec3.scale (Vec3.add a b) (1 / 2) = meanPosition a b
  simp only [Vec3.scale, Vec3.add, meanPosition, Vec3.mk.injEq]
  refine ⟨?_, ?_, ?_⟩ <;> ring

theorem processPopped_of_match (ops : CellNetwork R Net) (alpha beta : R)
    (st : LoopState R Net) (e_len : R) (e_id : Nat)
    (hfind : ops.find st.C e_id = true)
    (hkey : |ops.getLength st.C e_id - e_len| ≤ 1 / 100000) :
    processPopped ops alpha beta st e_len e_id = processSegment ops alpha beta st e_id := by
  unfold processPopped
  rw [if_pos hfind, if_neg (not_lt.mpr hkey)]

theorem processPopped_of_collapsible (ops : CellNetwork R Net) (alpha beta : R)
    (st : LoopState R Net) (e_len : R) (e_id : Nat)
    (hfind : ops.find st.C e_id = true)
    (hkey : |ops.getLength st.C e_id - e_len| ≤ 1 / 100000)
    (hw : calculate_ns_weight ops alpha beta st.C e_id ≤ 0) :
    processPopped ops alpha beta st e_len e_id = collapseSegment ops alpha beta st e_id := by
  rw [processPopped_of_match ops alpha beta st e_len e_id hfind hkey]
  unfold processSegment
  simp only [if_pos hw]

theorem collapseSegment_of_target (ops : CellNetwork R Net) (alpha beta : R)
    (st : LoopState R Net) (e_it : Nat) (target : Vec3 R × R)
    (h : collapseTarget ops st.C (ops.getSourceVertex st.C e_it)
          (ops.getDestinationVertex st.C e_it) = .ok (some target)) :
    collapseSegment ops alpha beta st e_it = .ok (afterCollapse ops alpha beta st e_it target) := by
  unfold collapseSegment
  simp only [h, afterCollapse]

theorem collapseSegment_of_skip (ops : CellNetwork R Net) (alpha beta : R)
    (st : LoopState R Net) (e_it : Nat)
    (h : collapseTarget ops st.C (ops.getSourceVertex st.C e_it)
          (ops.getDestinationVertex st.C e_it) = .ok none) :
    collapseSegment ops alpha beta st e_it = .ok st := by
  unfold collapseSegment
  simp only [h]

/-- The case distinction never throws the key-mismatch fault. -/
theorem collapseTarget_ne_keyMismatch (ops : CellNetwork R Net) (C : Net) (u v : Nat) :
    collapseTarget ops C u v ≠ .error Fault.keyMismatch := by
  unfold collapseTarget
  cases ops.isNeuriteRootVertex C u <;> cases ops.isNeuriteBranchingVertex C u <;>
    cases ops.isNeuriteSimpleVertex C u <;> cases ops.isNeuriteTerminalVertex C v <;>
    cases ops.isNeuriteBranchingVertex C v <;> cases ops.isNeuriteSimpleVertex C v <;>
    simp

theorem processSegment_ne_keyMismatch (ops : CellNetwork R Net) (alpha beta : R)
    (st : LoopState R Net) (e_it : Nat) :
    processSegment ops alpha beta st e_it ≠ .error Fault.keyMismatch := by
  unfold processSegment
  by_cases hw : calculate_ns_weight ops alpha beta st.C e_it ≤ 0
  · simp only [if_pos hw]
    have h := collapseTarget_ne_keyMismatch ops st.C (ops.getSourceVertex st.C e_it)
      (ops.getDestinationVertex st.C e_it)
    cases ht : collapseTarget ops st.C (ops.getSourceVertex st.C e_it)
        (ops.getDestinationVertex st.C e_it) with
    | error f =>
      rw [ht] at h
      unfold collapseSegment
      simp only [ht]
      intro hf
      injection hf with hf
      exact h (by rw [hf])
    | ok t =>
      cases t with
      | none => rw [collapseSegment_of_skip ops alpha beta st e_it ht]; simp
      | some target => rw [collapseSegment_of_target ops alpha beta st e_it target ht]; simp
  · simp only [if_neg hw]
    simp

/-- With a source that is root, branching or simple and a destination that is
terminal, branching or simple, the case distinction throws nothing. -/
theorem collapseTarget_ok_of_roles (ops : CellNetwork R Net) (C : Net) (u v : Nat)
    (hu : ops.isNeuriteRootVertex C u = true ∨ ops.isNeuriteBranchingVertex C u = true
      ∨ ops.isNeuriteSimpleVertex C u = true)
    (hv : ops.isNeuriteTerminalVertex C v = true ∨ ops.isNeuriteBranchingVertex C v = true
      ∨ ops.isNeuriteSimpleVertex C v = true) :
    ∃ t, collapseTarget ops C u v = .ok t := by
  unfold collapseTarget
  cases hru : ops.isNeuriteRootVertex C u <;> cases hbu : ops.isNeuriteBranchingVertex C u <;>
    cases hsu : ops.isNeuriteSimpleVertex C u <;> cases htv : ops.isNeuriteTerminalVertex C v <;>
    cases hbv : ops.isNeuriteBranchingVertex C v <;> cases hsv : ops.isNeuriteSimpleVertex C v <;>
    simp_all

theorem processSegment_ok_of_target (ops : CellNetwork R Net) (alpha beta : R)
    (st : LoopState R Net) (e_it : Nat) (t : Option (Vec3 R × R))
    (h : collapseTarget ops st.C (ops.getSourceVertex st.C e_it)
          (ops.getDestinationVertex st.C e_it) = .ok t) :
    ∃ st', processSegment ops alpha beta st e_it = .ok st' := by
  unfold processSegment
  by_cases hw : calculate_ns_weight ops alpha beta st.C e_it ≤ 0
  · simp only [if_pos hw]
    cases t with
    | none => exact ⟨st, collapseSegment_of_skip ops alpha beta st e_it h⟩
    | some target => exact ⟨_, collapseSegment_of_target ops alpha beta st e_it target h⟩
  · simp only [if_neg hw]
    exact ⟨st, rfl⟩

/-- The two skip rows of the role table. -/
theorem collapseTarget_skip (ops : CellNetwork R Net) (C : Net) (e : Nat)
    (h : SkipConfiguration ops C e) :
    collapseTarget ops C (ops.getSourceVertex C e) (ops.getDestinationVertex C e) = .ok none := by
  unfold SkipConfiguration at h
  unfold collapseTarget
  cases hru : ops.isNeuriteRootVertex C (ops.getSourceVertex C e) <;>
    cases hbu : ops.isNeuriteBranchingVertex C (ops.getSourceVertex C e) <;>
    cases htv : ops.isNeuriteTerminalVertex C (ops.getDestinationVertex C e) <;>
    cases hbv : ops.isNeuriteBranchingVertex C (ops.getDestinationVertex C e) <;>
    simp_all

/-- The five collapsing rows of the role table, for vertices with exclusive roles. -/
theorem collapseTarget_rows (ops : CellNetwork R Net) (C : Net) (u v : Nat)
    (hu : RolesExclusive ops C u) (hv : RolesExclusive ops C v) :
    (ops.isNeuriteRootVertex C u = true → ops.isNeuriteSimpleVertex C v = true →
        collapseTarget ops C u v = .ok (some (ops.getPosition C u, ops.getRadius C u)))
    ∧ (ops.isNeuriteBranchingVertex C u = true → ops.isNeuriteSimpleVertex C v = true →
        collapseTarget ops C u v = .ok (some (ops.getPosition C u, ops.getRadius C u)))
    ∧ (ops.isNeuriteSimpleVertex C u = true →
        (ops.isNeuriteTerminalVertex C v = true ∨ ops.isNeuriteBranchingVertex C v = true) →
        collapseTarget ops C u v = .ok (some (ops.getPosition C v, ops.getRadius C v)))
    ∧ (ops.isNeuriteBranchingVertex C u = true → ops.isNeuriteBranchingVertex C v = true →
        collapseTarget ops C u v = .ok (some
          (meanPosition (ops.getPosition C u) (ops.getPosition C v),
            (ops.getRadius C u + ops.getRadius C v) / 2)))
    ∧ (ops.isNeuriteSimpleVertex C u = true → ops.isNeuriteSimpleVertex C v = true →
        collapseTarget ops C u v = .ok (some
          (meanPosition (ops.getPosition C u) (ops.getPosition C v),
            (ops.getRadius C u + ops.getRadius C v) / 2))) := by
  obtain ⟨hu1, hu2, hu3⟩ := hu
  obtain ⟨hv1, hv2, hv3⟩ := hv
  have hmean : (ops.getRadius C u + ops.getRadius C v) * (1 / 2)
      = (ops.getRadius C u + ops.getRadius C v) / 2 := by ring
  unfold collapseTarget
  rw [Vec3.half_sum, hmean]
  cases hru : ops.isNeuriteRootVertex C u <;> cases hbu : ops.isNeuriteBranchingVertex C u <;>
    cases hsu : ops.isNeuriteSimpleVertex C u <;> cases htv : ops.isNeuriteTerminalVertex C v <;>
    cases hbv : ops.isNeuriteBranchingVertex C v <;> cases hsv : ops.isNeuriteSimpleVertex C v <;>
    simp_all

/-- C1: in phase 2, a popped existing segment `e = (u, v)` whose key matches,
whose weight is `<= 0` and whose end points each have one role is handed to
`collapse` with: the position and radius of `u` when `u` is root and `v`
simple, or `u` branching and `v` simple; those of `v` when `u` is simple and
`v` terminal or branching; the arithmetic mean of the two positions and of the
two radii when both are branching or both are simple. -/
theorem collapse_arguments_by_role (ops : CellNetwork R Net) (alpha beta : R)
    (st : LoopState R Net) (e_len : R) (e_id : Nat)
    (hfind : ops.find st.C e_id = true)
    (hkey : |ops.getLength st.C e_id - e_len| ≤ 1 / 100000)
    (hw : calculate_ns_weight ops alpha beta st.C e_id ≤ 0)
    (hu : RolesExclusive ops st.C (ops.getSourceVertex st.C e_id))
    (hv : RolesExclusive ops st.C (ops.getDestinationVertex st.C e_id)) :
    (ops.isNeuriteRootVertex st.C (ops.getSourceVertex st.C e_id) = true →
      ops.isNeuriteSimpleVertex st.C (ops.getDestinationVertex st.C e_id) = true →
        processPopped ops alpha beta st e_len e_id
          = .ok (afterCollapse ops alpha beta st e_id
              (ops.getPosition st.C (ops.getSourceVertex st.C e_id),
                ops.getRadius st.C (ops.getSourceVertex st.C e_id))))
    ∧ (ops.isNeuriteBranchingVertex st.C (ops.getSourceVertex st.C e_id) = true →
      ops.isNeuriteSimpleVertex st.C (ops.getDestinationVertex st.C e_id) = true →
        processPopped ops alpha beta st e_len e_id
          = .ok (afterCollapse ops alpha beta st e_id
              (ops.getPosition st.C (ops.getSourceVertex st.C e_id),
                ops.getRadius st.C (ops.getSourceVertex st.C e_id))))
    ∧ (ops.isNeuriteSimpleVertex st.C (ops.getSourceVertex st.C e_id) = true →
      (ops.isNeuriteTerminalVertex st.C (ops.getDestinationVertex st.C e_id) = true
        ∨ ops.isNeuriteBranchingVertex st.C (ops.getDestinationVertex st.C e_id) = true) →
        processPopped ops alpha beta st e_len e_id
          = .ok (afterCollapse ops alpha beta st e_id
              (ops.getPosition st.C (ops.getDestinationVertex st.C e_id),
                ops.getRadius st.C (ops.getDestinationVertex st.C e_id))))
    ∧ (ops.isNeuriteBranchingVertex st.C (ops.getSourceVertex st.C e_id) = true →
      ops.isNeuriteBranchingVertex st.C (ops.getDestinationVertex st.C e_id) = true →
        processPopped ops alpha beta st e_len e_id
          = .ok (afterCollapse ops alpha beta st e_id
              (meanPosition (ops.getPosition st.C (ops.getSourceVertex st.C e_id))
                  (ops.getPosition st.C (ops.getDestinationVertex st.C e_id)),
                (ops.getRadius st.C (ops.getSourceVertex st.C e_id)
                  + ops.getRadius st.C (ops.getDestinationVertex st.C e_id)) / 2)))
    ∧ (ops.isNeuriteSimpleVertex st.C (ops.getSourceVertex st.C e_id) = true →
      ops.isNeuriteSimpleVertex st.C (ops.getDestinationVertex st.C e_id) = true →
        processPopped ops alpha beta st e_len e_id
          = .ok (afterCollapse ops alpha beta st e_id
              (meanPosition (ops.getPosition st.C (ops.getSourceVertex st.C e_id))
                  (ops.getPosition st.C (ops.getDestinationVertex st.C e_id)),
                (ops.getRadius st.C (ops.getSourceVertex st.C e_id)
                  + ops.getRadius st.C (ops.getDestinationVertex st.C e_id)) / 2))) := by
  have hpop := processPopped_of_collapsible ops alpha beta st e_len e_id hfind hkey hw
  obtain ⟨h1, h2, h3, h4, h5⟩ := collapseTarget_rows ops st.C _ _ hu hv
  refine ⟨fun a b => ?_, fun a b => ?_, fun a b => ?_, fun a b => ?_, fun a b => ?_⟩
  · rw [hpop]; exact collapseSegment_of_target ops alpha beta st e_id _ (h1 a b)
  · rw [hpop]; exact collapseSegment_of_target ops alpha beta st e_id _ (h2 a b)
  · rw [hpop]; exact collapseSegment_of_target ops alpha beta st e_id _ (h3 a b)
  · rw [hpop]; exact collapseSegment_of_target ops alpha beta st e_id _ (h4 a b)
  · rw [hpop]; exact collapseSegment_of_target ops alpha beta st e_id _ (h5 a b)

/-- C1, on the chain `0 -> 1 -> 2` with `alpha = 3`, `beta = 2`: the segment
from the root `0` to the simple vertex `1` is collapsed into the root. -/
theorem collapse_arguments_by_role_witness :
    processPopped Toy.network 3 2 ⟨Toy.chain, [], true⟩ 1 10
      = .ok (afterCollapse Toy.network 3 2 ⟨Toy.chain, [], true⟩ 10 (⟨0, 0, 0⟩, 1)) :=
  (collapse_arguments_by_role Toy.network 3 2 ⟨Toy.chain, [], true⟩ 1 10
    (by decide!) (by decide!) (by decide!) (by decide!) (by decide!)).1
    (by decide!) (by decide!)

/-- C2: in phase 2, a popped existing segment `e = (u, v)` whose key matches
and whose weight is `<= 0` is skipped when `u` is a root vertex and `v` is
terminal or branching, or `u` is branching and `v` is terminal: the case
distinction ends in `continue`, and network, queue and `fixed_point` are what
they were. -/
theorem skip_rows_change_nothing (ops : CellNetwork R Net) (alpha beta : R)
    (st : LoopState R Net) (e_len : R) (e_id : Nat)
    (hfind : ops.find st.C e_id = true)
    (hkey : |ops.getLength st.C e_id - e_len| ≤ 1 / 100000)
    (hw : calculate_ns_weight ops alpha beta st.C e_id ≤ 0)
    (hrow : (ops.isNeuriteRootVertex st.C (ops.getSourceVertex st.C e_id) = true
        ∧ (ops.isNeuriteTerminalVertex st.C (ops.getDestinationVertex st.C e_id) = true
          ∨ ops.isNeuriteBranchingVertex st.C (ops.getDestinationVertex st.C e_id) = true))
      ∨ (ops.isNeuriteBranchingVertex st.C (ops.getSourceVertex st.C e_id) = true
        ∧ ops.isNeuriteTerminalVertex st.C (ops.getDestinationVertex st.C e_id) = true)) :
    collapseTarget ops st.C (ops.getSourceVertex st.C e_id)
        (ops.getDestinationVertex st.C e_id) = .ok none
      ∧ processPopped ops alpha beta st e_len e_id = .ok st := by
  have hskip := collapseTarget_skip ops st.C e_id hrow
  refine ⟨hskip, ?_⟩
  rw [processPopped_of_collapsible ops alpha beta st e_len e_id hfind hkey hw]
  exact collapseSegment_of_skip ops alpha beta st e_id hskip

/-- C2, on the single segment from a root to a terminal vertex, with a
non-empty queue and `fixed_point` set. -/
theorem skip_rows_change_nothing_witness :
    collapseTarget Toy.network Toy.stub 0 1 = .ok none
      ∧ processPopped Toy.network 3 2 ⟨Toy.stub, [(5, 77)], true⟩ 1 10
        = .ok ⟨Toy.stub, [(5, 77)], true⟩ :=
  skip_rows_change_nothing Toy.network 3 2 ⟨Toy.stub, [(5, 77)], true⟩ 1 10
    (by decide!) (by decide!) (by decide!) (by decide!)

/-- C3: the weight of a segment is
`min (length - alpha * maxRadius) (length - beta * (r_smdv_src + r_smdv_dst))`,
and a popped existing segment whose key matches enters the case distinction
that leads to `collapse` exactly when this weight is `<= 0`: with weight `<= 0`
(zero included) the round is `collapseSegment`, with weight `> 0` the round
changes nothing. -/
theorem weight_decides_collapse (ops : CellNetwork R Net) (alpha beta : R)
    (st : LoopState R Net) (e_len : R) (e_id : Nat)
    (hfind : ops.find st.C e_id = true)
    (hkey : |ops.getLength st.C e_id - e_len| ≤ 1 / 100000) :
    calculate_ns_weight ops alpha beta st.C e_id
        = min (ops.getLength st.C e_id - alpha * ops.getMaxRadius st.C e_id)
            (ops.getLength st.C e_id
              - beta * ((ops.getSMDVRadii st.C e_id).1 + (ops.getSMDVRadii st.C e_id).2))
      ∧ (calculate_ns_weight ops alpha beta st.C e_id ≤ 0 →
          processPopped ops alpha beta st e_len e_id = collapseSegment ops alpha beta st e_id)
      ∧ (0 < calculate_ns_weight ops alpha beta st.C e_id →
          processPopped ops alpha beta st e_len e_id = .ok st) := by
  refine ⟨rfl, processPopped_of_collapsible ops alpha beta st e_len e_id hfind hkey, ?_⟩
  intro hpos
  rw [processPopped_of_match ops alpha beta st e_len e_id hfind hkey]
  unfold processSegment
  simp only [if_neg (not_le.mpr hpos)]

/-- C3, on the chain with `alpha = 3`, `beta = 2`: segment `10` has weight
`-2` and is handed to the case distinction. -/
theorem weight_decides_collapse_witness :
    calculate_ns_weight Toy.network 3 2 Toy.chain 10 = -2
      ∧ processPopped Toy.network 3 2 ⟨Toy.chain, [], true⟩ 1 10
        = collapseSegment Toy.network 3 2 ⟨Toy.chain, [], true⟩ 10 :=
  ⟨by decide!,
    (weight_decides_collapse Toy.network 3 2 ⟨Toy.chain, [], true⟩ 1 10
      (by decide!) (by decide!)).2.1 (by decide!)⟩

/-- C10: when phase 2 pops a pair `(key, id)` whose segment still exists, the
key-mismatch fault is thrown if and only if `|length - key| > 1e-5`; with a
difference of `1e-5` or less nothing is thrown by the check and the round
goes on with the segment (`processSegment`), which throws nothing at all when
the end points have roles the case distinction knows. -/
theorem key_mismatch_iff (ops : CellNetwork R Net) (alpha beta : R)
    (st : LoopState R Net) (e_len : R) (e_id : Nat)
    (hfind : ops.find st.C e_id = true) :
    (processPopped ops alpha beta st e_len e_id = .error Fault.keyMismatch
        ↔ |ops.getLength st.C e_id - e_len| > 1 / 100000)
      ∧ (|ops.getLength st.C e_id - e_len| ≤ 1 / 100000 →
          processPopped ops alpha beta st e_len e_id = processSegment ops alpha beta st e_id)
      ∧ ((ops.isNeuriteRootVertex st.C (ops.getSourceVertex st.C e_id) = true
            ∨ ops.isNeuriteBranchingVertex st.C (ops.getSourceVertex st.C e_id) = true
            ∨ ops.isNeuriteSimpleVertex st.C (ops.getSourceVertex st.C e_id) = true) →
          (ops.isNeuriteTerminalVertex st.C (ops.getDestinationVertex st.C e_id) = true
            ∨ ops.isNeuriteBranchingVertex st.C (ops.getDestinationVertex st.C e_id) = true
            ∨ ops.isNeuriteSimpleVertex st.C (ops.getDestinationVertex st.C e_id) = true) →
          ((∃ f, processPopped ops alpha beta st e_len e_id = .error f)
            ↔ |ops.getLength st.C e_id - e_len| > 1 / 100000)) := by
  refine ⟨⟨fun h => ?_, fun h => ?_⟩,
    processPopped_of_match ops alpha beta st e_len e_id hfind, fun hu hv => ⟨fun h => ?_, fun h => ?_⟩⟩
  · by_contra hle
    rw [processPopped_of_match ops alpha beta st e_len e_id hfind (not_lt.mp hle)] at h
    exact processSegment_ne_keyMismatch ops alpha beta st e_id h
  · unfold processPopped
    rw [if_pos hfind, if_pos h]
  · by_contra hle
    obtain ⟨f, hf⟩ := h
    rw [processPopped_of_match ops alpha beta st e_len e_id hfind (not_lt.mp hle)] at hf
    obtain ⟨t, ht⟩ := collapseTarget_ok_of_roles ops st.C _ _ hu hv
    obtain ⟨st', hst'⟩ := processSegment_ok_of_target ops alpha beta st e_id t ht
    rw [hst'] at hf
    cases hf
  · exact ⟨Fault.keyMismatch, by unfold processPopped; rw [if_pos hfind, if_pos h]⟩

/-- C10, on the chain: segment `10` has length 1; popped with key
`1 + 1e-5` the difference is exactly `1e-5` and the round goes on. -/
theorem key_mismatch_iff_witness :
    processPopped Toy.network 3 2 ⟨Toy.chain, [], true⟩ (1 + 1 / 100000) 10
      = processSegment Toy.network 3 2 ⟨Toy.chain, [], true⟩ 10 :=
  (key_mismatch_iff Toy.network 3 2 ⟨Toy.chain, [], true⟩ (1 + 1 / 100000) 10
    (by decide!)).2.1 (by decide!)

end StepTheorems

/-! ## Phase 1: the choice of the split count -/

section Phase1Theorems

variable {R : Type} [LinearOrderedField R]

@[simp] theorem Vec3.add_x (a b : Vec3 R) : (a + b).x = a.x + b.x := rfl
@[simp] theorem Vec3.add_y (a b : Vec3 R) : (a + b).y = a.y + b.y := rfl
@[simp] theorem Vec3.add_z (a b : Vec3 R) : (a + b).z = a.z + b.z := rfl
@[simp] theorem Vec3.sub_x (a b : Vec3 R) : (a - b).x = a.x - b.x := rfl
@[simp] theorem Vec3.sub_y (a b : Vec3 R) : (a - b).y = a.y - b.y := rfl
@[simp] theorem Vec3.sub_z (a b : Vec3 R) : (a - b).z = a.z - b.z := rfl
@[simp] theorem Vec3.scale_x (a : Vec3 R) (s : R) : (a * s).x = a.x * s := rfl
@[simp] theorem Vec3.scale_y (a : Vec3 R) (s : R) : (a * s).y = a.y * s := rfl
@[simp] theorem Vec3.scale_z (a : Vec3 R) (s : R) : (a * s).z = a.z * s := rfl

/-- The loop of `penalty_function` adds up the penalties of consecutive pairs. -/
theorem penaltyLoop_map_range' (len2 : Vec3 R → R) (gamma : R) (f : Nat → Vec3 R × R) :
    ∀ (n s : Nat) (acc : R),
      penaltyLoop len2 gamma acc ((List.range' s (n + 1)).map f)
        = acc + ∑ i in Finset.range n, segmentPenalty len2 gamma (f (s + i)) (f (s + i + 1)) := by
  intro n
  induction n with
  | zero =>
    intro s acc
    simp [List.range', penaltyLoop]
  | succ n ih =>
    intro s acc
    have hstep : penaltyLoop len2 gamma acc ((List.range' s (n + 1 + 1)).map f)
        = penaltyLoop len2 gamma (acc + segmentPenalty len2 gamma (f s) (f (s + 1)))
            ((List.range' (s + 1) (n + 1)).map f) := by
      simp only [List.range', List.map, penaltyLoop, segmentPenalty, pow_two]
    rw [hstep, ih (s + 1) _, Finset.sum_range_succ', add_assoc]
    congr 1
    rw [add_comm]
    congr 1
    apply Finset.sum_congr rfl
    intro i _
    have h1 : s + 1 + i = s + (i + 1) := by omega
    rw [h1]

/-- Entry `m` of `k_vertex_info` is the linear interpolation at `m / k`. -/
theorem k_vertex_info_entry (p_u p_v : Vec3 R) (r_u r_v : R) (k m : Nat) (hk : 0 < k) :
    (if m = 0 then (p_u, r_u)
      else if m = k then (p_v, r_v)
      else (p_u + (p_v - p_u) * ((m : R) / (k : R)), r_u + (r_v - r_u) * ((m : R) / (k : R))))
      = (interpolatedPosition p_u p_v k m, interpolatedRadius r_u r_v k m) := by
  have hk0 : (k : R) ≠ 0 := Nat.cast_ne_zero.mpr (Nat.pos_iff_ne_zero.mp hk)
  unfold interpolatedPosition interpolatedRadius
  by_cases h0 : m = 0
  · subst h0
    rw [if_pos rfl]
    refine Prod.ext (Vec3.ext ?_ ?_ ?_) ?_ <;> simp
  · rw [if_neg h0]
    by_cases h1 : m = k
    · subst h1
      rw [if_pos rfl]
      refine Prod.ext (Vec3.ext ?_ ?_ ?_) ?_ <;> simp [div_self hk0]
    · rw [if_neg h1]

/-- The penalty the code computes for `k` is the penalty in the words of the
specification. -/
theorem penalty_function_eq (len2 : Vec3 R → R) (gamma : R) (p_u p_v : Vec3 R) (r_u r_v : R)
    (k : Nat) (hk : 0 < k) :
    penalty_function len2 gamma (k_vertex_info p_u p_v r_u r_v k)
      = subsegmentPenalty len2 gamma p_u p_v r_u r_v k := by
  unfold penalty_function k_vertex_info subsegmentPenalty
  rw [List.range_eq_range', penaltyLoop_map_range', zero_add]
  apply Finset.sum_congr rfl
  intro i _
  simp only [zero_add]
  rw [k_vertex_info_entry p_u p_v r_u r_v k i hk, k_vertex_info_entry p_u p_v r_u r_v k (i + 1) hk]
  rfl

theorem k_vertex_info_length (p_u p_v : Vec3 R) (r_u r_v : R) (k : Nat) :
    (k_vertex_info p_u p_v r_u r_v k).length = k + 1 := by
  simp [k_vertex_info]

/-- What the search loop has found after the candidates `2, .., m + 1`. -/
theorem chooseSplit_fold (len2 : Vec3 R → R) (gamma : R) (p_u p_v : Vec3 R) (r_u r_v : R)
    (nvi : List (Vec3 R × R)) (m : Nat) :
    (m = 0 ∧ (List.range' 2 m).foldl (testCandidate len2 gamma p_u p_v r_u r_v)
        { n := 0, n_penalty := none, n_vertex_info := nvi }
          = { n := 0, n_penalty := none, n_vertex_info := nvi })
    ∨ (0 < m ∧ ∃ n, 2 ≤ n ∧ n < 2 + m
        ∧ (List.range' 2 m).foldl (testCandidate len2 gamma p_u p_v r_u r_v)
            { n := 0, n_penalty := none, n_vertex_info := nvi }
          = { n := n
              n_penalty := some (penalty_function len2 gamma (k_vertex_info p_u p_v r_u r_v n))
              n_vertex_info := k_vertex_info p_u p_v r_u r_v n }
        ∧ (∀ k, 2 ≤ k → k < 2 + m →
            penalty_function len2 gamma (k_vertex_info p_u p_v r_u r_v n)
              ≤ penalty_function len2 gamma (k_vertex_info p_u p_v r_u r_v k))
        ∧ (∀ k, 2 ≤ k → k < n →
            penalty_function len2 gamma (k_vertex_info p_u p_v r_u r_v n)
              < penalty_function len2 gamma (k_vertex_info p_u p_v r_u r_v k))) := by
  induction m with
  | zero => left; exact ⟨rfl, rfl⟩
  | succ m ih =>
    right
    refine ⟨Nat.succ_pos m, ?_⟩
    rw [List.range'_concat, List.foldl_append, one_mul]
    rcases ih with ⟨hm, hfold⟩ | ⟨_, n, hn2, hnm, hfold, hmin, hfirst⟩
    · subst hm
      rw [hfold]
      refine ⟨2, le_refl 2, by omega, ?_, ?_, ?_⟩
      · simp [testCandidate, penaltyLess]
      · intro k hk2 hk
        have : k = 2 := by omega
        subst this
        exact le_refl _
      · intro k hk2 hk
        omega
    · rw [hfold]
      by_cases hlt : penalty_function len2 gamma (k_vertex_info p_u p_v r_u r_v (2 + m))
          < penalty_function len2 gamma (k_vertex_info p_u p_v r_u r_v n)
      · refine ⟨2 + m, by omega, by omega, ?_, ?_, ?_⟩
        · simp [testCandidate, penaltyLess, hlt]
        · intro k hk2 hk
          by_cases hkm : k < 2 + m
          · exact le_of_lt (lt_of_lt_of_le hlt (hmin k hk2 hkm))
          · have : k = 2 + m := by omega
            subst this
            exact le_refl _
        · intro k hk2 hk
          exact lt_of_lt_of_le hlt (hmin k hk2 (by omega))
      · refine ⟨n, hn2, by omega, ?_, ?_, hfirst⟩
        · simp [testCandidate, penaltyLess, hlt]
        · intro k hk2 hk
          by_cases hkm : k < 2 + m
          · exact hmin k hk2 hkm
          · have : k = 2 + m := by omega
            subst this
            exact not_lt.mp hlt

/-- The list handed to `split` for the split count `n`: the interpolated
vertices `1, .., n - 1`. -/
theorem interior_vertices (p_u p_v : Vec3 R) (r_u r_v : R) (n : Nat) (hn : 0 < n) :
    (k_vertex_info p_u p_v r_u r_v n).tail.dropLast
      = (List.range' 1 (n - 1)).map
          (fun j => (interpolatedPosition p_u p_v n j, interpolatedRadius r_u r_v n j)) := by
  unfold k_vertex_info
  rw [← List.map_tail, ← List.map_dropLast, List.tail_range, Nat.add_sub_cancel]
  obtain ⟨n', rfl⟩ : ∃ n', n = n' + 1 := ⟨n - 1, by omega⟩
  rw [List.range'_1_concat, List.dropLast_concat, Nat.add_sub_cancel]
  apply List.map_congr_left
  intro j _
  exact k_vertex_info_entry p_u p_v r_u r_v (n' + 1) j hn

theorem interpolatedPosition_step (p_u p_v : Vec3 R) (k i : Nat) :
    interpolatedPosition p_u p_v k (i + 1) - interpolatedPosition p_u p_v k i
      = (p_v - p_u) * (1 / (k : R)) := by
  unfold interpolatedPosition
  refine Vec3.ext ?_ ?_ ?_ <;> simp <;> ring

/-- On a straight segment of length `L` with equal end radii `r`, a split into
`k` parts has penalty `k * (L / k - gamma * r)^2`. -/
theorem subsegmentPenalty_uniform (len2 : Vec3 R → R) (gamma r L : R) (p_u p_v : Vec3 R)
    (hstraight : ∀ c : R, 0 ≤ c → len2 ((p_v - p_u) * c) = c * L) (k : Nat) :
    subsegmentPenalty len2 gamma p_u p_v r r k = (k : R) * (L / k - gamma * r) ^ 2 := by
  unfold subsegmentPenalty
  have hsum : ∀ i ∈ Finset.range k,
      (len2 (interpolatedPosition p_u p_v k (i + 1) - interpolatedPosition p_u p_v k i)
        - gamma * max (interpolatedRadius r r k (i + 1)) (interpolatedRadius r r k i)) ^ 2
      = (L / k - gamma * r) ^ 2 := by
    intro i _
    rw [interpolatedPosition_step, hstraight _ (by positivity)]
    simp only [interpolatedRadius, sub_self, zero_mul, add_zero, max_self]
    congr 2
    ring
  rw [Finset.sum_congr rfl hsum, Finset.sum_const, Finset.card_range, nsmul_eq_mul]

variable [FloorRing R]

theorem nmaxOf_eq_some (uv_len rmax : R) (nmax : Nat) (h : nmaxOf uv_len rmax = some nmax) :
    rmax ≠ 0 ∧ nmax = ⌈uv_len / rmax⌉₊ ∧ nmax < 2 ^ 32 - 1 := by
  unfold nmaxOf at h
  by_cases h0 : rmax = 0
  · simp [h0] at h
  · rw [if_neg h0] at h
    by_cases hc : 0 ≤ (⌈uv_len / rmax⌉ : Int) ∧ (⌈uv_len / rmax⌉ : Int) < 2 ^ 32 - 1
    · simp only [if_pos hc, Option.some.injEq] at h
      refine ⟨h0, ?_, ?_⟩
      · rw [← h, Int.ceil_toNat]
      · rw [← h]
        omega
    · simp only [if_neg hc] at h
      exact absurd h (by simp)

theorem nmaxOf_of_range (uv_len rmax : R) (hr : 0 < rmax) (hL : 0 ≤ uv_len)
    (hrange : ⌈uv_len / rmax⌉₊ < 2 ^ 32 - 1) :
    nmaxOf uv_len rmax = some ⌈uv_len / rmax⌉₊ := by
  unfold nmaxOf
  rw [if_neg (ne_of_gt hr)]
  have hnn : 0 ≤ (⌈uv_len / rmax⌉ : Int) := Int.ceil_nonneg (div_nonneg hL (le_of_lt hr))
  have hcast : ((⌈uv_len / rmax⌉₊ : Nat) : Int) = ⌈uv_len / rmax⌉ :=
    Int.natCast_ceil_eq_ceil (div_nonneg hL (le_of_lt hr))
  have hlt : (⌈uv_len / rmax⌉ : Int) < 2 ^ 32 - 1 := by
    rw [← hcast]
    omega
  simp only [if_pos (And.intro hnn hlt), Int.ceil_toNat]

/-- A long segment has at least two candidates: `nmax >= 2`. -/
theorem two_le_ceil (gamma uv_len rmax : R) (hγ : 1 ≤ gamma) (hr : 0 < rmax)
    (hL : uv_len > gamma * rmax) : 2 ≤ ⌈uv_len / rmax⌉₊ := by
  have h1 : (1 : R) < uv_len / rmax := by
    rw [lt_div_iff₀ hr]
    calc 1 * rmax ≤ gamma * rmax := mul_le_mul_of_nonneg_right hγ (le_of_lt hr)
      _ < uv_len := hL
  have : (1 : Nat) < ⌈uv_len / rmax⌉₊ := Nat.lt_ceil.mpr (by simpa using h1)
  omega

/-- What `splitArguments` returns for a segment with at least two candidates. -/
theorem splitArguments_spec (len2 : Vec3 R → R) (gamma uv_len : R) (p_u p_v : Vec3 R)
    (r_u r_v : R) (nvi : List (Vec3 R × R)) (best : SplitChoice R)
    (h2 : 2 ≤ ⌈uv_len / max r_u r_v⌉₊)
    (h : splitArguments len2 gamma uv_len p_u p_v r_u r_v nvi = some best) :
    2 ≤ best.n ∧ best.n ≤ ⌈uv_len / max r_u r_v⌉₊
      ∧ best.n_penalty = some (subsegmentPenalty len2 gamma p_u p_v r_u r_v best.n)
      ∧ best.n_vertex_info = (k_vertex_info p_u p_v r_u r_v best.n).tail.dropLast
      ∧ (∀ k, 2 ≤ k → k ≤ ⌈uv_len / max r_u r_v⌉₊ →
          subsegmentPenalty len2 gamma p_u p_v r_u r_v best.n
            ≤ subsegmentPenalty len2 gamma p_u p_v r_u r_v k)
      ∧ (∀ k, 2 ≤ k → k < best.n →
          subsegmentPenalty len2 gamma p_u p_v r_u r_v best.n
            < subsegmentPenalty len2 gamma p_u p_v r_u r_v k) := by
  unfold splitArguments at h
  cases hn : nmaxOf uv_len (max r_u r_v) with
  | none => simp [hn] at h
  | some nmax =>
    obtain ⟨_, hnmax, _⟩ := nmaxOf_eq_some _ _ _ hn
    simp only [hn] at h
    unfold chooseSplit at h
    rcases chooseSplit_fold len2 gamma p_u p_v r_u r_v nvi (nmax - 1) with
      ⟨hm, _⟩ | ⟨_, n, hn2, hnm, hfold, hmin, hfirst⟩
    · omega
    · rw [hfold] at h
      simp only [k_vertex_info_length] at h
      rw [if_neg (by omega)] at h
      simp only [Option.some.injEq] at h
      subst h
      refine ⟨hn2, ?_, ?_, rfl, ?_, ?_⟩
      · show n ≤ ⌈uv_len / max r_u r_v⌉₊
        omega
      · show some (penalty_function len2 gamma (k_vertex_info p_u p_v r_u r_v n))
          = some (subsegmentPenalty len2 gamma p_u p_v r_u r_v n)
        rw [penalty_function_eq len2 gamma p_u p_v r_u r_v n (by omega)]
      · intro k hk2 hk
        show subsegmentPenalty len2 gamma p_u p_v r_u r_v n
          ≤ subsegmentPenalty len2 gamma p_u p_v r_u r_v k
        rw [← penalty_function_eq len2 gamma p_u p_v r_u r_v n (by omega),
          ← penalty_function_eq len2 gamma p_u p_v r_u r_v k (by omega)]
        exact hmin k hk2 (by omega)
      · intro k hk2 hk
        show subsegmentPenalty len2 gamma p_u p_v r_u r_v n
          < subsegmentPenalty len2 gamma p_u p_v r_u r_v k
        rw [← penalty_function_eq len2 gamma p_u p_v r_u r_v n (by omega),
          ← penalty_function_eq len2 gamma p_u p_v r_u r_v k (by omega)]
        exact hfirst k hk2 hk

/-- A segment with an admissible `nmax >= 2` is split. -/
theorem splitArguments_isSome (len2 : Vec3 R → R) (gamma uv_len : R) (p_u p_v : Vec3 R)
    (r_u r_v : R) (nvi : List (Vec3 R × R)) (nmax : Nat)
    (hn : nmaxOf uv_len (max r_u r_v) = some nmax) (h2 : 2 ≤ nmax) :
    ∃ best, splitArguments len2 gamma uv_len p_u p_v r_u r_v nvi = some best := by
  unfold splitArguments
  simp only [hn]
  unfold chooseSplit
  rcases chooseSplit_fold len2 gamma p_u p_v r_u r_v nvi (nmax - 1) with
    ⟨hm, _⟩ | ⟨_, n, hn2, hnm, hfold, _, _⟩
  · omega
  · rw [hfold]
    simp only [k_vertex_info_length]
    rw [if_neg (by omega)]
    exact ⟨_, rfl⟩

/-- C6 (amended): for a straight segment with equal end radii `r > 0` and
length `L = m * gamma * r`, `m >= 2` an integer and `gamma >= 1`, whose bound
`ceil (m * gamma)` fits the 32-bit counter (is below `2^32 - 1`), phase 1
chooses `n = m` with penalty 0 and hands `split` the `m - 1` interior vertices
at the parameters `j / m`, which gives `m` sub-segments of length `gamma * r`
each. -/
theorem equal_radii_split (len2 : Vec3 R → R) (gamma r : R) (p_u p_v : Vec3 R) (m : Nat)
    (nvi : List (Vec3 R × R))
    (hr : 0 < r) (hγ : 1 ≤ gamma) (hm : 2 ≤ m)
    (hstraight : ∀ c : R, 0 ≤ c → len2 ((p_v - p_u) * c) = c * (m * gamma * r))
    (hrange : ⌈(m : R) * gamma⌉₊ < 2 ^ 32 - 1) :
    ∃ best, splitArguments len2 gamma (m * gamma * r) p_u p_v r r nvi = some best
      ∧ best.n = m ∧ best.n_penalty = some 0
      ∧ best.n_vertex_info
          = (List.range' 1 (m - 1)).map (fun j => (interpolatedPosition p_u p_v m j, r))
      ∧ best.n_vertex_info.length = m - 1
      ∧ ∀ i, i < m →
          len2 (interpolatedPosition p_u p_v m (i + 1) - interpolatedPosition p_u p_v m i)
            = gamma * r := by
  have hγ0 : 0 < gamma := lt_of_lt_of_le zero_lt_one hγ
  have hm0 : (0 : R) < m := by exact_mod_cast (by omega : 0 < m)
  have hquot : (m : R) * gamma * r / max r r = m * gamma := by
    rw [max_self, mul_div_assoc, div_self (ne_of_gt hr), mul_one]
  have hnmax : nmaxOf ((m : R) * gamma * r) (max r r) = some ⌈(m : R) * gamma⌉₊ := by
    have h := nmaxOf_of_range ((m : R) * gamma * r) (max r r) (by rw [max_self]; exact hr)
      (by positivity) (by rw [hquot]; exact hrange)
    rw [hquot] at h
    exact h
  have hmle : m ≤ ⌈(m : R) * gamma⌉₊ := by
    have h1 : (m : R) ≤ m * gamma := by nlinarith
    calc m = ⌈(m : R)⌉₊ := (Nat.ceil_natCast m).symm
      _ ≤ ⌈(m : R) * gamma⌉₊ := Nat.ceil_mono h1
  obtain ⟨best, hbest⟩ := splitArguments_isSome len2 gamma ((m : R) * gamma * r) p_u p_v r r nvi
    _ hnmax (le_trans hm hmle)
  have hpen : ∀ k : Nat, subsegmentPenalty len2 gamma p_u p_v r r k
      = (k : R) * ((m : R) * gamma * r / k - gamma * r) ^ 2 :=
    subsegmentPenalty_uniform len2 gamma r _ p_u p_v hstraight
  have hpen_m : subsegmentPenalty len2 gamma p_u p_v r r m = 0 := by
    rw [hpen m]
    have : (m : R) * gamma * r / m - gamma * r = 0 := by
      field_simp
      ring
    rw [this]
    simp
  obtain ⟨hn2, hnle, hnpen, hnvi, hmin, _⟩ :=
    splitArguments_spec len2 gamma _ p_u p_v r r nvi best
      (by rw [hquot]; exact le_trans hm hmle) hbest
  rw [hquot] at hnle hmin
  have hle := hmin m hm hmle
  rw [hpen_m, hpen best.n] at hle
  have hn0 : (0 : R) < best.n := by exact_mod_cast (by omega : 0 < best.n)
  have hsq : ((m : R) * gamma * r / best.n - gamma * r) ^ 2 = 0 := by
    apply le_antisymm _ (sq_nonneg _)
    by_contra hc
    have hpos := mul_pos hn0 (not_le.mp hc)
    exact absurd hle (not_le.mpr hpos)
  have hnm : best.n = m := by
    have h1 : (m : R) * gamma * r / best.n - gamma * r = 0 :=
      (pow_eq_zero_iff two_ne_zero).mp hsq
    have h2 : (m : R) * gamma * r / best.n = gamma * r := sub_eq_zero.mp h1
    rw [div_eq_iff (ne_of_gt hn0)] at h2
    have hgr : gamma * r ≠ 0 := ne_of_gt (mul_pos hγ0 hr)
    have h3 : (m : R) = best.n := by
      apply mul_left_cancel₀ hgr
      rw [← h2]
      ring
    exact_mod_cast h3.symm
  have hstep : ∀ i, i < m →
      len2 (interpolatedPosition p_u p_v m (i + 1) - interpolatedPosition p_u p_v m i)
        = gamma * r := by
    intro i _
    rw [interpolatedPosition_step, hstraight _ (by positivity)]
    field_simp
    ring
  have hlist : best.n_vertex_info
      = (List.range' 1 (m - 1)).map (fun j => (interpolatedPosition p_u p_v m j, r)) := by
    rw [hnvi, hnm, interior_vertices p_u p_v r r m (by omega)]
    apply List.map_congr_left
    intro j _
    simp [interpolatedRadius]
  refine ⟨best, hbest, hnm, ?_, hlist, ?_, hstep⟩
  · rw [hnpen, hnm, hpen_m]
  · rw [hlist]
    simp

/-- C4 (amended): for a segment split in phase 1 (length `L > gamma * rmax`,
`rmax` the larger end radius, `rmax > 0`, and `gamma >= 1` as the thresholds
of the preconditioner have it) whose bound `ceil (L / rmax)` fits the 32-bit
counter (is below `2^32 - 1`), an `n` is chosen, it lies in
`[2, ceil (L / rmax)]` and it minimises the penalty: `penalty n <= penalty k`
for every `k` in that range, the penalty of `k` being the sum over the `k`
equal-parameter sub-segments of
`(length - gamma * max of the two interpolated end radii)^2`. -/
theorem chosen_count_minimises_penalty (len2 : Vec3 R → R) (gamma uv_len : R)
    (p_u p_v : Vec3 R) (r_u r_v : R) (nvi : List (Vec3 R × R))
    (hγ : 1 ≤ gamma) (hr : 0 < max r_u r_v) (hL : uv_len > gamma * max r_u r_v)
    (hrange : ⌈uv_len / max r_u r_v⌉₊ < 2 ^ 32 - 1) :
    ∃ best, splitArguments len2 gamma uv_len p_u p_v r_u r_v nvi = some best
      ∧ 2 ≤ best.n ∧ best.n ≤ ⌈uv_len / max r_u r_v⌉₊
      ∧ best.n_penalty = some (subsegmentPenalty len2 gamma p_u p_v r_u r_v best.n)
      ∧ ∀ k, 2 ≤ k → k ≤ ⌈uv_len / max r_u r_v⌉₊ →
          subsegmentPenalty len2 gamma p_u p_v r_u r_v best.n
            ≤ subsegmentPenalty len2 gamma p_u p_v r_u r_v k := by
  have h2 : 2 ≤ ⌈uv_len / max r_u r_v⌉₊ := two_le_ceil gamma uv_len _ hγ hr hL
  have hL0 : 0 ≤ uv_len :=
    le_of_lt (lt_of_le_of_lt (mul_nonneg (le_trans zero_le_one hγ) (le_of_lt hr)) hL)
  obtain ⟨best, hbest⟩ := splitArguments_isSome len2 gamma uv_len p_u p_v r_u r_v nvi _
    (nmaxOf_of_range uv_len _ hr hL0 hrange) h2
  obtain ⟨h1, hle, hpen, _, h3, _⟩ :=
    splitArguments_spec len2 gamma uv_len p_u p_v r_u r_v nvi best h2 hbest
  exact ⟨best, hbest, h1, hle, hpen, h3⟩

/-- C4 (amended), for a segment of length 10 on the x-axis with radii 1 and
`gamma = 3`: an `n` in `[2, 10]` is chosen whose penalty is the least of the
range. -/
theorem chosen_count_minimises_penalty_witness :
    ∃ best, splitArguments len2Q 3 10 ⟨0, 0, 0⟩ ⟨10, 0, 0⟩ 1 1 [] = some best
      ∧ 2 ≤ best.n ∧ best.n ≤ ⌈(10 : ℚ) / max 1 1⌉₊
      ∧ best.n_penalty = some (subsegmentPenalty len2Q 3 ⟨0, 0, 0⟩ ⟨10, 0, 0⟩ 1 1 best.n)
      ∧ ∀ k, 2 ≤ k → k ≤ ⌈(10 : ℚ) / max 1 1⌉₊ →
          subsegmentPenalty len2Q 3 ⟨0, 0, 0⟩ ⟨10, 0, 0⟩ 1 1 best.n
            ≤ subsegmentPenalty len2Q 3 ⟨0, 0, 0⟩ ⟨10, 0, 0⟩ 1 1 k :=
  chosen_count_minimises_penalty len2Q 3 10 ⟨0, 0, 0⟩ ⟨10, 0, 0⟩ 1 1 []
    (by decide!) (by decide!) (by decide!) (by decide!)

/-- C4 as stated fails for a bound beyond the 32-bit counter: with
`gamma = 3 >= alpha = 3 > beta = 2 > 1`, the straight segment of length
`3 * 2^32` with radii 1 has `L > gamma * rmax` and `rmax > 0`, but
`ceil (L / rmax) = 3 * 2^32` does not fit the `uint32_t` variable `nmax`, and
no `n` in `[2, ceil (L / rmax)]` is chosen. -/
theorem chosen_count_counterexample :
    (3 : ℚ) ≥ 3 ∧ (3 : ℚ) > 2 ∧ (2 : ℚ) > 1
      ∧ (0 : ℚ) < max 1 1 ∧ (12884901888 : ℚ) > 3 * max 1 1
      ∧ ⌈(12884901888 : ℚ) / max 1 1⌉₊ = 3 * 2 ^ 32
      ∧ nmaxOf (12884901888 : ℚ) (max 1 1) = none
      ∧ splitArguments len2Q 3 12884901888 ⟨0, 0, 0⟩ ⟨12884901888, 0, 0⟩ 1 1 [] = none := by
  refine ⟨by decide!, by decide!, by decide!, by decide!, by decide!, ?_, by decide!,
    by decide!⟩
  norm_num

/-- C5 (amended): ties between split counts go to the smallest.  For a segment
split in phase 1 (`L > gamma * rmax`, `rmax > 0`, `gamma >= 1`) whose bound
`ceil (L / rmax)` fits the 32-bit counter (is below `2^32 - 1`), an `n` in
`[2, ceil (L / rmax)]` is chosen that minimises the penalty over that range;
every `k` with `2 <= k < n` has a penalty strictly above that of `n`, and `n`
is the least minimiser of the penalty over `[2, ceil (L / rmax)]`. -/
theorem chosen_count_is_least_minimiser (len2 : Vec3 R → R) (gamma uv_len : R)
    (p_u p_v : Vec3 R) (r_u r_v : R) (nvi : List (Vec3 R × R))
    (hγ : 1 ≤ gamma) (hr : 0 < max r_u r_v) (hL : uv_len > gamma * max r_u r_v)
    (hrange : ⌈uv_len / max r_u r_v⌉₊ < 2 ^ 32 - 1) :
    ∃ best, splitArguments len2 gamma uv_len p_u p_v r_u r_v nvi = some best
      ∧ 2 ≤ best.n ∧ best.n ≤ ⌈uv_len / max r_u r_v⌉₊
      ∧ (∀ k, 2 ≤ k → k ≤ ⌈uv_len / max r_u r_v⌉₊ →
          subsegmentPenalty len2 gamma p_u p_v r_u r_v best.n
            ≤ subsegmentPenalty len2 gamma p_u p_v r_u r_v k)
      ∧ (∀ k, 2 ≤ k → k < best.n →
          subsegmentPenalty len2 gamma p_u p_v r_u r_v best.n
            < subsegmentPenalty len2 gamma p_u p_v r_u r_v k)
      ∧ ∀ k, 2 ≤ k → k ≤ ⌈uv_len / max r_u r_v⌉₊ →
          (∀ j, 2 ≤ j → j ≤ ⌈uv_len / max r_u r_v⌉₊ →
            subsegmentPenalty len2 gamma p_u p_v r_u r_v k
              ≤ subsegmentPenalty len2 gamma p_u p_v r_u r_v j) →
          best.n ≤ k := by
  have h2 : 2 ≤ ⌈uv_len / max r_u r_v⌉₊ := two_le_ceil gamma uv_len _ hγ hr hL
  have hL0 : 0 ≤ uv_len :=
    le_of_lt (lt_of_le_of_lt (mul_nonneg (le_trans zero_le_one hγ) (le_of_lt hr)) hL)
  obtain ⟨best, hbest⟩ := splitArguments_isSome len2 gamma uv_len p_u p_v r_u r_v nvi _
    (nmaxOf_of_range uv_len _ hr hL0 hrange) h2
  obtain ⟨h1, hle, _, _, h3, h4⟩ :=
    splitArguments_spec len2 gamma uv_len p_u p_v r_u r_v nvi best h2 hbest
  refine ⟨best, hbest, h1, hle, h3, h4, fun k hk2 _ hkmin => ?_⟩
  by_contra hlt
  exact absurd (hkmin best.n h1 hle) (not_le.mpr (h4 k hk2 (not_le.mp hlt)))

/-- C5 (amended), for a segment of length 10 on the x-axis with radii 1 and
`gamma = 2`: an `n` in `[2, 10]` is chosen, and it is the least minimiser of
the penalty over that range. -/
theorem chosen_count_is_least_minimiser_witness :
    ∃ best, splitArguments len2Q 2 10 ⟨0, 0, 0⟩ ⟨10, 0, 0⟩ 1 1 [] = some best
      ∧ 2 ≤ best.n ∧ best.n ≤ ⌈(10 : ℚ) / max 1 1⌉₊
      ∧ (∀ k, 2 ≤ k → k ≤ ⌈(10 : ℚ) / max 1 1⌉₊ →
          subsegmentPenalty len2Q 2 ⟨0, 0, 0⟩ ⟨10, 0, 0⟩ 1 1 best.n
            ≤ subsegmentPenalty len2Q 2 ⟨0, 0, 0⟩ ⟨10, 0, 0⟩ 1 1 k)
      ∧ (∀ k, 2 ≤ k → k < best.n →
          subsegmentPenalty len2Q 2 ⟨0, 0, 0⟩ ⟨10, 0, 0⟩ 1 1 best.n
            < subsegmentPenalty len2Q 2 ⟨0, 0, 0⟩ ⟨10, 0, 0⟩ 1 1 k)
      ∧ ∀ k, 2 ≤ k → k ≤ ⌈(10 : ℚ) / max 1 1⌉₊ →
          (∀ j, 2 ≤ j → j ≤ ⌈(10 : ℚ) / max 1 1⌉₊ →
            subsegmentPenalty len2Q 2 ⟨0, 0, 0⟩ ⟨10, 0, 0⟩ 1 1 k
              ≤ subsegmentPenalty len2Q 2 ⟨0, 0, 0⟩ ⟨10, 0, 0⟩ 1 1 j) →
          best.n ≤ k :=
  chosen_count_is_least_minimiser len2Q 2 10 ⟨0, 0, 0⟩ ⟨10, 0, 0⟩ 1 1 []
    (by decide!) (by decide!) (by decide!) (by decide!)

/-- C5 as stated fails for a bound beyond the 32-bit counter: with
`gamma = 2` (and, say, `alpha = 2`, `beta = 3/2`), the straight segment of
length `2^33` with radii 1 has `L > gamma * rmax` and `rmax > 0`, but
`ceil (L / rmax) = 2^33` does not fit the `uint32_t` variable `nmax`: the
candidates `k = 2, .., ceil (L / rmax)` are not all tested and no least
minimiser over that range is chosen. -/
theorem least_minimiser_counterexample :
    (2 : ℚ) ≥ 2 ∧ (2 : ℚ) > 3 / 2 ∧ (3 / 2 : ℚ) > 1
      ∧ (0 : ℚ) < max 1 1 ∧ (8589934592 : ℚ) > 2 * max 1 1
      ∧ ⌈(8589934592 : ℚ) / max 1 1⌉₊ = 2 ^ 33
      ∧ nmaxOf (8589934592 : ℚ) (max 1 1) = none
      ∧ splitArguments len2Q 2 8589934592 ⟨0, 0, 0⟩ ⟨8589934592, 0, 0⟩ 1 1 [] = none := by
  refine ⟨by decide!, by decide!, by decide!, by decide!, by decide!, ?_, by decide!,
    by decide!⟩
  norm_num

/-- On the x-axis `len2Q` scales with the parameter. -/
theorem len2Q_axis (a c : ℚ) (ha : 0 ≤ a) (hc : 0 ≤ c) :
    len2Q ((⟨a, 0, 0⟩ - ⟨0, 0, 0⟩ : Vec3 ℚ) * c) = c * a := by
  have h : len2Q ((⟨a, 0, 0⟩ - ⟨0, 0, 0⟩ : Vec3 ℚ) * c) = Rat.sqrt (a * c * (a * c)) := by
    unfold len2Q
    simp
  rw [h, Rat.sqrt_eq, abs_of_nonneg (mul_nonneg ha hc), mul_comm]

/-- C6, scenario S4: length 10, radii 1 and 1, `gamma = 2`: phase 1 chooses
`n = 5` with penalty 0 and the four interior vertices at 2, 4, 6 and 8. -/
theorem equal_radii_split_witness :
    ∃ best, splitArguments len2Q 2 ((5 : ℕ) * 2 * 1) ⟨0, 0, 0⟩ ⟨10, 0, 0⟩ 1 1 [] = some best
      ∧ best.n = 5 ∧ best.n_penalty = some 0
      ∧ best.n_vertex_info
          = (List.range' 1 (5 - 1)).map
              (fun j => (interpolatedPosition ⟨0, 0, 0⟩ ⟨10, 0, 0⟩ 5 j, 1))
      ∧ best.n_vertex_info.length = 5 - 1
      ∧ ∀ i, i < 5 →
          len2Q (interpolatedPosition ⟨0, 0, 0⟩ ⟨10, 0, 0⟩ 5 (i + 1)
            - interpolatedPosition ⟨0, 0, 0⟩ ⟨10, 0, 0⟩ 5 i) = 2 * 1 :=
  equal_radii_split len2Q 2 1 ⟨0, 0, 0⟩ ⟨10, 0, 0⟩ 5 [] (by decide!) (by decide!) (by decide)
    (fun c hc => by rw [len2Q_axis 10 c (by decide!) hc]; norm_num) (by decide!)

/-- C6 as stated fails for a count beyond the 32-bit counter: the straight
segment of length `2^32` with radii 1 and `gamma = 1` (so `m = 2^32`) has
`nmax = 2^32`, which `uint32_t` cannot hold, and no `n` is chosen. -/
theorem equal_radii_split_counterexample :
    (0 : ℚ) < 1 ∧ (1 : ℚ) ≤ 1 ∧ 2 ≤ 4294967296
      ∧ (∀ c : ℚ, 0 ≤ c →
          len2Q ((⟨4294967296, 0, 0⟩ - ⟨0, 0, 0⟩ : Vec3 ℚ) * c)
            = c * ((4294967296 : ℕ) * 1 * 1))
      ∧ splitArguments len2Q 1 ((4294967296 : ℕ) * 1 * 1) ⟨0, 0, 0⟩ ⟨4294967296, 0, 0⟩ 1 1 []
          = none :=
  ⟨by decide!, by decide!, by decide,
    fun c hc => by rw [len2Q_axis 4294967296 c (by norm_num) hc]; norm_num,
    by decide!⟩

end Phase1Theorems

/-! ## The collapse loops -/

section LoopTheorems

variable {R Net : Type} [LinearOrderedField R]

theorem PriorityQueue.top_mem {K V : Type} [LinearOrder K] :
    ∀ (Q : PriorityQueue K V) (m : K × V), PriorityQueue.top Q = some m → m ∈ Q
  | [], m, h => by simp [PriorityQueue.top] at h
  | e :: es, m, h => by
    unfold PriorityQueue.top at h
    cases ht : PriorityQueue.top es with
    | none =>
      simp only [ht, Option.some.injEq] at h
      subst h
      exact List.mem_cons_self _ _
    | some m' =>
      simp only [ht] at h
      by_cases hlt : m'.1 < e.1
      · simp only [if_pos hlt, Option.some.injEq] at h
        subst h
        exact List.mem_cons_of_mem _ (PriorityQueue.top_mem es m' ht)
      · simp only [if_neg hlt, Option.some.injEq] at h
        subst h
        exact List.mem_cons_self _ _

theorem PriorityQueue.top_eq_none {K V : Type} [LinearOrder K] :
    ∀ (Q : PriorityQueue K V), PriorityQueue.top Q = none → Q = []
  | [], _ => rfl
  | e :: es, h => by
    unfold PriorityQueue.top at h
    cases ht : PriorityQueue.top es with
    | none => simp [ht] at h
    | some m' =>
      simp only [ht] at h
      by_cases hlt : m'.1 < e.1
      · simp [if_pos hlt] at h
      · simp [if_neg hlt] at h

/-- `Q.empty()` holds exactly when `Q.top()` has nothing to return. -/
theorem PriorityQueue.empty_iff_top {K V : Type} [LinearOrder K] (Q : PriorityQueue K V) :
    PriorityQueue.empty Q = true ↔ PriorityQueue.top Q = none := by
  constructor
  · intro h
    have hnil : Q = [] := by
      cases Q with
      | nil => rfl
      | cons e es => simp [PriorityQueue.empty] at h
    rw [hnil]
    rfl
  · intro h
    rw [PriorityQueue.top_eq_none Q h]
    rfl

theorem PriorityQueue.deleteMin_length {K V : Type} [LinearOrder K] [DecidableEq V]
    (Q : PriorityQueue K V) (m : K × V) (h : PriorityQueue.top Q = some m) :
    (PriorityQueue.deleteMin Q).length + 1 = Q.length := by
  unfold PriorityQueue.deleteMin
  simp only [h]
  have hm := PriorityQueue.top_mem Q m h
  rw [List.length_erase_of_mem hm]
  have : 0 < List.length Q := List.length_pos_of_mem hm
  omega

theorem PriorityQueue.mem_deleteMin {K V : Type} [LinearOrder K] [DecidableEq V]
    (Q : PriorityQueue K V) (m e : K × V) (h : PriorityQueue.top Q = some m) (he : e ∈ Q) :
    e = m ∨ e ∈ PriorityQueue.deleteMin Q := by
  unfold PriorityQueue.deleteMin
  simp only [h]
  by_cases hem : e = m
  · exact Or.inl hem
  · exact Or.inr ((List.mem_erase_of_ne hem).mpr he)

omit [LinearOrderedField R] in
theorem find_iff_mem (ops : CellNetwork R Net) (C : Net) (id : Nat) :
    ops.find C id = true ↔ id ∈ ops.neurite_segments C := by
  unfold CellNetwork.find
  simp

omit [LinearOrderedField R] in
/-- The queue a pass starts with holds every segment with its length as key. -/
theorem initialQueue_eq (ops : CellNetwork R Net) (C : Net) :
    initialQueue ops C = (ops.neurite_segments C).map (fun ns => (ops.getLength C ns, ns)) := by
  unfold initialQueue
  have h : ∀ (l : List Nat) (acc : PriorityQueue R Nat),
      l.foldl (fun Q ns => PriorityQueue.insert Q (ops.getLength C ns) ns) acc
        = acc ++ l.map (fun ns => (ops.getLength C ns, ns)) := by
    intro l
    induction l with
    | nil => intro acc; simp
    | cons a l ih =>
      intro acc
      rw [List.foldl_cons, ih]
      simp only [PriorityQueue.insert, List.map_cons, List.append_assoc, List.singleton_append]
  rw [h, List.nil_append]

/-- One round of the queue loop throws, or leaves the state alone, or is a
collapse of an existing segment with the target the case distinction gave. -/
theorem processPopped_cases (ops : CellNetwork R Net) (alpha beta : R)
    (st : LoopState R Net) (e_len : R) (e_id : Nat) :
    (∃ f, processPopped ops alpha beta st e_len e_id = .error f)
      ∨ (processPopped ops alpha beta st e_len e_id = .ok st
          ∧ (ops.find st.C e_id = true →
              0 < calculate_ns_weight ops alpha beta st.C e_id ∨
                collapseTarget ops st.C (ops.getSourceVertex st.C e_id)
                  (ops.getDestinationVertex st.C e_id) = .ok none))
      ∨ (∃ target, ops.find st.C e_id = true
          ∧ calculate_ns_weight ops alpha beta st.C e_id ≤ 0
          ∧ collapseTarget ops st.C (ops.getSourceVertex st.C e_id)
              (ops.getDestinationVertex st.C e_id) = .ok (some target)
          ∧ processPopped ops alpha beta st e_len e_id
              = .ok (afterCollapse ops alpha beta st e_id target)) := by
  by_cases hfind : ops.find st.C e_id = true
  · by_cases hkey : |ops.getLength st.C e_id - e_len| > 1 / 100000
    · left
      exact ⟨Fault.keyMismatch, by unfold processPopped; rw [if_pos hfind, if_pos hkey]⟩
    · rw [processPopped_of_match ops alpha beta st e_len e_id hfind (not_lt.mp hkey)]
      by_cases hw : calculate_ns_weight ops alpha beta st.C e_id ≤ 0
      · have hseg : processSegment ops alpha beta st e_id
            = collapseSegment ops alpha beta st e_id := by
          unfold processSegment
          simp only [if_pos hw]
        rw [hseg]
        cases ht : collapseTarget ops st.C (ops.getSourceVertex st.C e_id)
            (ops.getDestinationVertex st.C e_id) with
        | error f =>
          left
          exact ⟨f, by unfold collapseSegment; simp only [ht]⟩
        | ok t =>
          cases t with
          | none =>
            right; left
            exact ⟨collapseSegment_of_skip ops alpha beta st e_id ht, fun _ => Or.inr rfl⟩
          | some target =>
            right; right
            exact ⟨target, hfind, hw, rfl,
              collapseSegment_of_target ops alpha beta st e_id target ht⟩
      · right; left
        refine ⟨?_, fun _ => Or.inl (not_le.mp hw)⟩
        unfold processSegment
        simp only [if_neg hw]
  · right; left
    refine ⟨?_, fun h => absurd h hfind⟩
    unfold processPopped
    rw [if_neg hfind]

/-- More fuel does not change the outcome of the queue loop. -/
theorem processQueue_mono (ops : CellNetwork R Net) (alpha beta : R) :
    ∀ (fuel : Nat) (st : LoopState R Net) (r : Except Fault (LoopState R Net)),
      processQueue ops alpha beta fuel st = some r →
      ∀ fuel', fuel ≤ fuel' → processQueue ops alpha beta fuel' st = some r := by
  intro fuel
  induction fuel with
  | zero => intro st r h; simp [processQueue] at h
  | succ fuel ih =>
    intro st r h fuel' hle
    obtain ⟨f', rfl⟩ : ∃ f', fuel' = f' + 1 := ⟨fuel' - 1, by omega⟩
    unfold processQueue at h ⊢
    cases ht : PriorityQueue.top st.Q with
    | none => simpa [ht] using h
    | some min_pair =>
      simp only [ht] at h ⊢
      cases hp : processPopped ops alpha beta
          { st with Q := PriorityQueue.deleteMin st.Q } min_pair.1 min_pair.2 with
      | error f => simpa [hp] using h
      | ok st' =>
        simp only [hp] at h ⊢
        exact ih st' r h f' (by omega)

/-- More fuel does not change the outcome of phase 2. -/
theorem greedyCollapse_mono (ops : CellNetwork R Net) (alpha beta : R) :
    ∀ (fuel : Nat) (C : Net) (r : Except Fault Net),
      greedyCollapse ops alpha beta fuel C = some r →
      ∀ fuel', fuel ≤ fuel' → greedyCollapse ops alpha beta fuel' C = some r := by
  intro fuel
  induction fuel with
  | zero => intro C r h; simp [greedyCollapse] at h
  | succ fuel ih =>
    intro C r h fuel' hle
    obtain ⟨f', rfl⟩ : ∃ f', fuel' = f' + 1 := ⟨fuel' - 1, by omega⟩
    unfold greedyCollapse at h ⊢
    cases hq : processQueue ops alpha beta fuel
        { C := C, Q := initialQueue ops C, fixed_point := true } with
    | none => simp [hq] at h
    | some rq =>
      rw [processQueue_mono ops alpha beta fuel _ rq hq f' (by omega)]
      simp only [hq] at h
      cases rq with
      | error f => simpa using h
      | ok st =>
        simp only at h ⊢
        by_cases hfp : st.fixed_point = true
        · simpa [hfp] using h
        · simp only [hfp] at h ⊢
          exact ih st.C r h f' (by omega)

/-- A property of the loop state that changes of the queue and collapses of
existing segments preserve holds when the queue loop ends. -/
theorem processQueue_invariant (ops : CellNetwork R Net) (alpha beta : R)
    (Inv : LoopState R Net → Prop)
    (hQ : ∀ (st : LoopState R Net) (Q' : PriorityQueue R Nat), Inv st → Inv { st with Q := Q' })
    (hcollapse : ∀ (st : LoopState R Net) (e : Nat) (target : Vec3 R × R), Inv st →
      e ∈ ops.neurite_segments st.C → Inv (afterCollapse ops alpha beta st e target)) :
    ∀ (fuel : Nat) (st st' : LoopState R Net),
      processQueue ops alpha beta fuel st = some (.ok st') → Inv st → Inv st' := by
  intro fuel
  induction fuel with
  | zero => intro st st' h; simp [processQueue] at h
  | succ fuel ih =>
    intro st st' h hinv
    unfold processQueue at h
    cases ht : PriorityQueue.top st.Q with
    | none =>
      simp only [ht, Option.some.injEq, Except.ok.injEq] at h
      rw [← h]
      exact hinv
    | some min_pair =>
      simp only [ht] at h
      have hinv' := hQ st (PriorityQueue.deleteMin st.Q) hinv
      rcases processPopped_cases ops alpha beta
          { st with Q := PriorityQueue.deleteMin st.Q } min_pair.1 min_pair.2 with
        ⟨f, hf⟩ | ⟨hsame, _⟩ | ⟨target, hfind, _, _, hcol⟩
      · simp [hf] at h
      · simp only [hsame] at h
        exact ih _ st' h hinv'
      · simp only [hcol] at h
        exact ih _ st' h (hcollapse _ min_pair.2 target hinv'
          ((find_iff_mem ops _ _).mp hfind))

/-- The queue loop ends when every collapse of an existing segment lowers the
number of segments. -/
theorem processQueue_terminates (ops : CellNetwork R Net) (alpha beta : R)
    (hcount : ∀ (C : Net) (e : Nat) (target : Vec3 R × R), e ∈ ops.neurite_segments C →
      ops.segmentCount (ops.collapse C e target).1 < ops.segmentCount C) :
    ∀ (N q : Nat) (st : LoopState R Net), ops.segmentCount st.C = N → st.Q.length = q →
      ∃ fuel r, processQueue ops alpha beta fuel st = some r := by
  intro N
  induction N using Nat.strong_induction_on with
  | _ N ihN =>
    intro q
    induction q with
    | zero =>
      intro st _ hq
      refine ⟨1, .ok st, ?_⟩
      have hnil : st.Q = [] := List.length_eq_zero.mp hq
      unfold processQueue
      rw [hnil]
      rfl
    | succ q ihq =>
      intro st hN hq
      cases ht : PriorityQueue.top st.Q with
      | none =>
        exact ⟨1, .ok st, by unfold processQueue; simp only [ht]⟩
      | some min_pair =>
        have hlen := PriorityQueue.deleteMin_length st.Q min_pair ht
        rcases processPopped_cases ops alpha beta
            { st with Q := PriorityQueue.deleteMin st.Q } min_pair.1 min_pair.2 with
          ⟨f, hf⟩ | ⟨hsame, _⟩ | ⟨target, hfind, _, _, hcol⟩
        · exact ⟨1, .error f, by unfold processQueue; simp only [ht, hf]⟩
        · obtain ⟨fuel, r, hr⟩ := ihq { st with Q := PriorityQueue.deleteMin st.Q } hN
            (by show (PriorityQueue.deleteMin st.Q).length = q; omega)
          exact ⟨fuel + 1, r, by unfold processQueue; simp only [ht, hsame]; exact hr⟩
        · have hlt : ops.segmentCount
              (afterCollapse ops alpha beta { st with Q := PriorityQueue.deleteMin st.Q }
                min_pair.2 target).C < N := by
            rw [← hN]
            exact hcount st.C min_pair.2 target ((find_iff_mem ops _ _).mp hfind)
          obtain ⟨fuel, r, hr⟩ := ihN _ hlt _ _ rfl rfl
          exact ⟨fuel + 1, r, by unfold processQueue; simp only [ht, hcol]; exact hr⟩

omit [LinearOrderedField R] in
/-- Removing the collapsed segment and creating none lowers the count. -/
theorem count_lt_of_subperm (ops : CellNetwork R Net)
    (hcollapse : ∀ (C : Net) (e : Nat) (target : Vec3 R × R), e ∈ ops.neurite_segments C →
      (ops.neurite_segments (ops.collapse C e target).1).Subperm
        ((ops.neurite_segments C).erase e))
    (C : Net) (e : Nat) (target : Vec3 R × R) (he : e ∈ ops.neurite_segments C) :
    ops.segmentCount (ops.collapse C e target).1 < ops.segmentCount C := by
  unfold CellNetwork.segmentCount
  have h1 := (hcollapse C e target he).length_le
  rw [List.length_erase_of_mem he] at h1
  have : 0 < (ops.neurite_segments C).length := List.length_pos_of_mem he
  omega

/-- A pass that clears `fixed_point` has lowered the number of segments. -/
theorem processQueue_count (ops : CellNetwork R Net) (alpha beta : R)
    (hcount : ∀ (C : Net) (e : Nat) (target : Vec3 R × R), e ∈ ops.neurite_segments C →
      ops.segmentCount (ops.collapse C e target).1 < ops.segmentCount C)
    (fuel : Nat) (st st' : LoopState R Net)
    (h : processQueue ops alpha beta fuel st = some (.ok st')) :
    (st'.fixed_point = st.fixed_point ∧ st'.C = st.C)
      ∨ (st'.fixed_point = false ∧ ops.segmentCount st'.C < ops.segmentCount st.C) := by
  refine processQueue_invariant ops alpha beta
    (fun s => (s.fixed_point = st.fixed_point ∧ s.C = st.C)
      ∨ (s.fixed_point = false ∧ ops.segmentCount s.C < ops.segmentCount st.C))
    (fun s Q' hs => hs) ?_ fuel st st' h (Or.inl ⟨rfl, rfl⟩)
  intro s e target hs he
  right
  refine ⟨rfl, ?_⟩
  have hlt := hcount s.C e target he
  rcases hs with ⟨_, hC⟩ | ⟨_, hlt'⟩
  · rw [← hC]; exact hlt
  · exact lt_trans hlt hlt'

/-- Phase 2 ends when every collapse of an existing segment lowers the number
of segments. -/
theorem greedyCollapse_terminates_of_count (ops : CellNetwork R Net) (alpha beta : R)
    (hcount : ∀ (C : Net) (e : Nat) (target : Vec3 R × R), e ∈ ops.neurite_segments C →
      ops.segmentCount (ops.collapse C e target).1 < ops.segmentCount C) :
    ∀ (N : Nat) (C : Net), ops.segmentCount C = N →
      ∃ fuel r, greedyCollapse ops alpha beta fuel C = some r := by
  intro N
  induction N using Nat.strong_induction_on with
  | _ N ih =>
    intro C hN
    obtain ⟨fi, ri, hri⟩ := processQueue_terminates ops alpha beta hcount _ _
      { C := C, Q := initialQueue ops C, fixed_point := true } rfl rfl
    cases ri with
    | error f =>
      exact ⟨fi + 1, .error f, by unfold greedyCollapse; simp only [hri]⟩
    | ok st =>
      by_cases hfp : st.fixed_point = true
      · exact ⟨fi + 1, .ok st.C, by unfold greedyCollapse; simp only [hri, hfp, if_true]⟩
      · have hlt : ops.segmentCount st.C < N := by
          rcases processQueue_count ops alpha beta hcount fi _ st hri with ⟨h1, _⟩ | ⟨_, h2⟩
          · exact absurd h1 hfp
          · rw [← hN]; exact h2
        obtain ⟨fo, ro, hro⟩ := ih _ hlt st.C rfl
        refine ⟨max fi fo + 1, ro, ?_⟩
        unfold greedyCollapse
        rw [processQueue_mono ops alpha beta fi _ _ hri (max fi fo) (le_max_left _ _)]
        simp only [hfp]
        exact greedyCollapse_mono ops alpha beta fo st.C ro hro (max fi fo) (le_max_right _ _)

/-- The case distinction ends in `continue` only in a skip configuration. -/
theorem skip_of_collapseTarget_none (ops : CellNetwork R Net) (C : Net) (e : Nat)
    (h : collapseTarget ops C (ops.getSourceVertex C e) (ops.getDestinationVertex C e)
      = .ok none) :
    SkipConfiguration ops C e := by
  unfold SkipConfiguration
  unfold collapseTarget at h
  revert h
  cases ops.isNeuriteRootVertex C (ops.getSourceVertex C e) <;>
    cases ops.isNeuriteBranchingVertex C (ops.getSourceVertex C e) <;>
    cases ops.isNeuriteSimpleVertex C (ops.getSourceVertex C e) <;>
    cases ops.isNeuriteTerminalVertex C (ops.getDestinationVertex C e) <;>
    cases ops.isNeuriteBranchingVertex C (ops.getDestinationVertex C e) <;>
    cases ops.isNeuriteSimpleVertex C (ops.getDestinationVertex C e) <;>
    simp

/-- Once cleared, `fixed_point` stays cleared until the queue loop ends. -/
theorem processQueue_flag_stays_cleared (ops : CellNetwork R Net) (alpha beta : R)
    (fuel : Nat) (st st' : LoopState R Net)
    (h : processQueue ops alpha beta fuel st = some (.ok st'))
    (hfp : st.fixed_point = false) : st'.fixed_point = false :=
  processQueue_invariant ops alpha beta (fun s => s.fixed_point = false)
    (fun _ _ hs => hs) (fun _ _ _ _ _ => rfl) fuel st st' h hfp

/-- A pass that ends with `fixed_point` set has left the network alone, and
every queued segment of the network was either of positive weight or in a skip
configuration. -/
theorem processQueue_fixed_point (ops : CellNetwork R Net) (alpha beta : R) :
    ∀ (fuel : Nat) (st st' : LoopState R Net),
      processQueue ops alpha beta fuel st = some (.ok st') → st'.fixed_point = true →
      st'.C = st.C ∧ ∀ e ∈ st.Q, e.2 ∈ ops.neurite_segments st.C →
        0 < calculate_ns_weight ops alpha beta st.C e.2 ∨ SkipConfiguration ops st.C e.2 := by
  intro fuel
  induction fuel with
  | zero => intro st st' h; simp [processQueue] at h
  | succ fuel ih =>
    intro st st' h hfp
    unfold processQueue at h
    cases ht : PriorityQueue.top st.Q with
    | none =>
      simp only [ht, Option.some.injEq, Except.ok.injEq] at h
      rw [← h, PriorityQueue.top_eq_none st.Q ht]
      exact ⟨rfl, fun e he => absurd he (List.not_mem_nil e)⟩
    | some min_pair =>
      simp only [ht] at h
      rcases processPopped_cases ops alpha beta
          { st with Q := PriorityQueue.deleteMin st.Q } min_pair.1 min_pair.2 with
        ⟨f, hf⟩ | ⟨hsame, hpos⟩ | ⟨target, _, _, _, hcol⟩
      · simp [hf] at h
      · simp only [hsame] at h
        obtain ⟨hC, hrest⟩ := ih _ st' h hfp
        refine ⟨hC, fun e he hmem => ?_⟩
        rcases PriorityQueue.mem_deleteMin st.Q min_pair e ht he with heq | hin
        · subst heq
          rcases hpos ((find_iff_mem ops _ _).mpr hmem) with hw | hskip
          · exact Or.inl hw
          · exact Or.inr (skip_of_collapseTarget_none ops st.C e.2 hskip)
        · exact hrest e hin hmem
      · simp only [hcol] at h
        have := processQueue_flag_stays_cleared ops alpha beta fuel _ st' h rfl
        rw [hfp] at this
        cases this

/-- When phase 2 returns, every segment left has positive weight or is in a
skip configuration of the role table. -/
theorem greedyCollapse_result (ops : CellNetwork R Net) (alpha beta : R) :
    ∀ (fuel : Nat) (C C' : Net), greedyCollapse ops alpha beta fuel C = some (.ok C') →
      ∀ s ∈ ops.neurite_segments C',
        0 < calculate_ns_weight ops alpha beta C' s ∨ SkipConfiguration ops C' s := by
  intro fuel
  induction fuel with
  | zero => intro C C' h; simp [greedyCollapse] at h
  | succ fuel ih =>
    intro C C' h
    unfold greedyCollapse at h
    cases hq : processQueue ops alpha beta fuel
        { C := C, Q := initialQueue ops C, fixed_point := true } with
    | none => simp [hq] at h
    | some rq =>
      simp only [hq] at h
      cases rq with
      | error f => simp at h
      | ok st =>
        simp only at h
        by_cases hfp : st.fixed_point = true
        · simp only [hfp, if_true, Option.some.injEq, Except.ok.injEq] at h
          obtain ⟨hC, hall⟩ := processQueue_fixed_point ops alpha beta fuel _ st hq hfp
          rw [← h, hC]
          intro s hs
          refine hall (ops.getLength C s, s) ?_ hs
          rw [initialQueue_eq]
          exact List.mem_map.mpr ⟨s, hs, rfl⟩
        · simp only [hfp] at h
          exact ih st.C C' h

/-- Phase 2 does not raise the number of segments when no collapse does. -/
theorem greedyCollapse_count_le (ops : CellNetwork R Net) (alpha beta : R)
    (hcollapse : ∀ (C : Net) (e : Nat) (target : Vec3 R × R), e ∈ ops.neurite_segments C →
      ops.segmentCount (ops.collapse C e target).1 ≤ ops.segmentCount C) :
    ∀ (fuel : Nat) (C C' : Net), greedyCollapse ops alpha beta fuel C = some (.ok C') →
      ops.segmentCount C' ≤ ops.segmentCount C := by
  intro fuel
  induction fuel with
  | zero => intro C C' h; simp [greedyCollapse] at h
  | succ fuel ih =>
    intro C C' h
    unfold greedyCollapse at h
    cases hq : processQueue ops alpha beta fuel
        { C := C, Q := initialQueue ops C, fixed_point := true } with
    | none => simp [hq] at h
    | some rq =>
      simp only [hq] at h
      cases rq with
      | error f => simp at h
      | ok st =>
        simp only at h
        have hle : ops.segmentCount st.C ≤ ops.segmentCount C :=
          processQueue_invariant ops alpha beta
            (fun s => ops.segmentCount s.C ≤ ops.segmentCount C)
            (fun _ _ hs => hs)
            (fun s e target hs he => le_trans (hcollapse s.C e target he) hs)
            fuel _ st hq (le_refl _)
        by_cases hfp : st.fixed_point = true
        · simp only [hfp, if_true, Option.some.injEq, Except.ok.injEq] at h
          rw [← h]
          exact hle
        · simp only [hfp] at h
          exact le_trans (ih st.C C' h) hle

/-- A long segment that is handled is handed to `split` with the list
`splitArguments` computed from its length, end points and radii. -/
theorem splitSegment_eq_some [FloorRing R] (ops : CellNetwork R Net) (len2 : Vec3 R → R)
    (gamma : R) (C : Net) (nvi : List (Vec3 R × R)) (lns : Nat)
    (r : Net × List (Vec3 R × R)) (hs : splitSegment ops len2 gamma C nvi lns = some r) :
    ∃ best, splitArguments len2 gamma (ops.getLength C lns)
        (ops.getPosition C (ops.getSourceVertex C lns))
        (ops.getPosition C (ops.getDestinationVertex C lns))
        (ops.getRadius C (ops.getSourceVertex C lns))
        (ops.getRadius C (ops.getDestinationVertex C lns)) nvi = some best
      ∧ r = (ops.split C lns best.n_vertex_info, best.n_vertex_info) := by
  cases ha : splitArguments len2 gamma (ops.getLength C lns)
      (ops.getPosition C (ops.getSourceVertex C lns))
      (ops.getPosition C (ops.getDestinationVertex C lns))
      (ops.getRadius C (ops.getSourceVertex C lns))
      (ops.getRadius C (ops.getDestinationVertex C lns)) nvi with
  | none => simp [splitSegment, ha] at hs
  | some best =>
    simp only [splitSegment, ha, Option.some.injEq] at hs
    exact ⟨best, rfl, hs.symm⟩

/-- Phase 1 does not lower the number of segments when no split does. -/
theorem splitSegments_count_le [FloorRing R] (ops : CellNetwork R Net) (len2 : Vec3 R → R)
    (gamma : R)
    (hsplit : ∀ (C : Net) (s : Nat) (vs : List (Vec3 R × R)),
      ops.segmentCount C ≤ ops.segmentCount (ops.split C s vs)) :
    ∀ (l : List Nat) (C C1 : Net) (nvi : List (Vec3 R × R)),
      splitSegments ops len2 gamma C nvi l = some C1 →
      ops.segmentCount C ≤ ops.segmentCount C1 := by
  intro l
  induction l with
  | nil =>
    intro C C1 nvi h
    simp only [splitSegments, Option.some.injEq] at h
    rw [h]
  | cons lns rest ih =>
    intro C C1 nvi h
    unfold splitSegments at h
    cases hs : splitSegment ops len2 gamma C nvi lns with
    | none => simp [hs] at h
    | some r =>
      simp only [hs] at h
      obtain ⟨best, _, hr⟩ := splitSegment_eq_some ops len2 gamma C nvi lns r hs
      have hle : ops.segmentCount C ≤ ops.segmentCount r.1 := by
        rw [hr]
        exact hsplit C lns best.n_vertex_info
      exact le_trans hle (ih r.1 C1 r.2 h)

end LoopTheorems

/-! ## Termination, the final state and the segment count -/

section ToyFacts

theorem filter_ne_sublist_erase (e : Nat) :
    ∀ (l : List Toy.Segment), e ∈ l.map (fun t => t.id) →
      ((l.filter (fun t => t.id != e)).map (fun t => t.id)).Sublist
        ((l.map (fun t => t.id)).erase e)
  | [], h => by simp at h
  | a :: l, h => by
    by_cases hae : a.id = e
    · have h1 : ((a :: l).map (fun t => t.id)).erase e = l.map (fun t => t.id) := by
        simp [hae]
      have h2 : (a :: l).filter (fun t => t.id != e) = l.filter (fun t => t.id != e) := by
        simp [hae]
      rw [h1, h2]
      exact List.Sublist.map _ (List.filter_sublist l)
    · have hmem : e ∈ l.map (fun t => t.id) := by
        simp only [List.map_cons, List.mem_cons] at h
        rcases h with h | h
        · exact absurd h.symm hae
        · exact h
      have h1 : ((a :: l).map (fun t => t.id)).erase e
          = a.id :: (l.map (fun t => t.id)).erase e := by
        simp [List.erase_cons_tail, hae]
      have h2 : (a :: l).filter (fun t => t.id != e)
          = a :: l.filter (fun t => t.id != e) := by
        simp [hae]
      rw [h1, h2]
      exact List.Sublist.cons₂ _ (filter_ne_sublist_erase e l hmem)

/-- In the concrete network a collapse removes the collapsed segment and
creates none. -/
theorem Toy.collapse_removes (C : Toy.Net) (e : Nat) (target : Vec3 ℚ × ℚ)
    (he : e ∈ Toy.network.neurite_segments C) :
    (Toy.network.neurite_segments (Toy.network.collapse C e target).1).Subperm
      ((Toy.network.neurite_segments C).erase e) := by
  show (((C.collapse e target).1).segments.map (fun t => t.id)).Subperm
    ((C.segments.map (fun t => t.id)).erase e)
  have he' : e ∈ C.segments.map (fun t => t.id) := he
  unfold Toy.Net.collapse
  cases hs : C.segment e with
  | none =>
    exfalso
    unfold Toy.Net.segment at hs
    rw [List.find?_eq_none] at hs
    obtain ⟨t, ht, hte⟩ := List.mem_map.mp he'
    exact hs t ht (by simp [hte])
  | some s =>
    simp only [List.map_map]
    exact (filter_ne_sublist_erase e C.segments he').subperm

/-- In the concrete network a split does not lower the number of segments. -/
theorem Toy.split_count (C : Toy.Net) (s : Nat) (vs : List (Vec3 ℚ × ℚ)) :
    Toy.network.segmentCount C ≤ Toy.network.segmentCount (Toy.network.split C s vs) := by
  show (C.segments.map (fun t => t.id)).length
    ≤ ((C.split s vs).segments.map (fun t => t.id)).length
  unfold Toy.Net.split
  cases C.segment s with
  | none => exact le_refl _
  | some seg =>
    cases vs with
    | nil => exact le_refl _
    | cons v vs => simp

end ToyFacts

section ClaimTheorems

variable {R Net : Type} [LinearOrderedField R]

/-- C7: phase 2 of `preliminaryPreconditioning` (the loop `while (!fixed_point)`
with its queue loop) terminates on every cell network and for all thresholds
`alpha`, `beta` (so for `alpha > beta > 1`, `gamma >= alpha`), assuming each
collapse removes the collapsed segment and creates no new one: from some
amount of fuel on the loops return one and the same result. -/
theorem greedy_collapse_terminates (ops : CellNetwork R Net) (alpha beta : R)
    (hcollapse : ∀ (C : Net) (e : Nat) (target : Vec3 R × R), e ∈ ops.neurite_segments C →
      (ops.neurite_segments (ops.collapse C e target).1).Subperm
        ((ops.neurite_segments C).erase e))
    (C : Net) :
    ∃ fuel r, ∀ fuel', fuel ≤ fuel' → greedyCollapse ops alpha beta fuel' C = some r := by
  obtain ⟨fuel, r, hr⟩ := greedyCollapse_terminates_of_count ops alpha beta
    (count_lt_of_subperm ops hcollapse) _ C rfl
  exact ⟨fuel, r, greedyCollapse_mono ops alpha beta fuel C r hr⟩

/-- C7, on the chain `0 -> 1 -> 2` with `alpha = 3`, `beta = 2`. -/
theorem greedy_collapse_terminates_witness :
    ∃ fuel r, ∀ fuel', fuel ≤ fuel' → greedyCollapse Toy.network 3 2 fuel' Toy.chain = some r :=
  greedy_collapse_terminates Toy.network 3 2 Toy.collapse_removes Toy.chain

/-- C8 as stated fails: with `alpha = 3 > beta = 2 > 1` and `gamma = 3`, the
neurite of one segment of length 1 from a root to a terminal vertex of radius
1 is returned as it is, and its segment has weight `<= 0`. -/
theorem positive_weight_counterexample :
    (3 : ℚ) > 2 ∧ (2 : ℚ) > 1 ∧ (3 : ℚ) ≥ 3
      ∧ preliminaryPreconditioning Toy.network len2Q 3 2 3 5 Toy.stub = some (.ok Toy.stub)
      ∧ 10 ∈ Toy.network.neurite_segments Toy.stub
      ∧ calculate_ns_weight Toy.network 3 2 Toy.stub 10 ≤ 0 := by
  decide!

/-- C8 (amended): when `preliminaryPreconditioning` returns, every segment
left in the network has weight `> 0` or is in a skip configuration of the role
table (source root and destination terminal or branching, or source branching
and destination terminal). -/
theorem remaining_positive_or_skipped [FloorRing R] (ops : CellNetwork R Net)
    (len2 : Vec3 R → R) (alpha beta gamma : R) (fuel : Nat) (C C' : Net)
    (h : preliminaryPreconditioning ops len2 alpha beta gamma fuel C = some (.ok C')) :
    ∀ s ∈ ops.neurite_segments C',
      0 < calculate_ns_weight ops alpha beta C' s ∨ SkipConfiguration ops C' s := by
  unfold preliminaryPreconditioning at h
  cases h1 : splitLongSegments ops len2 gamma C with
  | none => simp [h1] at h
  | some C1 =>
    simp only [h1] at h
    exact greedyCollapse_result ops alpha beta fuel C1 C' h

/-- C8 (amended), on the chain with `alpha = 3`, `beta = 2`, `gamma = 3`: the
segment `10` is collapsed into the root and the segment `11` that is left, of
weight `-1`, runs from the root to a terminal vertex. -/
theorem remaining_positive_or_skipped_witness :
    0 < calculate_ns_weight Toy.network 3 2 Toy.chainCollapsed 11
      ∨ SkipConfiguration Toy.network Toy.chainCollapsed 11 :=
  remaining_positive_or_skipped Toy.network len2Q 3 2 3 5 Toy.chain Toy.chainCollapsed
    (by decide!) 11 (by decide!)

/-- C9: for every run of `preliminaryPreconditioning` that returns, the number
of segments after phase 1 is at least the initial number and the number after
phase 2 is at most the number after phase 1, given that a split does not lower
the number of segments (it replaces one segment by `k + 1`) and a collapse of
an existing segment does not raise it (it removes the collapsed segment). -/
theorem segment_count_monotone [FloorRing R] (ops : CellNetwork R Net)
    (len2 : Vec3 R → R) (alpha beta gamma : R)
    (hsplit : ∀ (C : Net) (s : Nat) (vs : List (Vec3 R × R)),
      ops.segmentCount C ≤ ops.segmentCount (ops.split C s vs))
    (hcollapse : ∀ (C : Net) (e : Nat) (target : Vec3 R × R), e ∈ ops.neurite_segments C →
      ops.segmentCount (ops.collapse C e target).1 ≤ ops.segmentCount C)
    (fuel : Nat) (C C2 : Net)
    (h : preliminaryPreconditioning ops len2 alpha beta gamma fuel C = some (.ok C2)) :
    ∃ C1, splitLongSegments ops len2 gamma C = some C1
      ∧ greedyCollapse ops alpha beta fuel C1 = some (.ok C2)
      ∧ ops.segmentCount C ≤ ops.segmentCount C1
      ∧ ops.segmentCount C2 ≤ ops.segmentCount C1 := by
  unfold preliminaryPreconditioning at h
  cases h1 : splitLongSegments ops len2 gamma C with
  | none => simp [h1] at h
  | some C1 =>
    simp only [h1] at h
    refine ⟨C1, rfl, h, ?_, greedyCollapse_count_le ops alpha beta hcollapse fuel C1 C2 h⟩
    exact splitSegments_count_le ops len2 gamma hsplit _ C C1 [] h1

/-- C9, on a neurite of one segment of length 10 with radii 1 and
`alpha = 3`, `beta = 2`, `gamma = 3`: one segment at the start, three after
phase 1, two when the preconditioner returns. -/
theorem segment_count_monotone_witness :
    ∃ C1, splitLongSegments Toy.network len2Q 3 Toy.long = some C1
      ∧ greedyCollapse Toy.network 3 2 10 C1 = some (.ok Toy.longPreconditioned)
      ∧ Toy.network.segmentCount Toy.long ≤ Toy.network.segmentCount C1
      ∧ Toy.network.segmentCount Toy.longPreconditioned ≤ Toy.network.segmentCount C1 :=
  segment_count_monotone Toy.network len2Q 3 2 3 Toy.split_count
    (fun C e target he =>
      le_of_lt (count_lt_of_subperm Toy.network Toy.collapse_removes C e target he))
    10 Toy.long Toy.longPreconditioned (by decide!)

end ClaimTheorems

/-! ## Red-blue exceptions and edge/face pairs -/

section MeshAlgorithms

/-- C12: whatever the message and the payload, `RedBlue_Ex_Disjoint`,
`RedBlue_Ex_ComplexEdges` and `RedBlue_Ex_NumIsecPoly` are constructed with
`R_intact = true` and `B_intact = true`, and `RedBlue_Ex_InternalLogic` with
`R_intact = false` and `B_intact = false`. -/
theorem fixed_intactness_flags {TR : Type} (msg : String)
    (einfo_vec : List (RedBlue_EdgeIsecInfo TR)) :
    ((RedBlue_Ex_Disjoint msg).R_intact = true ∧ (RedBlue_Ex_Disjoint msg).B_intact = true)
      ∧ ((RedBlue_Ex_ComplexEdges.construct msg einfo_vec).R_intact = true
        ∧ (RedBlue_Ex_ComplexEdges.construct msg einfo_vec).B_intact = true)
      ∧ ((RedBlue_Ex_NumIsecPoly msg).R_intact = true
        ∧ (RedBlue_Ex_NumIsecPoly msg).B_intact = true)
      ∧ ((RedBlue_Ex_InternalLogic msg).R_intact = false
        ∧ (RedBlue_Ex_InternalLogic msg).B_intact = false) :=
  ⟨⟨rfl, rfl⟩, ⟨rfl, rfl⟩, ⟨rfl, rfl⟩, ⟨rfl, rfl⟩⟩

/-- C13: the construction of a `RedBlue_EdgeIsecInfo` fails exactly when the
lambda sequence supplied is empty; for a non-empty sequence it succeeds, and
the record holds the colour flag, `u_id`, `v_id` in the order given and the
lambda sequence as supplied. -/
theorem edge_isec_info_construction {TR : Type} (red : Bool) (u_id v_id : Nat)
    (edge_lambdas : List TR) :
    ((∃ m, RedBlue_EdgeIsecInfo.construct red u_id v_id edge_lambdas = .error m)
        ↔ edge_lambdas = [])
      ∧ (edge_lambdas ≠ [] →
          RedBlue_EdgeIsecInfo.construct red u_id v_id edge_lambdas
            = .ok { red := red, u_id := u_id, v_id := v_id, edge_lambdas := edge_lambdas }) := by
  cases edge_lambdas with
  | nil =>
    refine ⟨⟨fun _ => rfl, fun _ => ⟨_, rfl⟩⟩, fun h => absurd rfl h⟩
  | cons a l =>
    refine ⟨⟨fun h => ?_, fun h => by cases h⟩, fun _ => rfl⟩
    obtain ⟨m, hm⟩ := h
    simp [RedBlue_EdgeIsecInfo.construct] at hm

variable {V F : Type}

theorem EdgeFacePair.lt_iff (vid : V → Nat) (fid : F → Nat) (a b : EdgeFacePair V F) :
    EdgeFacePair.lt vid fid a b = true
      ↔ vid a.vrt1 < vid b.vrt1
        ∨ (vid a.vrt1 = vid b.vrt1
          ∧ (vid a.vrt2 < vid b.vrt2 ∨ (vid a.vrt2 = vid b.vrt2 ∧ fid a.f < fid b.f))) := by
  unfold EdgeFacePair.lt
  split_ifs <;> simp <;> omega

theorem EdgeFacePair.eq_iff (vid : V → Nat) (fid : F → Nat) (a b : EdgeFacePair V F) :
    EdgeFacePair.eq vid fid a b = true
      ↔ vid a.vrt1 = vid b.vrt1 ∧ vid a.vrt2 = vid b.vrt2 ∧ fid a.f = fid b.f := by
  unfold EdgeFacePair.eq
  split_ifs <;> simp_all

theorem EdgeFacePair.lt_eq_false_iff (vid : V → Nat) (fid : F → Nat) (a b : EdgeFacePair V F) :
    EdgeFacePair.lt vid fid a b = false ↔ ¬ EdgeFacePair.lt vid fid a b = true := by
  cases EdgeFacePair.lt vid fid a b <;> simp

theorem EdgeFacePair.eq_eq_false_iff (vid : V → Nat) (fid : F → Nat) (a b : EdgeFacePair V F) :
    EdgeFacePair.eq vid fid a b = false ↔ ¬ EdgeFacePair.eq vid fid a b = true := by
  cases EdgeFacePair.eq vid fid a b <;> simp

theorem EdgeFacePair.lt_trans (vid : V → Nat) (fid : F → Nat) (a b c : EdgeFacePair V F)
    (hab : EdgeFacePair.lt vid fid a b = true) (hbc : EdgeFacePair.lt vid fid b c = true) :
    EdgeFacePair.lt vid fid a c = true := by
  rw [EdgeFacePair.lt_iff] at hab hbc ⊢
  omega

/-- Two adjacent elements of a sorted list that are not equal are in
ascending order. -/
theorem EdgeFacePair.lt_of_not_gt_of_ne (vid : V → Nat) (fid : F → Nat)
    (a b : EdgeFacePair V F) (h1 : EdgeFacePair.lt vid fid b a = false)
    (h2 : EdgeFacePair.eq vid fid a b = false) : EdgeFacePair.lt vid fid a b = true := by
  rw [EdgeFacePair.lt_eq_false_iff, EdgeFacePair.lt_iff] at h1
  rw [EdgeFacePair.eq_eq_false_iff, EdgeFacePair.eq_iff] at h2
  rw [EdgeFacePair.lt_iff]
  omega

theorem EdgeFacePair.unique_cons (vid : V → Nat) (fid : F → Nat) (a : EdgeFacePair V F)
    (rest : List (EdgeFacePair V F)) :
    ∃ kept, EdgeFacePair.unique vid fid (a :: rest) = a :: kept := by
  unfold EdgeFacePair.unique
  cases EdgeFacePair.unique vid fid rest with
  | nil => exact ⟨[], rfl⟩
  | cons b kept =>
    by_cases h : EdgeFacePair.eq vid fid a b = true
    · exact ⟨kept, by simp [h]⟩
    · exact ⟨b :: kept, by simp [h]⟩

theorem EdgeFacePair.unique_sublist (vid : V → Nat) (fid : F → Nat) :
    ∀ l : List (EdgeFacePair V F), (EdgeFacePair.unique vid fid l).Sublist l
  | [] => List.Sublist.slnil
  | a :: rest => by
    have ih := EdgeFacePair.unique_sublist vid fid rest
    unfold EdgeFacePair.unique
    cases hu : EdgeFacePair.unique vid fid rest with
    | nil => simp
    | cons b kept =>
      rw [hu] at ih
      by_cases h : EdgeFacePair.eq vid fid a b = true
      · simp only [h, if_true]
        exact List.Sublist.cons₂ a ((List.sublist_cons_self b kept).trans ih)
      · simp only [h]
        exact List.Sublist.cons₂ a ih

/-- After `unique` no two neighbours are equal. -/
theorem EdgeFacePair.unique_chain (vid : V → Nat) (fid : F → Nat) :
    ∀ l : List (EdgeFacePair V F),
      (EdgeFacePair.unique vid fid l).Chain' (fun a b => EdgeFacePair.eq vid fid a b = false)
  | [] => List.chain'_nil
  | a :: rest => by
    have ih := EdgeFacePair.unique_chain vid fid rest
    unfold EdgeFacePair.unique
    cases hu : EdgeFacePair.unique vid fid rest with
    | nil => simp
    | cons b kept =>
      rw [hu] at ih
      by_cases h : EdgeFacePair.eq vid fid a b = true
      · dsimp only
        rw [if_pos h]
        cases kept with
        | nil => simp
        | cons c kept' =>
          rw [List.chain'_cons] at ih ⊢
          refine ⟨?_, ih.2⟩
          have hbc := ih.1
          rw [EdgeFacePair.eq_eq_false_iff, EdgeFacePair.eq_iff] at hbc ⊢
          rw [EdgeFacePair.eq_iff] at h
          omega
      · dsimp only
        rw [if_neg h, List.chain'_cons]
        exact ⟨by simpa using h, ih⟩

/-- Every element of the list is equal to one that `unique` keeps. -/
theorem EdgeFacePair.unique_covers (vid : V → Nat) (fid : F → Nat) :
    ∀ l : List (EdgeFacePair V F), ∀ a ∈ l,
      ∃ b ∈ EdgeFacePair.unique vid fid l, EdgeFacePair.eq vid fid a b = true
  | [], a, h => absurd h (List.not_mem_nil a)
  | x :: rest, a, h => by
    obtain ⟨kept, hk⟩ := EdgeFacePair.unique_cons vid fid x rest
    rcases List.mem_cons.mp h with hax | har
    · subst hax
      exact ⟨a, by rw [hk]; exact List.mem_cons_self _ _, by rw [EdgeFacePair.eq_iff]; simp⟩
    · obtain ⟨b, hb, hab⟩ := EdgeFacePair.unique_covers vid fid rest a har
      unfold EdgeFacePair.unique
      cases hu : EdgeFacePair.unique vid fid rest with
      | nil => rw [hu] at hb; exact absurd hb (List.not_mem_nil b)
      | cons c kept' =>
        rw [hu] at hb
        by_cases h : EdgeFacePair.eq vid fid x c = true
        · simp only [h, if_true]
          rcases List.mem_cons.mp hb with hbc | hbk
          · subst hbc
            refine ⟨x, List.mem_cons_self _ _, ?_⟩
            rw [EdgeFacePair.eq_iff] at h hab ⊢
            omega
          · exact ⟨b, List.mem_cons_of_mem _ hbk, hab⟩
        · simp only [h]
          exact ⟨b, List.mem_cons_of_mem _ hb, hab⟩

/-- In a sorted list `unique` leaves a strictly ascending list. -/
theorem EdgeFacePair.unique_ascending (vid : V → Nat) (fid : F → Nat)
    (l : List (EdgeFacePair V F)) (hs : EdgeFacePair.SortedByLt vid fid l) :
    (EdgeFacePair.unique vid fid l).Pairwise (fun a b => EdgeFacePair.lt vid fid a b = true) := by
  haveI : IsTrans (EdgeFacePair V F) (fun a b => EdgeFacePair.lt vid fid a b = true) :=
    ⟨fun a b c => EdgeFacePair.lt_trans vid fid a b c⟩
  rw [← List.chain'_iff_pairwise]
  have hsorted : (EdgeFacePair.unique vid fid l).Chain'
      (fun a b => EdgeFacePair.lt vid fid b a = false) :=
    (List.Pairwise.sublist (EdgeFacePair.unique_sublist vid fid l) hs).chain'
  have hne := EdgeFacePair.unique_chain vid fid l
  generalize EdgeFacePair.unique vid fid l = u at hsorted hne
  induction u with
  | nil => exact List.chain'_nil
  | cons a u ih =>
    cases u with
    | nil => exact List.chain'_singleton a
    | cons b u' =>
      rw [List.chain'_cons] at hsorted hne ⊢
      exact ⟨EdgeFacePair.lt_of_not_gt_of_ne vid fid a b hsorted.1 hne.1, ih hsorted.2 hne.2⟩

/-- C14: an `EdgeFacePair` constructed from two vertices with distinct ids
`a`, `b`, in either argument order, and a face stores the ids
`(min a b, max a b, face id)`: the first id is strictly below the second, the
face is the one given, and `EdgeFacePair(x, y, f) == EdgeFacePair(y, x, f)`. -/
theorem edge_face_pair_normalised (vid : V → Nat) (fid : F → Nat) (x y : V) (f : F)
    (hxy : vid x ≠ vid y) :
    EdgeFacePair.ids vid fid (EdgeFacePair.construct vid x y f)
        = (min (vid x) (vid y), max (vid x) (vid y), fid f)
      ∧ EdgeFacePair.ids vid fid (EdgeFacePair.construct vid y x f)
        = (min (vid x) (vid y), max (vid x) (vid y), fid f)
      ∧ vid (EdgeFacePair.construct vid x y f).vrt1 < vid (EdgeFacePair.construct vid x y f).vrt2
      ∧ vid (EdgeFacePair.construct vid y x f).vrt1 < vid (EdgeFacePair.construct vid y x f).vrt2
      ∧ (EdgeFacePair.construct vid x y f).f = f
      ∧ (EdgeFacePair.construct vid y x f).f = f
      ∧ EdgeFacePair.eq vid fid (EdgeFacePair.construct vid x y f)
          (EdgeFacePair.construct vid y x f) = true := by
  rw [EdgeFacePair.eq_iff]
  unfold EdgeFacePair.construct EdgeFacePair.ids
  rcases Nat.lt_or_gt_of_ne hxy with h | h
  · have h' : ¬ vid y < vid x := by omega
    rw [if_neg h', if_pos h]
    refine ⟨?_, ?_, h, h, rfl, rfl, rfl, rfl, rfl⟩
    · rw [Nat.min_eq_left (le_of_lt h), Nat.max_eq_right (le_of_lt h)]
    · rw [Nat.min_eq_left (le_of_lt h), Nat.max_eq_right (le_of_lt h)]
  · have h' : ¬ vid x < vid y := by omega
    rw [if_pos h, if_neg h']
    refine ⟨?_, ?_, h, h, rfl, rfl, rfl, rfl, rfl⟩
    · rw [Nat.min_eq_right (le_of_lt h), Nat.max_eq_left (le_of_lt h)]
    · rw [Nat.min_eq_right (le_of_lt h), Nat.max_eq_left (le_of_lt h)]

/-- C14, for vertex handles `(address, id)` with the ids 7 and 3 and the face
with id 5: both argument orders store `(3, 7, 5)`. -/
theorem edge_face_pair_normalised_witness :
    EdgeFacePair.ids Prod.snd id (EdgeFacePair.construct Prod.snd ((100, 7) : Nat × Nat) (200, 3) 5)
        = (min 7 3, max 7 3, 5)
      ∧ EdgeFacePair.eq Prod.snd id (EdgeFacePair.construct Prod.snd ((100, 7) : Nat × Nat) (200, 3) 5)
          (EdgeFacePair.construct Prod.snd (200, 3) (100, 7) 5) = true :=
  have h := edge_face_pair_normalised Prod.snd (id : Nat → Nat) ((100, 7) : Nat × Nat) (200, 3) 5
    (by decide)
  ⟨h.1, h.2.2.2.2.2.2⟩

/-- C15: `operator<` is the strict lexicographic order on
`(vrt1 id, vrt2 id, face id)` and `operator==` holds exactly when the three
ids agree; `<` is irreflexive and transitive, and of `a < b`, `a == b`,
`b < a` exactly one holds.  Hence in a list sorted by `operator<` the pairs
between two equal pairs are equal to them, and `unique` leaves no
two equal pairs while keeping a representative of every pair. -/
theorem edge_face_pair_order (vid : V → Nat) (fid : F → Nat) :
    (∀ a b : EdgeFacePair V F, EdgeFacePair.lt vid fid a b = true
        ↔ vid a.vrt1 < vid b.vrt1
          ∨ (vid a.vrt1 = vid b.vrt1
            ∧ (vid a.vrt2 < vid b.vrt2 ∨ (vid a.vrt2 = vid b.vrt2 ∧ fid a.f < fid b.f))))
      ∧ (∀ a b : EdgeFacePair V F, EdgeFacePair.eq vid fid a b = true
        ↔ EdgeFacePair.ids vid fid a = EdgeFacePair.ids vid fid b)
      ∧ (∀ a : EdgeFacePair V F, EdgeFacePair.lt vid fid a a = false)
      ∧ (∀ a b c : EdgeFacePair V F, EdgeFacePair.lt vid fid a b = true →
          EdgeFacePair.lt vid fid b c = true → EdgeFacePair.lt vid fid a c = true)
      ∧ (∀ a b : EdgeFacePair V F,
          (EdgeFacePair.lt vid fid a b = true ∧ EdgeFacePair.eq vid fid a b = false
              ∧ EdgeFacePair.lt vid fid b a = false)
            ∨ (EdgeFacePair.lt vid fid a b = false ∧ EdgeFacePair.eq vid fid a b = true
              ∧ EdgeFacePair.lt vid fid b a = false)
            ∨ (EdgeFacePair.lt vid fid a b = false ∧ EdgeFacePair.eq vid fid a b = false
              ∧ EdgeFacePair.lt vid fid b a = true))
      ∧ (∀ l : List (EdgeFacePair V F), EdgeFacePair.SortedByLt vid fid l →
          (∀ (l1 l2 l3 : List (EdgeFacePair V F)) (a b : EdgeFacePair V F),
              l = l1 ++ a :: l2 ++ b :: l3 → EdgeFacePair.eq vid fid a b = true →
              ∀ c ∈ l2, EdgeFacePair.eq vid fid a c = true)
            ∧ (EdgeFacePair.unique vid fid l).Pairwise
                (fun a b => EdgeFacePair.eq vid fid a b = false)
            ∧ (∀ a ∈ l, ∃ b ∈ EdgeFacePair.unique vid fid l,
                EdgeFacePair.eq vid fid a b = true)) := by
  refine ⟨EdgeFacePair.lt_iff vid fid, ?_, ?_, EdgeFacePair.lt_trans vid fid, ?_, ?_⟩
  · intro a b
    rw [EdgeFacePair.eq_iff]
    unfold EdgeFacePair.ids
    simp only [Prod.mk.injEq]
  · intro a
    rw [EdgeFacePair.lt_eq_false_iff, EdgeFacePair.lt_iff]
    omega
  · intro a b
    simp only [EdgeFacePair.lt_eq_false_iff, EdgeFacePair.eq_eq_false_iff, EdgeFacePair.lt_iff,
      EdgeFacePair.eq_iff]
    omega
  · intro l hs
    refine ⟨?_, ?_, EdgeFacePair.unique_covers vid fid l⟩
    · intro l1 l2 l3 a b hl hab c hc
      subst hl
      unfold EdgeFacePair.SortedByLt at hs
      have hca : EdgeFacePair.lt vid fid c a = false :=
        (List.pairwise_cons.mp (List.pairwise_append.mp
          (List.pairwise_append.mp hs).1).2.1).1 c hc
      have hbc : EdgeFacePair.lt vid fid b c = false :=
        (List.pairwise_append.mp hs).2.2 c
          (List.mem_append_right _ (List.mem_cons_of_mem _ hc)) b (List.mem_cons_self _ _)
      rw [EdgeFacePair.lt_eq_false_iff, EdgeFacePair.lt_iff] at hca hbc
      rw [EdgeFacePair.eq_iff] at hab ⊢
      omega
    · refine (EdgeFacePair.unique_ascending vid fid l hs).imp ?_
      intro a b hab
      rw [EdgeFacePair.eq_eq_false_iff, EdgeFacePair.eq_iff]
      rw [EdgeFacePair.lt_iff] at hab
      omega

/-- C15, on a sorted list of four pairs of vertex ids and a face id with the
pair `(1, 2, 5)` standing twice: `unique` keeps three pairs, no two equal. -/
theorem edge_face_pair_order_witness :
    EdgeFacePair.unique id id
        [(⟨1, 2, 4⟩ : EdgeFacePair Nat Nat), ⟨1, 2, 5⟩, ⟨1, 2, 5⟩, ⟨1, 3, 0⟩]
        = [⟨1, 2, 4⟩, ⟨1, 2, 5⟩, ⟨1, 3, 0⟩]
      ∧ (EdgeFacePair.unique id id
          [(⟨1, 2, 4⟩ : EdgeFacePair Nat Nat), ⟨1, 2, 5⟩, ⟨1, 2, 5⟩, ⟨1, 3, 0⟩]).Pairwise
            (fun a b => EdgeFacePair.eq id id a b = false) :=
  ⟨by decide,
    ((edge_face_pair_order (id : Nat → Nat) (id : Nat → Nat)).2.2.2.2.2
      [⟨1, 2, 4⟩, ⟨1, 2, 5⟩, ⟨1, 2, 5⟩, ⟨1, 3, 0⟩] (by unfold EdgeFacePair.SortedByLt; decide)).2.1⟩

end MeshAlgorithms

/-! ## Re-insertion after a collapse, rounds without a collapse, the fixed point -/

section QueueTheorems

variable {R Net : Type} [LinearOrderedField R]

theorem PriorityQueue.changeKey_absent {K V : Type} [DecidableEq V] (Q : PriorityQueue K V)
    (v : V) (k : K) (h : ∀ e ∈ Q, e.2 ≠ v) :
    PriorityQueue.changeKey Q v k = (Q, false) := by
  unfold PriorityQueue.changeKey
  refine Prod.ext ?_ ?_
  · show Q.map (fun e => if e.2 = v then (k, v) else e) = Q
    conv_rhs => rw [← List.map_id Q]
    apply List.map_congr_left
    intro e he
    rw [if_neg (h e he)]
    rfl
  · show Q.any (fun e => decide (e.2 = v)) = false
    rw [List.any_eq_false]
    intro e he
    simpa using h e he

theorem PriorityQueue.changeKey_present {K V : Type} [DecidableEq V] (Q : PriorityQueue K V)
    (v : V) (k : K) (h : ¬ ∀ e ∈ Q, e.2 ≠ v) :
    (PriorityQueue.changeKey Q v k).2 = true := by
  unfold PriorityQueue.changeKey
  show Q.any (fun e => decide (e.2 = v)) = true
  rw [List.any_eq_true]
  push_neg at h
  obtain ⟨e, he, hev⟩ := h
  exact ⟨e, he, by simpa using hev⟩

/-- `changeKey` leaves the ids of the entries as they are. -/
theorem PriorityQueue.changeKey_ids {K V : Type} [DecidableEq V] (Q : PriorityQueue K V)
    (v : V) (k : K) :
    (PriorityQueue.changeKey Q v k).1.map Prod.snd = Q.map Prod.snd := by
  unfold PriorityQueue.changeKey
  show (Q.map (fun e => if e.2 = v then (k, v) else e)).map Prod.snd = Q.map Prod.snd
  rw [List.map_map]
  apply List.map_congr_left
  intro e _
  by_cases h : e.2 = v
  · simp [h]
  · simp [h]

/-- One round of the loop over the edges at the surviving vertex: the edge is
appended when it is absent and of weight `<= 0`, and only its key is brought
up to date otherwise. -/
theorem updateNeighbour_eq (ops : CellNetwork R Net) (alpha beta : R) (C : Net)
    (Q : PriorityQueue R Nat) (f : Nat) :
    ((∀ e ∈ Q, e.2 ≠ f) ∧ calculate_ns_weight ops alpha beta C f ≤ 0 →
        updateNeighbour ops alpha beta C Q f = Q ++ [(ops.getLength C f, f)])
      ∧ (¬ ((∀ e ∈ Q, e.2 ≠ f) ∧ calculate_ns_weight ops alpha beta C f ≤ 0) →
        updateNeighbour ops alpha beta C Q f
          = (PriorityQueue.changeKey Q f (ops.getLength C f)).1) := by
  constructor
  · rintro ⟨habs, hw⟩
    unfold updateNeighbour
    simp only [PriorityQueue.changeKey_absent Q f _ habs, Bool.not_false, Bool.true_and,
      decide_eq_true_eq, if_pos hw, PriorityQueue.insert]
  · intro hnot
    unfold updateNeighbour
    by_cases habs : ∀ e ∈ Q, e.2 ≠ f
    · have hw : ¬ calculate_ns_weight ops alpha beta C f ≤ 0 := fun hw => hnot ⟨habs, hw⟩
      simp only [PriorityQueue.changeKey_absent Q f _ habs, Bool.not_false, Bool.true_and,
        decide_eq_true_eq, if_neg hw]
    · simp only [PriorityQueue.changeKey_present Q f _ habs, Bool.not_true, Bool.false_and,
        Bool.false_eq_true, if_false]

/-- The ids in the queue after one round of the loop over the edges at the
surviving vertex. -/
theorem updateNeighbour_ids (ops : CellNetwork R Net) (alpha beta : R) (C : Net)
    (Q : PriorityQueue R Nat) (f : Nat) :
    (updateNeighbour ops alpha beta C Q f).map Prod.snd
      = if (∀ e ∈ Q, e.2 ≠ f) ∧ calculate_ns_weight ops alpha beta C f ≤ 0
        then Q.map Prod.snd ++ [f] else Q.map Prod.snd := by
  by_cases h : (∀ e ∈ Q, e.2 ≠ f) ∧ calculate_ns_weight ops alpha beta C f ≤ 0
  · rw [if_pos h, (updateNeighbour_eq ops alpha beta C Q f).1 h]
    simp
  · rw [if_neg h, (updateNeighbour_eq ops alpha beta C Q f).2 h, PriorityQueue.changeKey_ids]

/-- After the loop over a list of edges, an id is in the queue exactly when it
was there before or is one of the edges and of weight `<= 0`. -/
theorem updateNeighbours_fold_ids (ops : CellNetwork R Net) (alpha beta : R) (C : Net) :
    ∀ (fs : List Nat) (Q : PriorityQueue R Nat) (id : Nat),
      id ∈ (fs.foldl (updateNeighbour ops alpha beta C) Q).map Prod.snd
        ↔ id ∈ Q.map Prod.snd ∨ (id ∈ fs ∧ calculate_ns_weight ops alpha beta C id ≤ 0) := by
  intro fs
  induction fs with
  | nil => intro Q id; simp
  | cons f fs ih =>
    intro Q id
    rw [List.foldl_cons, ih, updateNeighbour_ids]
    have hmem : (∀ e ∈ Q, e.2 ≠ f) ↔ f ∉ Q.map Prod.snd := by
      constructor
      · intro h hin
        obtain ⟨e, he, hef⟩ := List.mem_map.mp hin
        exact h e he hef
      · intro h e he hef
        exact h (List.mem_map.mpr ⟨e, he, hef⟩)
    by_cases hc : (∀ e ∈ Q, e.2 ≠ f) ∧ calculate_ns_weight ops alpha beta C f ≤ 0
    · rw [if_pos hc]
      simp only [List.mem_append, List.mem_cons, List.not_mem_nil, or_false]
      constructor
      · rintro ((h | h) | h)
        · exact Or.inl h
        · exact Or.inr ⟨Or.inl h, by rw [h]; exact hc.2⟩
        · exact Or.inr ⟨Or.inr h.1, h.2⟩
      · rintro (h | ⟨h | h, hw⟩)
        · exact Or.inl (Or.inl h)
        · exact Or.inl (Or.inr h)
        · exact Or.inr ⟨h, hw⟩
    · rw [if_neg hc]
      simp only [List.mem_cons]
      constructor
      · rintro (h | h)
        · exact Or.inl h
        · exact Or.inr ⟨Or.inr h.1, h.2⟩
      · rintro (h | ⟨h | h, hw⟩)
        · exact Or.inl h
        · subst h
          by_cases hin : id ∈ Q.map Prod.snd
          · exact Or.inl hin
          · exact absurd ⟨hmem.mpr hin, hw⟩ hc
        · exact Or.inr ⟨h, hw⟩

/-- C11 as stated fails at weight zero: in the forking neurite with
`alpha = 3`, `beta = 2` the segment `12` is dequeued first and skipped, then
the segment `11` is collapsed; segment `12`, now at the surviving vertex, is
not in the queue and has weight exactly 0, which is not negative, and is
inserted with its length 3 as key. -/
theorem reinsertion_counterexample :
    PriorityQueue.top (initialQueue Toy.network Toy.fork) = some (3, 12)
      ∧ processPopped Toy.network 3 2
          ⟨Toy.fork, PriorityQueue.deleteMin (initialQueue Toy.network Toy.fork), true⟩ 3 12
        = .ok ⟨Toy.fork, [(10, 10), (4, 11), (5, 13)], true⟩
      ∧ PriorityQueue.top [((10 : ℚ), 10), (4, 11), (5, 13)] = some (4, 11)
      ∧ processPopped Toy.network 3 2
          ⟨Toy.fork, PriorityQueue.deleteMin [(10, 10), (4, 11), (5, 13)], true⟩ 4 11
        = .ok ⟨Toy.forkCollapsed, [(14, 10), (5, 13), (3, 12)], false⟩
      ∧ 12 ∈ Toy.network.getFilteredOutEdges Toy.forkCollapsed 1
      ∧ calculate_ns_weight Toy.network 3 2 Toy.forkCollapsed 12 = 0 := by
  decide!

/-- C11 (amended): after a collapse in phase 2, a segment `f` at the surviving
vertex is inserted into the priority queue if and only if it is not present in
the queue and has weight `<= 0`.  Round by round: an absent edge of weight
`<= 0` is appended with its length as key, any other edge only has its key
brought up to date; over the whole loop: an id is new in the queue exactly
when it is an edge at the surviving vertex, was absent and has weight
`<= 0`. -/
theorem reinserted_iff_absent_and_nonpositive (ops : CellNetwork R Net) (alpha beta : R)
    (C : Net) (Q : PriorityQueue R Nat) :
    (∀ f : Nat,
        ((∀ e ∈ Q, e.2 ≠ f) ∧ calculate_ns_weight ops alpha beta C f ≤ 0 →
          updateNeighbour ops alpha beta C Q f = Q ++ [(ops.getLength C f, f)])
        ∧ (¬ ((∀ e ∈ Q, e.2 ≠ f) ∧ calculate_ns_weight ops alpha beta C f ≤ 0) →
          updateNeighbour ops alpha beta C Q f
              = (PriorityQueue.changeKey Q f (ops.getLength C f)).1
            ∧ (updateNeighbour ops alpha beta C Q f).map Prod.snd = Q.map Prod.snd))
      ∧ ∀ (v_collapsed_it f : Nat),
          (f ∈ (updateNeighbours ops alpha beta C Q v_collapsed_it).map Prod.snd
              ∧ f ∉ Q.map Prod.snd)
            ↔ (f ∈ ops.getFilteredInEdges C v_collapsed_it
                  ++ ops.getFilteredOutEdges C v_collapsed_it
                ∧ f ∉ Q.map Prod.snd
                ∧ calculate_ns_weight ops alpha beta C f ≤ 0) := by
  refine ⟨fun f => ⟨(updateNeighbour_eq ops alpha beta C Q f).1, fun h => ?_⟩, ?_⟩
  · refine ⟨(updateNeighbour_eq ops alpha beta C Q f).2 h, ?_⟩
    rw [updateNeighbour_ids, if_neg h]
  · intro v f
    unfold updateNeighbours
    simp only
    rw [updateNeighbours_fold_ids]
    constructor
    · rintro ⟨h | h, hn⟩
      · exact absurd h hn
      · exact ⟨h.1, hn, h.2⟩
    · rintro ⟨h1, h2, h3⟩
      exact ⟨Or.inr ⟨h1, h3⟩, h2⟩

/-- A list is, up to order, one of its members followed by the rest. -/
theorem perm_cons_erase_lawful {α : Type} [BEq α] [LawfulBEq α] :
    ∀ (l : List α) (a : α), a ∈ l → l.Perm (a :: l.erase a)
  | [], a, h => absurd h (List.not_mem_nil a)
  | b :: l, a, h => by
    rw [List.erase_cons]
    by_cases hba : (b == a) = true
    · rw [if_pos hba, eq_of_beq hba]
    · rw [if_neg hba]
      have hne : a ≠ b := fun hab => hba (by rw [hab]; exact beq_self_eq_true b)
      have hmem : a ∈ l := (List.mem_cons.mp h).resolve_left hne
      exact (List.Perm.cons b (perm_cons_erase_lawful l a hmem)).trans (List.Perm.swap a b _)

/-- C20: when phase 2 pops an entry whose segment no longer exists, or whose
segment exists with matching key and weight `> 0`, the round returns the
network as it was and the flag as it was, and the queue differs only by the
removal of the popped entry; the loop goes on from there. -/
theorem pop_without_processing (ops : CellNetwork R Net) (alpha beta : R)
    (st : LoopState R Net) (min_pair : R × Nat)
    (htop : PriorityQueue.top st.Q = some min_pair)
    (hcase : ops.find st.C min_pair.2 = false
      ∨ (ops.find st.C min_pair.2 = true
        ∧ |ops.getLength st.C min_pair.2 - min_pair.1| ≤ 1 / 100000
        ∧ 0 < calculate_ns_weight ops alpha beta st.C min_pair.2)) :
    processPopped ops alpha beta { st with Q := PriorityQueue.deleteMin st.Q }
        min_pair.1 min_pair.2
        = .ok { C := st.C, Q := List.erase st.Q min_pair, fixed_point := st.fixed_point }
      ∧ min_pair ∈ st.Q
      ∧ st.Q.Perm (min_pair :: List.erase st.Q min_pair)
      ∧ ∀ fuel, processQueue ops alpha beta (fuel + 1) st
          = processQueue ops alpha beta fuel
              { C := st.C, Q := List.erase st.Q min_pair, fixed_point := st.fixed_point } := by
  have hmem := PriorityQueue.top_mem st.Q min_pair htop
  have hdel : PriorityQueue.deleteMin st.Q = List.erase st.Q min_pair := by
    unfold PriorityQueue.deleteMin
    simp only [htop]
  have hround : processPopped ops alpha beta { st with Q := PriorityQueue.deleteMin st.Q }
      min_pair.1 min_pair.2
      = .ok { C := st.C, Q := List.erase st.Q min_pair, fixed_point := st.fixed_point } := by
    rw [hdel]
    rcases hcase with hgone | ⟨hfind, hkey, hpos⟩
    · unfold processPopped
      simp only [hgone, Bool.false_eq_true, if_false]
    · rw [processPopped_of_match ops alpha beta
        { C := st.C, Q := List.erase st.Q min_pair, fixed_point := st.fixed_point }
        min_pair.1 min_pair.2 hfind hkey]
      unfold processSegment
      simp only [if_neg (not_le.mpr hpos)]
  refine ⟨hround, hmem, perm_cons_erase_lawful st.Q min_pair hmem, fun fuel => ?_⟩
  conv_lhs => unfold processQueue
  simp only [htop, hround]

/-- C20, on the single segment of length 10 with radii 1 and `alpha = 3`,
`beta = 2`: its weight is 7, the round only removes its entry. -/
theorem pop_without_processing_witness :
    processPopped Toy.network 3 2 ⟨Toy.long, PriorityQueue.deleteMin [(10, 10)], true⟩ 10 10
        = .ok ⟨Toy.long, List.erase [((10 : ℚ), 10)] (10, 10), true⟩ :=
  (pop_without_processing Toy.network 3 2 ⟨Toy.long, [(10, 10)], true⟩ (10, 10)
    (by decide!) (Or.inr (by decide!))).1

end QueueTheorems

/-! ## The fixed point of phase 2 -/

section FixedPoint

variable {R Net : Type} [LinearOrderedField R]

/-- A pass calls `collapse` on no segment and keeps network and flag, or calls
it on some segment and ends with `fixed_point` cleared. -/
theorem processQueue_collapses (ops : CellNetwork R Net) (alpha beta : R) :
    ∀ (fuel : Nat) (st st' : LoopState R Net),
      processQueue ops alpha beta fuel st = some (.ok st') →
      (collapsedSegments ops alpha beta fuel st = []
          ∧ st'.C = st.C ∧ st'.fixed_point = st.fixed_point)
        ∨ (collapsedSegments ops alpha beta fuel st ≠ [] ∧ st'.fixed_point = false) := by
  intro fuel
  induction fuel with
  | zero => intro st st' h; simp [processQueue] at h
  | succ fuel ih =>
    intro st st' h
    unfold processQueue at h
    unfold collapsedSegments
    cases ht : PriorityQueue.top st.Q with
    | none =>
      simp only [ht, Option.some.injEq, Except.ok.injEq] at h
      rw [← h]
      exact Or.inl ⟨rfl, rfl, rfl⟩
    | some min_pair =>
      simp only [ht] at h ⊢
      rcases processPopped_cases ops alpha beta
          { st with Q := PriorityQueue.deleteMin st.Q } min_pair.1 min_pair.2 with
        ⟨f, hf⟩ | ⟨hsame, hpos⟩ | ⟨target, hfind, hw, htarget, hcol⟩
      · simp [hf] at h
      · simp only [hsame] at h ⊢
        have hno : roundCollapses ops alpha beta st.C min_pair.2 = false := by
          unfold roundCollapses
          by_cases hfind : ops.find st.C min_pair.2 = true
          · rcases hpos hfind with hw | hskip
            · simp [not_le.mpr hw]
            · simp only [hskip, Bool.and_false]
          · simp [hfind]
        rw [hno]
        simpa using ih _ st' h
      · simp only [hcol] at h ⊢
        have hyes : roundCollapses ops alpha beta st.C min_pair.2 = true := by
          unfold roundCollapses
          simp only [hfind, hw, htarget, decide_True, Bool.and_self]
        rw [hyes]
        refine Or.inr ⟨by simp, ?_⟩
        exact processQueue_flag_stays_cleared ops alpha beta fuel _ st' h rfl

/-- The pass phase 2 ends with starts from the network that is returned and
ends with `fixed_point` set. -/
theorem greedyCollapse_last_pass (ops : CellNetwork R Net) (alpha beta : R) :
    ∀ (fuel : Nat) (C C' : Net), greedyCollapse ops alpha beta fuel C = some (.ok C') →
      ∃ f st, processQueue ops alpha beta f
          { C := C', Q := initialQueue ops C', fixed_point := true } = some (.ok st)
        ∧ st.fixed_point = true := by
  intro fuel
  induction fuel with
  | zero => intro C C' h; simp [greedyCollapse] at h
  | succ fuel ih =>
    intro C C' h
    unfold greedyCollapse at h
    cases hq : processQueue ops alpha beta fuel
        { C := C, Q := initialQueue ops C, fixed_point := true } with
    | none => simp [hq] at h
    | some rq =>
      simp only [hq] at h
      cases rq with
      | error f => simp at h
      | ok st =>
        simp only at h
        by_cases hfp : st.fixed_point = true
        · simp only [hfp, if_true, Option.some.injEq, Except.ok.injEq] at h
          have hC := (processQueue_fixed_point ops alpha beta fuel _ st hq hfp).1
          have hCC' : C = C' := by rw [← h]; exact hC.symm
          subst hCC'
          exact ⟨fuel, st, hq, hfp⟩
        · simp only [hfp] at h
          exact ih st.C C' h

/-- C19: phase 2 ends at a fixed point.  When it returns the network `C'`,
its last queue pass, which started from `C'`, called `collapse` on no segment
and ended with `fixed_point` set and the network unchanged; and phase 2 run
again on `C'` makes this same pass, calls `collapse` on no segment and returns
`C'`, whatever the fuel beyond that of this pass. -/
theorem phase_two_idempotent (ops : CellNetwork R Net) (alpha beta : R)
    (fuel : Nat) (C C' : Net) (h : greedyCollapse ops alpha beta fuel C = some (.ok C')) :
    ∃ f st, processQueue ops alpha beta f
        { C := C', Q := initialQueue ops C', fixed_point := true } = some (.ok st)
      ∧ collapsedSegments ops alpha beta f
          { C := C', Q := initialQueue ops C', fixed_point := true } = []
      ∧ st.fixed_point = true ∧ st.C = C'
      ∧ ∀ fuel', f + 1 ≤ fuel' → greedyCollapse ops alpha beta fuel' C' = some (.ok C') := by
  obtain ⟨f, st, hq, hfp⟩ := greedyCollapse_last_pass ops alpha beta fuel C C' h
  have hC : st.C = C' := (processQueue_fixed_point ops alpha beta f _ st hq hfp).1
  refine ⟨f, st, hq, ?_, hfp, hC, ?_⟩
  · rcases processQueue_collapses ops alpha beta f _ st hq with ⟨hnone, _, _⟩ | ⟨_, hcleared⟩
    · exact hnone
    · rw [hfp] at hcleared
      cases hcleared
  · have hone : greedyCollapse ops alpha beta (f + 1) C' = some (.ok C') := by
      unfold greedyCollapse
      simp only [hq, hfp, if_true, hC]
    exact greedyCollapse_mono ops alpha beta (f + 1) C' _ hone

/-- C19, on the chain `0 -> 1 -> 2` with `alpha = 3`, `beta = 2`: phase 2
returns the chain with segment `10` collapsed, and run on that network it
returns it again. -/
theorem phase_two_idempotent_witness :
    ∃ f st, processQueue Toy.network 3 2 f
        { C := Toy.chainCollapsed, Q := initialQueue Toy.network Toy.chainCollapsed,
          fixed_point := true } = some (.ok st)
      ∧ collapsedSegments Toy.network 3 2 f
          { C := Toy.chainCollapsed, Q := initialQueue Toy.network Toy.chainCollapsed,
            fixed_point := true } = []
      ∧ st.fixed_point = true ∧ st.C = Toy.chainCollapsed
      ∧ ∀ fuel', f + 1 ≤ fuel' →
          greedyCollapse Toy.network 3 2 fuel' Toy.chainCollapsed = some (.ok Toy.chainCollapsed) :=
  phase_two_idempotent Toy.network 3 2 5 Toy.chain Toy.chainCollapsed (by decide!)

end FixedPoint

/-! ## The calls of `split` in phase 1 -/

section SplitCalls

variable {R Net : Type} [LinearOrderedField R]

/-- For `n >= 1` the vector `k_vertex_info` is `u`, the interpolated vertices
`1, .., n - 1`, and `v`. -/
theorem k_vertex_info_decomposition (p_u p_v : Vec3 R) (r_u r_v : R) (n : Nat) (hn : 0 < n) :
    k_vertex_info p_u p_v r_u r_v n
      = (p_u, r_u)
        :: (List.range' 1 (n - 1)).map
            (fun (m : Nat) => (p_u + (p_v - p_u) * ((m : R) / (n : R)),
              r_u + (r_v - r_u) * ((m : R) / (n : R))))
        ++ [(p_v, r_v)] := by
  obtain ⟨n', rfl⟩ : ∃ n', n = n' + 1 := ⟨n - 1, by omega⟩
  unfold k_vertex_info
  rw [List.range_eq_range', List.range'_succ, Nat.add_sub_cancel, List.range'_1_concat,
    List.map_cons, List.map_append, List.map_cons, List.map_nil]
  have h0 : (0 : Nat) + 1 = 1 := rfl
  rw [h0, if_pos rfl, if_neg (by omega : ¬ 1 + n' = 0), if_pos (by omega : 1 + n' = n' + 1)]
  congr 2
  apply List.map_congr_left
  intro m hm
  have hm' := List.mem_range'_1.mp hm
  rw [if_neg (by omega : ¬ m = 0), if_neg (by omega : ¬ m = n' + 1)]

variable [FloorRing R]

/-- When a candidate was chosen, `n >= 2` and `n_vertex_info` is the vector of
the chosen candidate without its first and last entry. -/
theorem splitArguments_chosen (len2 : Vec3 R → R) (gamma uv_len : R) (p_u p_v : Vec3 R)
    (r_u r_v : R) (nvi : List (Vec3 R × R)) (best : SplitChoice R)
    (h : splitArguments len2 gamma uv_len p_u p_v r_u r_v nvi = some best)
    (hn : best.n ≠ 0) :
    2 ≤ best.n
      ∧ best.n_vertex_info = (k_vertex_info p_u p_v r_u r_v best.n).tail.dropLast := by
  unfold splitArguments at h
  cases hnm : nmaxOf uv_len (max r_u r_v) with
  | none => simp [hnm] at h
  | some nmax =>
    simp only [hnm] at h
    unfold chooseSplit at h
    rcases chooseSplit_fold len2 gamma p_u p_v r_u r_v nvi (nmax - 1) with
      ⟨_, hfold⟩ | ⟨_, n, hn2, _, hfold, _, _⟩
    · rw [hfold] at h
      by_cases hlen : nvi.length < 2
      · simp [hlen] at h
      · simp only [hlen, if_false, Option.some.injEq] at h
        rw [← h] at hn
        exact absurd rfl hn
    · rw [hfold] at h
      simp only [k_vertex_info_length] at h
      rw [if_neg (by omega)] at h
      simp only [Option.some.injEq] at h
      subst h
      exact ⟨hn2, rfl⟩

/-- C17: for a segment split in phase 1 with a chosen `n`, the list handed to
`split` holds exactly the `n - 1` interior vertices in the order
`m = 1, .., n - 1`, the `m`-th with position `p_u + (p_v - p_u) * m / n` and
radius `r_u + (r_v - r_u) * m / n`; the end points `u` and `v`, first and
last entry of the vector of the chosen candidate, are not in it. -/
theorem split_list_is_interior (ops : CellNetwork R Net) (len2 : Vec3 R → R) (gamma : R)
    (C : Net) (nvi : List (Vec3 R × R)) (lns : Nat) (r : Net × List (Vec3 R × R))
    (best : SplitChoice R)
    (hs : splitSegment ops len2 gamma C nvi lns = some r)
    (hbest : splitArguments len2 gamma (ops.getLength C lns)
        (ops.getPosition C (ops.getSourceVertex C lns))
        (ops.getPosition C (ops.getDestinationVertex C lns))
        (ops.getRadius C (ops.getSourceVertex C lns))
        (ops.getRadius C (ops.getDestinationVertex C lns)) nvi = some best)
    (hn : best.n ≠ 0) :
    r.1 = ops.split C lns best.n_vertex_info
      ∧ best.n_vertex_info
        = (List.range' 1 (best.n - 1)).map
            (fun (m : Nat) => (ops.getPosition C (ops.getSourceVertex C lns)
                + (ops.getPosition C (ops.getDestinationVertex C lns)
                    - ops.getPosition C (ops.getSourceVertex C lns)) * ((m : R) / (best.n : R)),
              ops.getRadius C (ops.getSourceVertex C lns)
                + (ops.getRadius C (ops.getDestinationVertex C lns)
                    - ops.getRadius C (ops.getSourceVertex C lns)) * ((m : R) / (best.n : R))))
      ∧ best.n_vertex_info.length = best.n - 1
      ∧ (ops.getPosition C (ops.getSourceVertex C lns), ops.getRadius C (ops.getSourceVertex C lns))
          :: best.n_vertex_info
          ++ [(ops.getPosition C (ops.getDestinationVertex C lns),
              ops.getRadius C (ops.getDestinationVertex C lns))]
        = k_vertex_info (ops.getPosition C (ops.getSourceVertex C lns))
            (ops.getPosition C (ops.getDestinationVertex C lns))
            (ops.getRadius C (ops.getSourceVertex C lns))
            (ops.getRadius C (ops.getDestinationVertex C lns)) best.n := by
  obtain ⟨best', hbest', hr⟩ := splitSegment_eq_some ops len2 gamma C nvi lns r hs
  rw [hbest] at hbest'
  simp only [Option.some.injEq] at hbest'
  subst hbest'
  obtain ⟨hn2, hlist⟩ := splitArguments_chosen len2 gamma _ _ _ _ _ nvi best hbest hn
  have hdec := k_vertex_info_decomposition (ops.getPosition C (ops.getSourceVertex C lns))
    (ops.getPosition C (ops.getDestinationVertex C lns))
    (ops.getRadius C (ops.getSourceVertex C lns))
    (ops.getRadius C (ops.getDestinationVertex C lns)) best.n (by omega)
  have hinterior : best.n_vertex_info
      = (List.range' 1 (best.n - 1)).map
          (fun (m : Nat) => (ops.getPosition C (ops.getSourceVertex C lns)
              + (ops.getPosition C (ops.getDestinationVertex C lns)
                  - ops.getPosition C (ops.getSourceVertex C lns)) * ((m : R) / (best.n : R)),
            ops.getRadius C (ops.getSourceVertex C lns)
              + (ops.getRadius C (ops.getDestinationVertex C lns)
                  - ops.getRadius C (ops.getSourceVertex C lns)) * ((m : R) / (best.n : R)))) := by
    rw [hlist, hdec]
    simp
  refine ⟨by rw [hr], hinterior, ?_, ?_⟩
  · rw [hinterior]
    simp
  · rw [hdec, ← hinterior]

/-- C17, on the segment of length 10 with radii 1 and `gamma = 3`: `n = 3`
is chosen and `split` gets the two vertices at 10/3 and 20/3. -/
theorem split_list_is_interior_witness :
    (⟨10 / 3, 0, 0⟩, (1 : ℚ)) :: [(⟨20 / 3, 0, 0⟩, 1)]
      = (List.range' 1 (3 - 1)).map
          (fun (m : Nat) => (Toy.network.getPosition Toy.long (Toy.network.getSourceVertex Toy.long 10)
              + (Toy.network.getPosition Toy.long (Toy.network.getDestinationVertex Toy.long 10)
                  - Toy.network.getPosition Toy.long (Toy.network.getSourceVertex Toy.long 10))
                * (((m : ℕ) : ℚ) / ((3 : ℕ) : ℚ)),
            Toy.network.getRadius Toy.long (Toy.network.getSourceVertex Toy.long 10)
              + (Toy.network.getRadius Toy.long (Toy.network.getDestinationVertex Toy.long 10)
                  - Toy.network.getRadius Toy.long (Toy.network.getSourceVertex Toy.long 10))
                * (((m : ℕ) : ℚ) / ((3 : ℕ) : ℚ)))) :=
  (split_list_is_interior Toy.network len2Q 3 Toy.long [] 10
    (Toy.network.split Toy.long 10 [(⟨10 / 3, 0, 0⟩, 1), (⟨20 / 3, 0, 0⟩, 1)],
      [(⟨10 / 3, 0, 0⟩, 1), (⟨20 / 3, 0, 0⟩, 1)])
    ⟨3, some (1 / 3), [(⟨10 / 3, 0, 0⟩, 1), (⟨20 / 3, 0, 0⟩, 1)]⟩
    (by decide!) (by decide!) (by decide)).2.1

end SplitCalls

/-! ## The queue stays in sync with the network -/

section SyncTheorems

variable {R Net : Type} [LinearOrderedField R]

omit [LinearOrderedField R] in
/-- The queue a pass starts with is in sync with the network. -/
theorem initialQueue_inSync (ops : CellNetwork R Net) (C : Net)
    (hnodup : (ops.neurite_segments C).Nodup) :
    QueueInSync ops C (initialQueue ops C) := by
  rw [initialQueue_eq]
  constructor
  · rw [List.map_map]
    have hid : (Prod.snd ∘ fun ns => (ops.getLength C ns, ns)) = id := rfl
    rw [hid, List.map_id]
    exact hnodup
  · intro e he _
    obtain ⟨ns, _, rfl⟩ := List.mem_map.mp he
    rfl

/-- Removing the minimum keeps the queue in sync. -/
theorem deleteMin_inSync (ops : CellNetwork R Net) (C : Net) (Q : PriorityQueue R Nat)
    (h : QueueInSync ops C Q) : QueueInSync ops C (PriorityQueue.deleteMin Q) := by
  unfold PriorityQueue.deleteMin
  cases PriorityQueue.top Q with
  | none => exact h
  | some m =>
    constructor
    · exact h.1.sublist ((List.erase_sublist m Q).map Prod.snd)
    · intro e he hseg
      exact h.2 e (List.mem_of_mem_erase he) hseg

/-- After one round of the loop over the edges at the surviving vertex every
entry is an old entry of another segment, or belongs to the edge and has its
length as key. -/
theorem updateNeighbour_entries (ops : CellNetwork R Net) (alpha beta : R) (C : Net)
    (Q : PriorityQueue R Nat) (f : Nat) :
    ∀ e ∈ updateNeighbour ops alpha beta C Q f,
      (e ∈ Q ∧ e.2 ≠ f) ∨ (e.2 = f ∧ e.1 = ops.getLength C f) := by
  intro e he
  by_cases hc : (∀ e ∈ Q, e.2 ≠ f) ∧ calculate_ns_weight ops alpha beta C f ≤ 0
  · rw [(updateNeighbour_eq ops alpha beta C Q f).1 hc] at he
    rcases List.mem_append.mp he with h | h
    · exact Or.inl ⟨h, hc.1 e h⟩
    · rw [List.mem_singleton] at h
      subst h
      exact Or.inr ⟨rfl, rfl⟩
  · rw [(updateNeighbour_eq ops alpha beta C Q f).2 hc] at he
    unfold PriorityQueue.changeKey at he
    obtain ⟨e0, he0, hmap⟩ := List.mem_map.mp he
    by_cases h : e0.2 = f
    · rw [if_pos h] at hmap
      subst hmap
      exact Or.inr ⟨rfl, rfl⟩
    · rw [if_neg h] at hmap
      subst hmap
      exact Or.inl ⟨he0, h⟩

theorem updateNeighbour_nodup (ops : CellNetwork R Net) (alpha beta : R) (C : Net)
    (Q : PriorityQueue R Nat) (f : Nat) (h : (Q.map Prod.snd).Nodup) :
    ((updateNeighbour ops alpha beta C Q f).map Prod.snd).Nodup := by
  rw [updateNeighbour_ids]
  by_cases hc : (∀ e ∈ Q, e.2 ≠ f) ∧ calculate_ns_weight ops alpha beta C f ≤ 0
  · rw [if_pos hc]
    refine List.Nodup.append h (List.nodup_singleton f) ?_
    intro x hx hxf
    rw [List.mem_singleton] at hxf
    subst hxf
    obtain ⟨e, he, hex⟩ := List.mem_map.mp hx
    exact hc.1 e he hex
  · rw [if_neg hc]
    exact h

/-- After the loop over the edges `fs` every entry is an old entry of a
segment outside `fs`, or belongs to an edge of `fs` and has its length as
key; and no id occurs twice. -/
theorem updateNeighbours_fold_entries (ops : CellNetwork R Net) (alpha beta : R) (C : Net) :
    ∀ (fs : List Nat) (Q : PriorityQueue R Nat), (Q.map Prod.snd).Nodup →
      ((fs.foldl (updateNeighbour ops alpha beta C) Q).map Prod.snd).Nodup
        ∧ ∀ e ∈ fs.foldl (updateNeighbour ops alpha beta C) Q,
            (e ∈ Q ∧ e.2 ∉ fs) ∨ (e.2 ∈ fs ∧ e.1 = ops.getLength C e.2) := by
  intro fs
  induction fs with
  | nil =>
    intro Q h
    exact ⟨h, fun e he => Or.inl ⟨he, List.not_mem_nil _⟩⟩
  | cons f fs ih =>
    intro Q h
    rw [List.foldl_cons]
    obtain ⟨hnd, hent⟩ := ih (updateNeighbour ops alpha beta C Q f)
      (updateNeighbour_nodup ops alpha beta C Q f h)
    refine ⟨hnd, fun e he => ?_⟩
    rcases hent e he with ⟨h1, hnot⟩ | ⟨hin, hkey⟩
    · rcases updateNeighbour_entries ops alpha beta C Q f e h1 with ⟨hQ, hne⟩ | ⟨heq, hkey⟩
      · left
        refine ⟨hQ, fun hmem => ?_⟩
        rcases List.mem_cons.mp hmem with h2 | h2
        · exact hne h2
        · exact hnot h2
      · right
        exact ⟨by rw [heq]; exact List.mem_cons_self _ _, by rw [hkey, heq]⟩
    · exact Or.inr ⟨List.mem_cons_of_mem _ hin, hkey⟩

/-- A collapse followed by the loop over the edges at the surviving vertex
keeps the queue in sync, if the collapse changes only the lengths of the
segments at the surviving vertex. -/
theorem afterCollapse_inSync (ops : CellNetwork R Net) (alpha beta : R)
    (hlen : ∀ (C : Net) (e : Nat) (target : Vec3 R × R), e ∈ ops.neurite_segments C →
      ∀ id ∈ ops.neurite_segments (ops.collapse C e target).1,
        id ∉ ops.getFilteredInEdges (ops.collapse C e target).1 (ops.collapse C e target).2
              ++ ops.getFilteredOutEdges (ops.collapse C e target).1 (ops.collapse C e target).2 →
        id ∈ ops.neurite_segments C
          ∧ ops.getLength (ops.collapse C e target).1 id = ops.getLength C id)
    (st : LoopState R Net) (e : Nat) (target : Vec3 R × R)
    (he : e ∈ ops.neurite_segments st.C) (h : QueueInSync ops st.C st.Q) :
    QueueInSync ops (afterCollapse ops alpha beta st e target).C
      (afterCollapse ops alpha beta st e target).Q := by
  unfold afterCollapse updateNeighbours
  simp only
  obtain ⟨hnd, hent⟩ := updateNeighbours_fold_entries ops alpha beta (ops.collapse st.C e target).1
    (ops.getFilteredInEdges (ops.collapse st.C e target).1 (ops.collapse st.C e target).2
      ++ ops.getFilteredOutEdges (ops.collapse st.C e target).1 (ops.collapse st.C e target).2)
    st.Q h.1
  refine ⟨hnd, fun x hx hseg => ?_⟩
  rcases hent x hx with ⟨hQ, hnot⟩ | ⟨_, hkey⟩
  · obtain ⟨hold, hsame⟩ := hlen st.C e target he x.2 hseg hnot
    rw [hsame]
    exact h.2 x hQ hold
  · exact hkey

/-- A round of the queue loop that does not throw keeps the queue in sync. -/
theorem processPopped_inSync (ops : CellNetwork R Net) (alpha beta : R)
    (hlen : ∀ (C : Net) (e : Nat) (target : Vec3 R × R), e ∈ ops.neurite_segments C →
      ∀ id ∈ ops.neurite_segments (ops.collapse C e target).1,
        id ∉ ops.getFilteredInEdges (ops.collapse C e target).1 (ops.collapse C e target).2
              ++ ops.getFilteredOutEdges (ops.collapse C e target).1 (ops.collapse C e target).2 →
        id ∈ ops.neurite_segments C
          ∧ ops.getLength (ops.collapse C e target).1 id = ops.getLength C id)
    (st st' : LoopState R Net) (e_len : R) (e_id : Nat)
    (h : QueueInSync ops st.C st.Q)
    (hround : processPopped ops alpha beta st e_len e_id = .ok st') :
    QueueInSync ops st'.C st'.Q := by
  rcases processPopped_cases ops alpha beta st e_len e_id with
    ⟨f, hf⟩ | ⟨hsame, _⟩ | ⟨target, hfind, _, _, hcol⟩
  · rw [hf] at hround
    cases hround
  · rw [hsame] at hround
    cases hround
    exact h
  · rw [hcol] at hround
    cases hround
    exact afterCollapse_inSync ops alpha beta hlen st e_id target
      ((find_iff_mem ops _ _).mp hfind) h

/-- Popped from a queue in sync, a segment does not raise the key-mismatch
fault. -/
theorem pop_inSync_ne_keyMismatch (ops : CellNetwork R Net) (alpha beta : R)
    (st : LoopState R Net) (min_pair : R × Nat)
    (h : QueueInSync ops st.C st.Q) (htop : PriorityQueue.top st.Q = some min_pair) :
    processPopped ops alpha beta { st with Q := PriorityQueue.deleteMin st.Q }
      min_pair.1 min_pair.2 ≠ .error Fault.keyMismatch := by
  by_cases hfind : ops.find st.C min_pair.2 = true
  · have hkey : min_pair.1 = ops.getLength st.C min_pair.2 :=
      h.2 min_pair (PriorityQueue.top_mem st.Q min_pair htop) ((find_iff_mem ops _ _).mp hfind)
    have hmatch : |ops.getLength st.C min_pair.2 - min_pair.1| ≤ 1 / 100000 := by
      rw [hkey, sub_self, abs_zero]
      positivity
    rw [processPopped_of_match ops alpha beta
      { st with Q := PriorityQueue.deleteMin st.Q } min_pair.1 min_pair.2 hfind hmatch]
    exact processSegment_ne_keyMismatch ops alpha beta _ min_pair.2
  · unfold processPopped
    rw [if_neg hfind]
    simp

/-- A pass that starts in sync never raises the key-mismatch fault. -/
theorem processQueue_ne_keyMismatch (ops : CellNetwork R Net) (alpha beta : R)
    (hlen : ∀ (C : Net) (e : Nat) (target : Vec3 R × R), e ∈ ops.neurite_segments C →
      ∀ id ∈ ops.neurite_segments (ops.collapse C e target).1,
        id ∉ ops.getFilteredInEdges (ops.collapse C e target).1 (ops.collapse C e target).2
              ++ ops.getFilteredOutEdges (ops.collapse C e target).1 (ops.collapse C e target).2 →
        id ∈ ops.neurite_segments C
          ∧ ops.getLength (ops.collapse C e target).1 id = ops.getLength C id) :
    ∀ (fuel : Nat) (st : LoopState R Net), QueueInSync ops st.C st.Q →
      processQueue ops alpha beta fuel st ≠ some (.error Fault.keyMismatch) := by
  intro fuel
  induction fuel with
  | zero => intro st _; simp [processQueue]
  | succ fuel ih =>
    intro st h
    unfold processQueue
    cases ht : PriorityQueue.top st.Q with
    | none => simp
    | some min_pair =>
      simp only
      have hne := pop_inSync_ne_keyMismatch ops alpha beta st min_pair h ht
      cases hp : processPopped ops alpha beta
          { st with Q := PriorityQueue.deleteMin st.Q } min_pair.1 min_pair.2 with
      | error f =>
        simp only
        intro hf
        rw [hp] at hne
        injection hf with hf
        exact hne hf
      | ok st' =>
        simp only
        exact ih st' (processPopped_inSync ops alpha beta hlen
          { st with Q := PriorityQueue.deleteMin st.Q } st' min_pair.1 min_pair.2
          (deleteMin_inSync ops st.C st.Q h) hp)

/-- Phase 2 never raises the key-mismatch fault on a network that lists each
segment once. -/
theorem greedyCollapse_ne_keyMismatch (ops : CellNetwork R Net) (alpha beta : R)
    (hnodup : ∀ (C : Net) (e : Nat) (target : Vec3 R × R), e ∈ ops.neurite_segments C →
      (ops.neurite_segments C).Nodup → (ops.neurite_segments (ops.collapse C e target).1).Nodup)
    (hlen : ∀ (C : Net) (e : Nat) (target : Vec3 R × R), e ∈ ops.neurite_segments C →
      ∀ id ∈ ops.neurite_segments (ops.collapse C e target).1,
        id ∉ ops.getFilteredInEdges (ops.collapse C e target).1 (ops.collapse C e target).2
              ++ ops.getFilteredOutEdges (ops.collapse C e target).1 (ops.collapse C e target).2 →
        id ∈ ops.neurite_segments C
          ∧ ops.getLength (ops.collapse C e target).1 id = ops.getLength C id) :
    ∀ (fuel : Nat) (C : Net), (ops.neurite_segments C).Nodup →
      greedyCollapse ops alpha beta fuel C ≠ some (.error Fault.keyMismatch) := by
  intro fuel
  induction fuel with
  | zero => intro C _; simp [greedyCollapse]
  | succ fuel ih =>
    intro C hC
    unfold greedyCollapse
    have hq := processQueue_ne_keyMismatch ops alpha beta hlen fuel
      { C := C, Q := initialQueue ops C, fixed_point := true } (initialQueue_inSync ops C hC)
    cases hp : processQueue ops alpha beta fuel
        { C := C, Q := initialQueue ops C, fixed_point := true } with
    | none => simp
    | some rq =>
      cases rq with
      | error f =>
        simp only
        rw [hp] at hq
        intro hf
        injection hf with hf
        injection hf with hf
        exact hq (by rw [hf])
      | ok st =>
        simp only
        by_cases hfp : st.fixed_point = true
        · simp [hfp]
        · simp only [hfp]
          refine ih st.C ?_
          exact processQueue_invariant ops alpha beta
            (fun s => (ops.neurite_segments s.C).Nodup) (fun _ _ hs => hs)
            (fun s e target hs he => hnodup s.C e target he hs) fuel _ st hp hC

/-- C18: throughout phase 2 the queue is in sync with the network, provided a
collapse leaves the network with each segment listed once and changes only
the lengths of the segments at the surviving vertex: the queue a pass starts
with is in sync (each segment id at most once, each entry of an existing
segment with the segment's length as key), every round of the queue loop that
does not throw hands on a queue in sync, and consequently no round and no run
of phase 2 raises the key-mismatch fault. -/
theorem queue_stays_in_sync (ops : CellNetwork R Net) (alpha beta : R)
    (hnodup : ∀ (C : Net) (e : Nat) (target : Vec3 R × R), e ∈ ops.neurite_segments C →
      (ops.neurite_segments C).Nodup → (ops.neurite_segments (ops.collapse C e target).1).Nodup)
    (hlen : ∀ (C : Net) (e : Nat) (target : Vec3 R × R), e ∈ ops.neurite_segments C →
      ∀ id ∈ ops.neurite_segments (ops.collapse C e target).1,
        id ∉ ops.getFilteredInEdges (ops.collapse C e target).1 (ops.collapse C e target).2
              ++ ops.getFilteredOutEdges (ops.collapse C e target).1 (ops.collapse C e target).2 →
        id ∈ ops.neurite_segments C
          ∧ ops.getLength (ops.collapse C e target).1 id = ops.getLength C id) :
    (∀ C : Net, (ops.neurite_segments C).Nodup → QueueInSync ops C (initialQueue ops C))
      ∧ (∀ (st st' : LoopState R Net) (min_pair : R × Nat),
          QueueInSync ops st.C st.Q → PriorityQueue.top st.Q = some min_pair →
          processPopped ops alpha beta { st with Q := PriorityQueue.deleteMin st.Q }
            min_pair.1 min_pair.2 = .ok st' →
          QueueInSync ops st'.C st'.Q)
      ∧ (∀ (st : LoopState R Net) (min_pair : R × Nat),
          QueueInSync ops st.C st.Q → PriorityQueue.top st.Q = some min_pair →
          processPopped ops alpha beta { st with Q := PriorityQueue.deleteMin st.Q }
            min_pair.1 min_pair.2 ≠ .error Fault.keyMismatch)
      ∧ (∀ (fuel : Nat) (C : Net), (ops.neurite_segments C).Nodup →
          greedyCollapse ops alpha beta fuel C ≠ some (.error Fault.keyMismatch)) := by
  refine ⟨initialQueue_inSync ops, ?_, ?_, greedyCollapse_ne_keyMismatch ops alpha beta hnodup hlen⟩
  · intro st st' min_pair h _ hround
    exact processPopped_inSync ops alpha beta hlen
      { st with Q := PriorityQueue.deleteMin st.Q } st' min_pair.1 min_pair.2
      (deleteMin_inSync ops st.C st.Q h) hround
  · intro st min_pair h htop
    exact pop_inSync_ne_keyMismatch ops alpha beta st min_pair h htop

end SyncTheorems

/-! ## The concrete network keeps its queue in sync -/

section ToySync

theorem find?_filter_of_imp {α : Type} (p q : α → Bool) (h : ∀ x, p x = true → q x = true) :
    ∀ l : List α, (l.filter q).find? p = l.find? p
  | [] => rfl
  | a :: l => by
    by_cases hq : q a = true
    · rw [List.filter_cons_of_pos hq]
      by_cases hp : p a = true
      · rw [List.find?_cons_of_pos _ hp, List.find?_cons_of_pos _ hp]
      · rw [List.find?_cons_of_neg _ hp, List.find?_cons_of_neg _ hp]
        exact find?_filter_of_imp p q h l
    · rw [List.filter_cons_of_neg hq]
      have hp : ¬ p a = true := fun hp => hq (h a hp)
      rw [List.find?_cons_of_neg _ hp]
      exact find?_filter_of_imp p q h l

/-- A lookup by id in a list that was filtered and mapped, when the filter
keeps the id looked for and the map keeps ids. -/
theorem find?_map_filter {α : Type} (key : α → Nat) (g : α → α) (q : α → Bool) (i : Nat)
    (hg : ∀ x, key (g x) = key x) (hq : ∀ x, key x = i → q x = true) (l : List α) :
    ((l.filter q).map g).find? (fun x => key x == i)
      = (l.find? (fun x => key x == i)).map g := by
  rw [List.find?_map]
  have hcomp : ((fun x => key x == i) ∘ g) = (fun x => key x == i) := by
    funext x
    simp [Function.comp, hg x]
  rw [hcomp, find?_filter_of_imp _ q (fun x hx => hq x (by simpa using hx))]

theorem Toy.collapse_eq (C : Toy.Net) (e : Nat) (target : Vec3 ℚ × ℚ) (s : Toy.Segment)
    (hs : C.segment e = some s) :
    Toy.network.collapse C e target = (Toy.collapsed C e s target, s.src) := by
  show C.collapse e target = _
  unfold Toy.Net.collapse
  rw [hs]
  rfl

theorem Toy.segment_of_mem (C : Toy.Net) (e : Nat)
    (he : e ∈ C.segments.map (fun t => t.id)) :
    ∃ s, C.segment e = some s ∧ s ∈ C.segments ∧ s.id = e := by
  cases hs : C.segment e with
  | some s =>
    unfold Toy.Net.segment at hs
    exact ⟨s, rfl, List.mem_of_find?_eq_some hs, by simpa using List.find?_some hs⟩
  | none =>
    exfalso
    unfold Toy.Net.segment at hs
    rw [List.find?_eq_none] at hs
    obtain ⟨t, ht, hte⟩ := List.mem_map.mp he
    exact hs t ht (by simp [hte])

/-- A vertex away from the collapsed segment keeps its position. -/
theorem Toy.collapsed_position (C : Toy.Net) (e : Nat) (s : Toy.Segment) (target : Vec3 ℚ × ℚ)
    (w : Nat) (hw1 : w ≠ s.src) (hw2 : w ≠ s.dst) :
    (Toy.collapsed C e s target).position w = C.position w := by
  unfold Toy.Net.position Toy.collapsed
  simp only
  rw [find?_map_filter (fun v : Toy.Vertex => v.id) (Toy.moveTo s target) _ w
    (fun x => by unfold Toy.moveTo; by_cases hx : x.id = s.src <;> simp [hx])
    (fun x hx => by simpa [hx] using hw2)]
  cases hf : C.vertices.find? (fun v => v.id == w) with
  | none => rfl
  | some w0 =>
    have hw0 : w0.id = w := by simpa using List.find?_some hf
    have hne : ¬ w0.id = s.src := by rw [hw0]; exact hw1
    simp only [Option.map_some', Toy.moveTo, if_neg hne]

/-- In the concrete network a collapse leaves every segment that does not
touch the surviving vertex in place with its length. -/
theorem Toy.collapse_lengths (C : Toy.Net) (e : Nat) (target : Vec3 ℚ × ℚ)
    (he : e ∈ Toy.network.neurite_segments C) :
    ∀ id ∈ Toy.network.neurite_segments (Toy.network.collapse C e target).1,
      id ∉ Toy.network.getFilteredInEdges (Toy.network.collapse C e target).1
              (Toy.network.collapse C e target).2
            ++ Toy.network.getFilteredOutEdges (Toy.network.collapse C e target).1
              (Toy.network.collapse C e target).2 →
      id ∈ Toy.network.neurite_segments C
        ∧ Toy.network.getLength (Toy.network.collapse C e target).1 id
          = Toy.network.getLength C id := by
  obtain ⟨s, hs, _, _⟩ := Toy.segment_of_mem C e he
  rw [Toy.collapse_eq C e target s hs]
  intro id hid hnot
  have hid' : id ∈ ((C.segments.filter (fun t => t.id != e)).map (Toy.rewire s)).map
      (fun t => t.id) := hid
  obtain ⟨t', ht', hidt'⟩ := List.mem_map.mp hid'
  obtain ⟨t1, ht1, ht1'⟩ := List.mem_map.mp ht'
  have ht1id : t1.id = id := by rw [← hidt', ← ht1']; rfl
  have hide : id ≠ e := by
    have := (List.mem_filter.mp ht1).2
    rw [← ht1id]
    simpa using this
  obtain ⟨t0, ht0, ht0mem, ht0id⟩ := Toy.segment_of_mem C id
    (List.mem_map.mpr ⟨t1, (List.mem_filter.mp ht1).1, ht1id⟩)
  have hseg' : (Toy.collapsed C e s target).segment id = some (Toy.rewire s t0) := by
    unfold Toy.Net.segment Toy.collapsed
    simp only
    rw [find?_map_filter (fun t : Toy.Segment => t.id) (Toy.rewire s) _ id (fun _ => rfl)
      (fun x hx => by simpa [hx] using hide)]
    unfold Toy.Net.segment at ht0
    rw [ht0]
    rfl
  have hg0mem : Toy.rewire s t0 ∈ (Toy.collapsed C e s target).segments :=
    List.mem_map.mpr ⟨t0, List.mem_filter.mpr ⟨ht0mem, by simpa [ht0id] using hide⟩, rfl⟩
  have hdst : (Toy.rewire s t0).dst ≠ s.src := by
    intro hd
    apply hnot
    apply List.mem_append_left
    show id ∈ List.map (fun t => t.id)
      (List.filter (fun t => t.dst == s.src) (Toy.collapsed C e s target).segments)
    exact List.mem_map.mpr ⟨_, List.mem_filter.mpr ⟨hg0mem, by simpa using hd⟩, ht0id⟩
  have hsrc : (Toy.rewire s t0).src ≠ s.src := by
    intro hd
    apply hnot
    apply List.mem_append_right
    show id ∈ List.map (fun t => t.id)
      (List.filter (fun t => t.src == s.src) (Toy.collapsed C e s target).segments)
    exact List.mem_map.mpr ⟨_, List.mem_filter.mpr ⟨hg0mem, by simpa using hd⟩, ht0id⟩
  have hd1 : t0.dst ≠ s.dst := fun h => hdst (by simp [Toy.rewire, h])
  have hd2 : t0.dst ≠ s.src := fun h => hdst (by simp [Toy.rewire, hd1, h])
  have hs1 : t0.src ≠ s.dst := fun h => hsrc (by simp [Toy.rewire, h])
  have hs2 : t0.src ≠ s.src := fun h => hsrc (by simp [Toy.rewire, hs1, h])
  refine ⟨List.mem_map.mpr ⟨t0, ht0mem, ht0id⟩, ?_⟩
  show len2Q ((Toy.collapsed C e s target).position ((Toy.collapsed C e s target).dst id)
      - (Toy.collapsed C e s target).position ((Toy.collapsed C e s target).src id))
    = len2Q (C.position (C.dst id) - C.position (C.src id))
  have hCdst : C.dst id = t0.dst := by unfold Toy.Net.dst; rw [ht0]
  have hCsrc : C.src id = t0.src := by unfold Toy.Net.src; rw [ht0]
  have hC'dst : (Toy.collapsed C e s target).dst id = t0.dst := by
    unfold Toy.Net.dst
    rw [hseg']
    simp [Toy.rewire, hd1]
  have hC'src : (Toy.collapsed C e s target).src id = t0.src := by
    unfold Toy.Net.src
    rw [hseg']
    simp [Toy.rewire, hs1]
  rw [hC'dst, hC'src, hCdst, hCsrc, Toy.collapsed_position C e s target t0.dst hd2 hd1,
    Toy.collapsed_position C e s target t0.src hs2 hs1]

/-- In the concrete network a collapse leaves each segment listed once. -/
theorem Toy.collapse_nodup (C : Toy.Net) (e : Nat) (target : Vec3 ℚ × ℚ)
    (he : e ∈ Toy.network.neurite_segments C)
    (hnodup : (Toy.network.neurite_segments C).Nodup) :
    (Toy.network.neurite_segments (Toy.network.collapse C e target).1).Nodup := by
  obtain ⟨l, hperm, hsub⟩ := Toy.collapse_removes C e target he
  exact hperm.nodup_iff.mp ((hnodup.erase e).sublist hsub)

/-- C18, on the forking neurite: the queue the first pass starts with is in
sync with the network. -/
theorem queue_stays_in_sync_witness :
    QueueInSync Toy.network Toy.fork (initialQueue Toy.network Toy.fork) :=
  (queue_stays_in_sync Toy.network 3 2 Toy.collapse_nodup Toy.collapse_lengths).1 Toy.fork
    (by decide)

end ToySync

/-! ## Concrete instances -/

section Instances

/-- C11 (amended), on the forking neurite after the collapse of segment `11`:
segment `12`, absent from the queue and of weight 0, is appended with its
length 3 as key. -/
theorem reinserted_iff_absent_and_nonpositive_witness :
    updateNeighbour Toy.network 3 2 Toy.forkCollapsed [(14, 10), (5, 13)] 12
      = [(14, 10), (5, 13)] ++ [(Toy.network.getLength Toy.forkCollapsed 12, 12)] :=
  ((reinserted_iff_absent_and_nonpositive Toy.network 3 2 Toy.forkCollapsed
    [(14, 10), (5, 13)]).1 12).1 (by decide!)

/-- C13, for a red edge `(4, 2)` with the lambdas 1/4 and 3/4: the record
holds the ids in the order given. -/
theorem edge_isec_info_construction_witness :
    RedBlue_EdgeIsecInfo.construct true 4 2 [(1 / 4 : ℚ), 3 / 4]
      = .ok { red := true, u_id := 4, v_id := 2, edge_lambdas := [1 / 4, 3 / 4] } :=
  (edge_isec_info_construction true 4 2 [(1 / 4 : ℚ), 3 / 4]).2 (by simp)

end Instances

/-! ## The intactness flags, the lambda sequence, the payload and the type tag -/

section ExceptionValues

/-- C21 as stated fails: `RedBlue_Ex_Triangulation` can be constructed with
both flags `true`, and the value then reports both meshes as intact. -/
theorem triangulation_intact_counterexample :
    (RedBlue_Ex_Triangulation "retriangulation failed" true true).R_intact = true
      ∧ (RedBlue_Ex_Triangulation "retriangulation failed" true true).B_intact = true :=
  ⟨rfl, rfl⟩

/-- C21 (amended): a `RedBlue_Ex_Triangulation` error value carries exactly
the flags `R_intact` and `B_intact` its constructor was given (and the type
code of `RB_TRIANGULATION`); it reports a mesh as not intact exactly when the
thrower passed `false` for one of the two flags. -/
theorem triangulation_flags_as_given (msg : String) (R_intact B_intact : Bool) :
    (RedBlue_Ex_Triangulation msg R_intact B_intact).type
        = RedBlue_ExceptionCodes_enum.RB_TRIANGULATION.code
      ∧ (RedBlue_Ex_Triangulation msg R_intact B_intact).R_intact = R_intact
      ∧ (RedBlue_Ex_Triangulation msg R_intact B_intact).B_intact = B_intact
      ∧ (((RedBlue_Ex_Triangulation msg R_intact B_intact).R_intact = false
          ∨ (RedBlue_Ex_Triangulation msg R_intact B_intact).B_intact = false)
        ↔ (R_intact = false ∨ B_intact = false)) :=
  ⟨rfl, rfl, rfl, Iff.rfl⟩

/-- C22 as stated fails: the red edge `(0, 1)` with the lambdas `2, -1` is
constructed successfully, and the sequence it holds is neither sorted in
ascending order nor within `[0, 1]`. -/
theorem edge_lambdas_unchecked_counterexample :
    ∃ info : RedBlue_EdgeIsecInfo ℚ,
      RedBlue_EdgeIsecInfo.construct true 0 1 [(2 : ℚ), -1] = .ok info
        ∧ ¬ info.edge_lambdas.Sorted (fun a b => a ≤ b)
        ∧ ¬ ∀ x ∈ info.edge_lambdas, 0 ≤ x ∧ x ≤ 1 :=
  ⟨{ red := true, u_id := 0, v_id := 1, edge_lambdas := [2, -1] }, rfl,
    by norm_num [List.Sorted], fun h => absurd (h 2 (by simp)).2 (by norm_num)⟩

/-- C22 (amended): every successfully constructed `RedBlue_EdgeIsecInfo` holds
a non-empty lambda sequence, which is the sequence given to the constructor
as it was given; so it is sorted in ascending order exactly when the given
sequence is, and within `[0, 1]` exactly when the given sequence is. -/
theorem edge_lambdas_as_given {TR : Type} [LinearOrderedField TR] (red : Bool)
    (u_id v_id : Nat) (edge_lambdas : List TR) (info : RedBlue_EdgeIsecInfo TR)
    (h : RedBlue_EdgeIsecInfo.construct red u_id v_id edge_lambdas = .ok info) :
    info.edge_lambdas ≠ [] ∧ info.edge_lambdas = edge_lambdas
      ∧ (info.edge_lambdas.Sorted (fun a b => a ≤ b)
          ↔ edge_lambdas.Sorted (fun a b => a ≤ b))
      ∧ ((∀ x ∈ info.edge_lambdas, 0 ≤ x ∧ x ≤ 1) ↔ ∀ x ∈ edge_lambdas, 0 ≤ x ∧ x ≤ 1) := by
  cases edge_lambdas with
  | nil => simp [RedBlue_EdgeIsecInfo.construct] at h
  | cons a l =>
    simp only [RedBlue_EdgeIsecInfo.construct, List.isEmpty_cons, Bool.false_eq_true,
      if_false, Except.ok.injEq] at h
    subst h
    exact ⟨by simp, rfl, Iff.rfl, Iff.rfl⟩

/-- C22 (amended), for a red edge `(4, 2)` with the lambdas 1/4, 1/2 and 3/4:
the record holds these three values, sorted and within `[0, 1]` as given. -/
theorem edge_lambdas_as_given_witness :
    RedBlue_EdgeIsecInfo.construct true 4 2 [(1 / 4 : ℚ), 1 / 2, 3 / 4]
        = .ok { red := true, u_id := 4, v_id := 2, edge_lambdas := [1 / 4, 1 / 2, 3 / 4] }
      ∧ ({ red := true, u_id := 4, v_id := 2, edge_lambdas := [1 / 4, 1 / 2, 3 / 4] }
          : RedBlue_EdgeIsecInfo ℚ).edge_lambdas ≠ []
      ∧ ({ red := true, u_id := 4, v_id := 2, edge_lambdas := [1 / 4, 1 / 2, 3 / 4] }
          : RedBlue_EdgeIsecInfo ℚ).edge_lambdas = [1 / 4, 1 / 2, 3 / 4] :=
  match edge_lambdas_as_given true 4 2 [(1 / 4 : ℚ), 1 / 2, 3 / 4]
    { red := true, u_id := 4, v_id := 2, edge_lambdas := [1 / 4, 1 / 2, 3 / 4] } rfl with
  | ⟨h1, h2, _⟩ => ⟨rfl, h1, h2⟩

/-- C23: the error constructors preserve their payload.  A
`RedBlue_Ex_ComplexEdges` holds the list of `RedBlue_EdgeIsecInfo` it was
built from (same length, same order, each record with its lambda values), so
a list of one record with the three lambdas `a`, `b`, `c` is read back as one
record with exactly three lambdas; a `RedBlue_Ex_AffectedCircleTrivial` holds
the colour, the face id and the split position given and has both meshes
intact; a `RedBlue_Ex_NumericalEdgeCase` holds exactly the flags given. -/
theorem payload_preserved {TR : Type} (msg : String)
    (einfo_vec : List (RedBlue_EdgeIsecInfo TR)) (red : Bool) (u_id v_id : Nat) (a b c : TR)
    (face_id : Nat) (splitPos : Vec3 TR) (R_intact B_intact : Bool) :
    ((RedBlue_Ex_ComplexEdges.construct msg einfo_vec).edge_isec_info = einfo_vec
        ∧ (RedBlue_Ex_ComplexEdges.construct msg einfo_vec).edge_isec_info.length
            = einfo_vec.length
        ∧ (∀ i (hi : i < einfo_vec.length),
            (RedBlue_Ex_ComplexEdges.construct msg einfo_vec).edge_isec_info[i]?
              = some einfo_vec[i])
        ∧ (RedBlue_Ex_ComplexEdges.construct msg einfo_vec).edge_isec_info.map
              (fun info => info.edge_lambdas)
            = einfo_vec.map (fun info => info.edge_lambdas))
      ∧ ((RedBlue_Ex_ComplexEdges.construct msg
            [{ red := red, u_id := u_id, v_id := v_id, edge_lambdas := [a, b, c] }]).edge_isec_info.map
              (fun info => info.edge_lambdas.length) = [3]
        ∧ (RedBlue_Ex_ComplexEdges.construct msg
            [{ red := red, u_id := u_id, v_id := v_id, edge_lambdas := [a, b, c] }]).edge_isec_info.map
              (fun info => info.edge_lambdas) = [[a, b, c]]
        ∧ (RedBlue_Ex_ComplexEdges.construct msg
            [{ red := red, u_id := u_id, v_id := v_id, edge_lambdas := [a, b, c] }]).R_intact = true
        ∧ (RedBlue_Ex_ComplexEdges.construct msg
            [{ red := red, u_id := u_id, v_id := v_id, edge_lambdas := [a, b, c] }]).B_intact = true)
      ∧ ((RedBlue_Ex_AffectedCircleTrivial.construct msg red face_id splitPos).red = red
        ∧ (RedBlue_Ex_AffectedCircleTrivial.construct msg red face_id splitPos).face_id = face_id
        ∧ (RedBlue_Ex_AffectedCircleTrivial.construct msg red face_id splitPos).splitPos = splitPos
        ∧ (RedBlue_Ex_AffectedCircleTrivial.construct msg red face_id splitPos).R_intact = true
        ∧ (RedBlue_Ex_AffectedCircleTrivial.construct msg red face_id splitPos).B_intact = true)
      ∧ ((RedBlue_Ex_NumericalEdgeCase msg R_intact B_intact).R_intact = R_intact
        ∧ (RedBlue_Ex_NumericalEdgeCase msg R_intact B_intact).B_intact = B_intact) :=
  ⟨⟨rfl, rfl, fun _ hi => List.getElem?_eq_getElem hi, rfl⟩, ⟨rfl, rfl, rfl, rfl⟩,
    ⟨rfl, rfl, rfl, rfl, rfl⟩, ⟨rfl, rfl⟩⟩

/-- C28: each of the seven error constructors sets the field `type` to its own
code, the seven codes are pairwise distinct (the coding is injective and the
seven values have no repetition), and every one of the seven values is, or
extends, a `RedBlue_Ex`, whose fields `R_intact` and `B_intact` it carries. -/
theorem type_tag_selects_variant {TR : Type} (msg : String)
    (einfo_vec : List (RedBlue_EdgeIsecInfo TR)) (R_intact B_intact red : Bool)
    (face_id : Nat) (splitPos : Vec3 TR) :
    ((RedBlue_Ex_InternalLogic msg).type
          = RedBlue_ExceptionCodes_enum.RB_INTERNAL_LOGIC_ERROR.code
        ∧ (RedBlue_Ex_Disjoint msg).type = RedBlue_ExceptionCodes_enum.RB_DISJOINT.code
        ∧ (RedBlue_Ex_ComplexEdges.construct msg einfo_vec).type
          = RedBlue_ExceptionCodes_enum.RB_COMPLEX_EDGES.code
        ∧ (RedBlue_Ex_NumericalEdgeCase msg R_intact B_intact).type
          = RedBlue_ExceptionCodes_enum.RB_NUMERICAL_EDGE_CASE.code
        ∧ (RedBlue_Ex_Triangulation msg R_intact B_intact).type
          = RedBlue_ExceptionCodes_enum.RB_TRIANGULATION.code
        ∧ (RedBlue_Ex_NumIsecPoly msg).type = RedBlue_ExceptionCodes_enum.RB_ISECPOLY_NUM.code
        ∧ (RedBlue_Ex_AffectedCircleTrivial.construct msg red face_id splitPos).type
          = RedBlue_ExceptionCodes_enum.RB_AFFECTED_CIRCLE_TRIVIAL.code)
      ∧ (Function.Injective RedBlue_ExceptionCodes_enum.code
        ∧ [(RedBlue_Ex_InternalLogic msg).type, (RedBlue_Ex_Disjoint msg).type,
            (RedBlue_Ex_ComplexEdges.construct msg einfo_vec).type,
            (RedBlue_Ex_NumericalEdgeCase msg R_intact B_intact).type,
            (RedBlue_Ex_Triangulation msg R_intact B_intact).type,
            (RedBlue_Ex_NumIsecPoly msg).type,
            (RedBlue_Ex_AffectedCircleTrivial.construct msg red face_id splitPos).type].Nodup)
      ∧ ((RedBlue_Ex_InternalLogic msg = ⟨0, msg, false, false⟩)
        ∧ (RedBlue_Ex_Disjoint msg = ⟨1, msg, true, true⟩)
        ∧ ((RedBlue_Ex_ComplexEdges.construct msg einfo_vec).toRedBlue_Ex = ⟨2, msg, true, true⟩)
        ∧ (RedBlue_Ex_NumericalEdgeCase msg R_intact B_intact = ⟨3, msg, R_intact, B_intact⟩)
        ∧ (RedBlue_Ex_Triangulation msg R_intact B_intact = ⟨4, msg, R_intact, B_intact⟩)
        ∧ (RedBlue_Ex_NumIsecPoly msg = ⟨5, msg, true, true⟩)
        ∧ ((RedBlue_Ex_AffectedCircleTrivial.construct msg red face_id splitPos).toRedBlue_Ex
            = ⟨6, msg, true, true⟩)) := by
  refine ⟨⟨rfl, rfl, rfl, rfl, rfl, rfl, rfl⟩, ⟨?_, ?_⟩, ⟨rfl, rfl, rfl, rfl, rfl, rfl, rfl⟩⟩
  · intro a b h
    cases a <;> cases b <;> first | rfl | (exact absurd h (by decide))
  · show [0, 1, 2, 3, 4, 5, 6].Nodup
    decide

end ExceptionValues

/-! ## The segments left with weight `<= 0`, and the faults of the role table -/

section RoleTable

variable {R Net : Type} [LinearOrderedField R]

/-- C24: when `preliminaryPreconditioning` returns, every remaining segment
with weight `<= 0` is in a skip configuration of the role table (its source is
a root vertex and its destination is terminal or branching, or its source is
branching and its destination is terminal), and every remaining segment that
is in neither configuration has weight `> 0`. -/
theorem nonpositive_weight_is_skipped [FloorRing R] (ops : CellNetwork R Net)
    (len2 : Vec3 R → R) (alpha beta gamma : R) (fuel : Nat) (C C' : Net)
    (h : preliminaryPreconditioning ops len2 alpha beta gamma fuel C = some (.ok C'))
    (s : Nat) (hs : s ∈ ops.neurite_segments C') :
    (calculate_ns_weight ops alpha beta C' s ≤ 0 →
        (ops.isNeuriteRootVertex C' (ops.getSourceVertex C' s) = true
            ∧ (ops.isNeuriteTerminalVertex C' (ops.getDestinationVertex C' s) = true
              ∨ ops.isNeuriteBranchingVertex C' (ops.getDestinationVertex C' s) = true))
          ∨ (ops.isNeuriteBranchingVertex C' (ops.getSourceVertex C' s) = true
            ∧ ops.isNeuriteTerminalVertex C' (ops.getDestinationVertex C' s) = true))
      ∧ (¬ SkipConfiguration ops C' s → 0 < calculate_ns_weight ops alpha beta C' s) := by
  unfold preliminaryPreconditioning at h
  cases h1 : splitLongSegments ops len2 gamma C with
  | none => simp [h1] at h
  | some C1 =>
    simp only [h1] at h
    rcases greedyCollapse_result ops alpha beta fuel C1 C' h s hs with hpos | hskip
    · exact ⟨fun hle => absurd hpos (not_lt.mpr hle), fun _ => hpos⟩
    · exact ⟨fun _ => hskip, fun hn => absurd hskip hn⟩

/-- C27: a dequeued existing segment with matching key and weight `<= 0` whose
source is none of root, branching, simple, or whose destination is none of
terminal, branching, simple, ends the round, the queue loop and (at the start
of a pass) the preconditioner with a fault: the one of the source if the
source is outside the table, else the one of the destination.  `collapse` is
not called in that round, so the round leaves the network as it was. -/
theorem fault_outside_role_table (ops : CellNetwork R Net) (alpha beta : R)
    (st : LoopState R Net) (e_len : R) (e_id : Nat) (fuel : Nat)
    (htop : PriorityQueue.top st.Q = some (e_len, e_id))
    (hfind : ops.find st.C e_id = true)
    (hkey : |ops.getLength st.C e_id - e_len| ≤ 1 / 100000)
    (hw : calculate_ns_weight ops alpha beta st.C e_id ≤ 0)
    (hroles :
      (ops.isNeuriteRootVertex st.C (ops.getSourceVertex st.C e_id) = false
        ∧ ops.isNeuriteBranchingVertex st.C (ops.getSourceVertex st.C e_id) = false
        ∧ ops.isNeuriteSimpleVertex st.C (ops.getSourceVertex st.C e_id) = false)
      ∨ (ops.isNeuriteTerminalVertex st.C (ops.getDestinationVertex st.C e_id) = false
        ∧ ops.isNeuriteBranchingVertex st.C (ops.getDestinationVertex st.C e_id) = false
        ∧ ops.isNeuriteSimpleVertex st.C (ops.getDestinationVertex st.C e_id) = false)) :
    ∃ f : Fault,
      f = (if ops.isNeuriteRootVertex st.C (ops.getSourceVertex st.C e_id) = false
            ∧ ops.isNeuriteBranchingVertex st.C (ops.getSourceVertex st.C e_id) = false
            ∧ ops.isNeuriteSimpleVertex st.C (ops.getSourceVertex st.C e_id) = false
          then Fault.impossibleSource else Fault.impossibleDestination)
      ∧ collapseTarget ops st.C (ops.getSourceVertex st.C e_id)
          (ops.getDestinationVertex st.C e_id) = .error f
      ∧ processPopped ops alpha beta
          { C := st.C, Q := PriorityQueue.deleteMin st.Q, fixed_point := st.fixed_point }
          e_len e_id = .error f
      ∧ processQueue ops alpha beta (fuel + 1) st = some (.error f)
      ∧ roundCollapses ops alpha beta st.C e_id = false
      ∧ collapsedSegments ops alpha beta (fuel + 1) st = []
      ∧ (st.Q = initialQueue ops st.C → st.fixed_point = true →
          greedyCollapse ops alpha beta (fuel + 2) st.C = some (.error f)) := by
  have htarget : collapseTarget ops st.C (ops.getSourceVertex st.C e_id)
      (ops.getDestinationVertex st.C e_id)
      = .error (if ops.isNeuriteRootVertex st.C (ops.getSourceVertex st.C e_id) = false
            ∧ ops.isNeuriteBranchingVertex st.C (ops.getSourceVertex st.C e_id) = false
            ∧ ops.isNeuriteSimpleVertex st.C (ops.getSourceVertex st.C e_id) = false
          then Fault.impossibleSource else Fault.impossibleDestination) := by
    unfold collapseTarget
    rcases hroles with ⟨h1, h2, h3⟩ | ⟨h1, h2, h3⟩
    · simp [h1, h2, h3]
    · cases hr : ops.isNeuriteRootVertex st.C (ops.getSourceVertex st.C e_id) <;>
        cases hb : ops.isNeuriteBranchingVertex st.C (ops.getSourceVertex st.C e_id) <;>
        cases hsi : ops.isNeuriteSimpleVertex st.C (ops.getSourceVertex st.C e_id) <;>
        simp [h1, h2, h3]
  have hpop : processPopped ops alpha beta
      { C := st.C, Q := PriorityQueue.deleteMin st.Q, fixed_point := st.fixed_point }
      e_len e_id
      = .error (if ops.isNeuriteRootVertex st.C (ops.getSourceVertex st.C e_id) = false
            ∧ ops.isNeuriteBranchingVertex st.C (ops.getSourceVertex st.C e_id) = false
            ∧ ops.isNeuriteSimpleVertex st.C (ops.getSourceVertex st.C e_id) = false
          then Fault.impossibleSource else Fault.impossibleDestination) := by
    unfold processPopped
    rw [if_pos hfind, if_neg (not_lt.mpr hkey)]
    unfold processSegment
    rw [if_pos hw]
    unfold collapseSegment
    simp only [htarget]
  have hqueue : processQueue ops alpha beta (fuel + 1) st
      = some (.error (if ops.isNeuriteRootVertex st.C (ops.getSourceVertex st.C e_id) = false
            ∧ ops.isNeuriteBranchingVertex st.C (ops.getSourceVertex st.C e_id) = false
            ∧ ops.isNeuriteSimpleVertex st.C (ops.getSourceVertex st.C e_id) = false
          then Fault.impossibleSource else Fault.impossibleDestination)) := by
    unfold processQueue
    simp only [htop]
    rw [hpop]
  refine ⟨_, rfl, htarget, hpop, hqueue, ?_, ?_, ?_⟩
  · unfold roundCollapses
    simp only [htarget, Bool.and_false]
  · unfold collapsedSegments
    simp only [htop]
    rw [hpop]
  · intro hQ hfp
    have hst : st = { C := st.C, Q := initialQueue ops st.C, fixed_point := true } := by
      cases st
      simp only at hQ hfp
      subst hQ hfp
      rfl
    unfold greedyCollapse
    rw [← hst, hqueue]

end RoleTable

/-! ## The role table on concrete networks -/

section RoleInstances

/-- C24, on the neurite of one segment of length 1 from a root to a terminal
vertex (`alpha = 3`, `beta = 2`, `gamma = 3`): the preconditioner returns it as
it is, and its segment `10`, of weight `<= 0`, is in a skip configuration. -/
theorem nonpositive_weight_is_skipped_witness :
    preliminaryPreconditioning Toy.network len2Q 3 2 3 5 Toy.stub = some (.ok Toy.stub)
      ∧ calculate_ns_weight Toy.network 3 2 Toy.stub 10 ≤ 0
      ∧ ((Toy.network.isNeuriteRootVertex Toy.stub (Toy.network.getSourceVertex Toy.stub 10) = true
            ∧ (Toy.network.isNeuriteTerminalVertex Toy.stub
                  (Toy.network.getDestinationVertex Toy.stub 10) = true
              ∨ Toy.network.isNeuriteBranchingVertex Toy.stub
                  (Toy.network.getDestinationVertex Toy.stub 10) = true))
          ∨ (Toy.network.isNeuriteBranchingVertex Toy.stub
                (Toy.network.getSourceVertex Toy.stub 10) = true
            ∧ Toy.network.isNeuriteTerminalVertex Toy.stub
                (Toy.network.getDestinationVertex Toy.stub 10) = true)) :=
  ⟨by decide!, by decide!,
    (nonpositive_weight_is_skipped Toy.network len2Q 3 2 3 5 Toy.stub Toy.stub (by decide!) 10
      (by decide!)).1 (by decide!)⟩

/-- C27, on two networks with `alpha = 3`, `beta = 2`: a segment that runs
from a root into a second root vertex raises the fault of the destination,
and a segment whose source is declared terminal raises the fault of the
source. -/
theorem fault_outside_role_table_witness :
    processQueue Toy.network 3 2 1 { C := Toy.rootToRoot, Q := [(1, 10)], fixed_point := true }
        = some (.error Fault.impossibleDestination)
      ∧ processQueue (Toy.declared (fun v => if v = 0 then 1 else 3)) 3 2 1
          { C := Toy.stub, Q := [(1, 10)], fixed_point := true }
        = some (.error Fault.impossibleSource) :=
  ⟨match fault_outside_role_table Toy.network 3 2
      { C := Toy.rootToRoot, Q := [(1, 10)], fixed_point := true } 1 10 0
      (by decide!) (by decide!) (by decide!) (by decide!) (Or.inr (by decide!)) with
    | ⟨_, hf, _, _, hq, _⟩ => hq.trans (by rw [hf]; decide!),
   match fault_outside_role_table (Toy.declared (fun v => if v = 0 then 1 else 3)) 3 2
      { C := Toy.stub, Q := [(1, 10)], fixed_point := true } 1 10 0
      (by decide!) (by decide!) (by decide!) (by decide!) (Or.inl (by decide!)) with
    | ⟨_, hf, _, _, hq, _⟩ => hq.trans (by rw [hf]; decide!)⟩

end RoleInstances

/-! ## Every selected segment gets at least one interior vertex -/

section InteriorVertex

variable {R Net : Type} [LinearOrderedField R] [FloorRing R]

/-- C25 (amended): for a segment `lns` of length `uv_len` between vertices
with radii `r_u`, `r_v`, with `gamma >= 1`, `rmax = max r_u r_v > 0`,
`uv_len > gamma * rmax` and a bound `ceil (uv_len / rmax)` that fits the
32-bit counter (is below `2^32 - 1`): `nmax = ceil (uv_len / rmax)` is `>= 2`,
the candidate `k = 2` is accepted with a finite penalty, the chosen `n` is
`>= 2` and the vector kept for it is the one built for `n`, of `n + 1 >= 3`
entries whatever the vector held before; so the removal of its first and last
entry is defined and `split` is handed `n - 1 >= 1` interior vertices. -/
theorem selected_segment_is_split (ops : CellNetwork R Net) (len2 : Vec3 R → R) (gamma : R)
    (C : Net) (n_vertex_info : List (Vec3 R × R)) (lns : Nat) (uv_len r_u r_v : R)
    (p_u p_v : Vec3 R)
    (hlen : ops.getLength C lns = uv_len)
    (hpu : ops.getPosition C (ops.getSourceVertex C lns) = p_u)
    (hpv : ops.getPosition C (ops.getDestinationVertex C lns) = p_v)
    (hru : ops.getRadius C (ops.getSourceVertex C lns) = r_u)
    (hrv : ops.getRadius C (ops.getDestinationVertex C lns) = r_v)
    (hγ : 1 ≤ gamma) (hr : 0 < max r_u r_v) (hL : uv_len > gamma * max r_u r_v)
    (hrange : ⌈uv_len / max r_u r_v⌉₊ < 2 ^ 32 - 1) :
    nmaxOf uv_len (max r_u r_v) = some ⌈uv_len / max r_u r_v⌉₊
      ∧ 2 ≤ ⌈uv_len / max r_u r_v⌉₊
      ∧ testCandidate len2 gamma p_u p_v r_u r_v
          { n := 0, n_penalty := none, n_vertex_info := n_vertex_info } 2
        = { n := 2
            n_penalty := some (penalty_function len2 gamma (k_vertex_info p_u p_v r_u r_v 2))
            n_vertex_info := k_vertex_info p_u p_v r_u r_v 2 }
      ∧ ∃ best : SplitChoice R,
          chooseSplit len2 gamma p_u p_v r_u r_v ⌈uv_len / max r_u r_v⌉₊ n_vertex_info = best
            ∧ 2 ≤ best.n ∧ best.n ≤ ⌈uv_len / max r_u r_v⌉₊
            ∧ best.n_penalty
              = some (penalty_function len2 gamma (k_vertex_info p_u p_v r_u r_v best.n))
            ∧ best.n_vertex_info = k_vertex_info p_u p_v r_u r_v best.n
            ∧ best.n_vertex_info.length = best.n + 1
            ∧ 3 ≤ best.n_vertex_info.length
            ∧ splitArguments len2 gamma uv_len p_u p_v r_u r_v n_vertex_info
              = some { n := best.n, n_penalty := best.n_penalty
                       n_vertex_info := best.n_vertex_info.tail.dropLast }
            ∧ best.n_vertex_info.tail.dropLast.length = best.n - 1
            ∧ 1 ≤ best.n_vertex_info.tail.dropLast.length
            ∧ splitSegment ops len2 gamma C n_vertex_info lns
              = some (ops.split C lns best.n_vertex_info.tail.dropLast,
                  best.n_vertex_info.tail.dropLast) := by
  have h2 : 2 ≤ ⌈uv_len / max r_u r_v⌉₊ := two_le_ceil gamma uv_len _ hγ hr hL
  have hL0 : 0 ≤ uv_len :=
    le_of_lt (lt_of_le_of_lt (mul_nonneg (le_trans zero_le_one hγ) (le_of_lt hr)) hL)
  have hn : nmaxOf uv_len (max r_u r_v) = some ⌈uv_len / max r_u r_v⌉₊ :=
    nmaxOf_of_range uv_len _ hr hL0 hrange
  refine ⟨hn, h2, by simp [testCandidate, penaltyLess], ?_⟩
  rcases chooseSplit_fold len2 gamma p_u p_v r_u r_v n_vertex_info
      (⌈uv_len / max r_u r_v⌉₊ - 1) with ⟨hm, _⟩ | ⟨_, n, hn2, hnm, hfold, _, _⟩
  · omega
  · have hchoose : chooseSplit len2 gamma p_u p_v r_u r_v ⌈uv_len / max r_u r_v⌉₊ n_vertex_info
        = { n := n
            n_penalty := some (penalty_function len2 gamma (k_vertex_info p_u p_v r_u r_v n))
            n_vertex_info := k_vertex_info p_u p_v r_u r_v n } := by
      unfold chooseSplit
      exact hfold
    have hargs : splitArguments len2 gamma uv_len p_u p_v r_u r_v n_vertex_info
        = some { n := n
                 n_penalty := some (penalty_function len2 gamma
                    (k_vertex_info p_u p_v r_u r_v n))
                 n_vertex_info := (k_vertex_info p_u p_v r_u r_v n).tail.dropLast } := by
      unfold splitArguments
      simp only [hn, hchoose, k_vertex_info_length]
      rw [if_neg (by omega)]
    have hlen' : (k_vertex_info p_u p_v r_u r_v n).tail.dropLast.length = n - 1 := by
      rw [List.length_dropLast, List.length_tail, k_vertex_info_length]
      omega
    refine ⟨_, hchoose, hn2, ?_, rfl, rfl, k_vertex_info_length _ _ _ _ _, ?_, hargs,
      hlen', ?_, ?_⟩
    · show n ≤ ⌈uv_len / max r_u r_v⌉₊
      omega
    · show 3 ≤ (k_vertex_info p_u p_v r_u r_v n).length
      rw [k_vertex_info_length]
      omega
    · show 1 ≤ (k_vertex_info p_u p_v r_u r_v n).tail.dropLast.length
      rw [hlen']
      omega
    · unfold splitSegment
      simp only [hlen, hpu, hpv, hru, hrv, hargs]

end InteriorVertex

/-! ## Phase 1 on concrete networks -/

section SplitInstances

/-- C25 (amended), on the neurite of one segment of length 10 with radii 1 and
`gamma = 3`: `nmax = 10`, and `split` is handed the two interior vertices of
the chosen `n = 3`. -/
theorem selected_segment_is_split_witness :
    nmaxOf (10 : ℚ) (max 1 1) = some 10
      ∧ ∃ vs, splitSegment Toy.network len2Q 3 Toy.long [] 10
          = some (Toy.network.split Toy.long 10 vs, vs) ∧ 1 ≤ vs.length :=
  match selected_segment_is_split Toy.network len2Q 3 Toy.long [] 10 10 1 1 ⟨0, 0, 0⟩ ⟨10, 0, 0⟩
    (by decide!) (by decide!) (by decide!) (by decide!) (by decide!) (by decide!) (by decide!)
    (by decide!) (by decide!) with
  | ⟨h1, _, _, best, _, _, _, _, _, _, _, _, _, hlen, hs⟩ =>
    ⟨h1.trans (by decide!), best.n_vertex_info.tail.dropLast, hs, hlen⟩

/-- C25 as stated fails for a bound beyond the 32-bit counter: for the
straight segment of length `2^32` with radii 1 and `gamma = 1`,
`ceil (uv_len / rmax) = 2^32` does not fit the `uint32_t` variable `nmax`, no
candidate is tested and no interior vertex is handed to `split`. -/
theorem selected_segment_counterexample :
    (1 : ℚ) ≤ 1 ∧ (0 : ℚ) < max 1 1 ∧ (4294967296 : ℚ) > 1 * max 1 1
      ∧ ⌈(4294967296 : ℚ) / max 1 1⌉₊ = 2 ^ 32
      ∧ nmaxOf (4294967296 : ℚ) (max 1 1) = none
      ∧ splitArguments len2Q 1 4294967296 ⟨0, 0, 0⟩ ⟨4294967296, 0, 0⟩ 1 1 [] = none := by
  refine ⟨by decide!, by decide!, by decide!, ?_, by decide!, by decide!⟩
  norm_num

/-- C26: phase 1 does not look again at the segments it creates.  On the
neurite of one straight segment of length `12 = 2.4 * gamma * r` with radii
`r = 1` and `gamma = 5`, the segment `10` is the one long segment; `n = 2` is
chosen (penalty 2) and `split` is called once, with the midpoint; both
segments of the network phase 1 returns have length `6 > gamma * 1`, so both
still satisfy `length > gamma * maxRadius`. -/
theorem phase_one_leaves_long_segments :
    long_neurite_segments Toy.network 5 Toy.stretch = [10]
      ∧ Toy.network.getLength Toy.stretch 10 = 12 / 5 * 5 * 1
      ∧ splitArguments len2Q 5 12 ⟨0, 0, 0⟩ ⟨12, 0, 0⟩ 1 1 []
          = some { n := 2, n_penalty := some 2, n_vertex_info := [(⟨6, 0, 0⟩, 1)] }
      ∧ splitCalls Toy.network len2Q 5 Toy.stretch [] [10] = some [(10, [(⟨6, 0, 0⟩, 1)])]
      ∧ splitLongSegments Toy.network len2Q 5 Toy.stretch = some Toy.stretchSplit
      ∧ Toy.network.neurite_segments Toy.stretchSplit = [10, 12]
      ∧ (∀ s ∈ Toy.network.neurite_segments Toy.stretchSplit,
          Toy.network.getLength Toy.stretchSplit s = 6
            ∧ Toy.network.getMaxRadius Toy.stretchSplit s = 1
            ∧ Toy.network.getLength Toy.stretchSplit s
              > 5 * Toy.network.getMaxRadius Toy.stretchSplit s)
      ∧ long_neurite_segments Toy.network 5 Toy.stretchSplit = [10, 12] := by
  decide!

end SplitInstances

end AnaMorph
